import Mathlib

/-!
Verification development for the Alfred dashboard data gateway
(Supabase edge functions).  The definitions below are shallow embeddings of
the TypeScript sources, chiefly:

* `supabase/functions/fetchUserData/index.ts` — the parameter validator
  (`resolveParams`, `computeAutoDefaultValue`, `normalize*`), the template
  compiler (`buildParameterizedQuery`) with its `IN`/`NOT IN` array-operator
  regex rewrite, the batch loop of the `serve` handler, and
  `parseRequestBody`;
* `supabase/functions/_shared/http.ts` — `extractRoles`, `applyRateLimit`;
* the device endpoints (`checkDeviceStatus`, `registerLoginEvent`).

JavaScript dynamic values are modelled by the `JsValue` inductive; JS regexes
used by the code are small enough that their exact matching semantics on the
concrete patterns is reimplemented character by character (the patterns are
deterministic: every quantifier in them operates on a character class that is
disjoint from the character that must follow, so greedy matching without
backtracking is faithful — the one exception, the optional cast group, is
dealt with explicitly below).
-/

namespace Alfred

/-- Model of a JavaScript/JSON runtime value as it flows through the engine.
Numbers are modelled as integers (no claim under verification exercises
float-specific behaviour). -/
inductive JsValue where
  | vNull
  | vBool (b : Bool)
  | vInt (n : Int)
  | vStr (s : String)
  | vArr (elems : List JsValue)
  | vObj (fields : List (String × JsValue))

namespace JsValue

/-- `Array.isArray` on a modelled value. -/
def isArray : JsValue → Bool
  | vArr _ => true
  | _ => false

end JsValue

/-- Association-list lookup used to model JS object property access
(`Object.prototype.hasOwnProperty` + indexing).  First binding wins, which
matches JS objects whose keys are unique. -/
def jsLookup (m : List (String × JsValue)) (k : String) : Option JsValue :=
  (m.find? (fun p => p.fst = k)).map Prod.snd

/-! ### Character classes of the regexes in `buildParameterizedQuery`

`\w` (used through `\b`) is `[A-Za-z0-9_]`; `\s` is the JS whitespace class;
the marker name class is `[a-zA-Z0-9_]`; the cast identifier class is
`[a-zA-Z0-9_\[\]]`. -/

def isWordChar (c : Char) : Bool :=
  ((97 ≤ c.toNat) && (c.toNat ≤ 122)) || ((65 ≤ c.toNat) && (c.toNat ≤ 90)) ||
  ((48 ≤ c.toNat) && (c.toNat ≤ 57)) || (c.toNat = 95)

def isJsSpace (c : Char) : Bool :=
  c.toNat = 0x20 || c.toNat = 0x09 || c.toNat = 0x0a || c.toNat = 0x0d ||
  c.toNat = 0x0b || c.toNat = 0x0c ||
  c.toNat = 0xa0 || c.toNat = 0x1680 ||
  ((0x2000 <= c.toNat) && (c.toNat <= 0x200a)) ||
  c.toNat = 0x2028 || c.toNat = 0x2029 || c.toNat = 0x202f || c.toNat = 0x205f ||
  c.toNat = 0x3000 || c.toNat = 0xfeff

def isAsciiDigit (c : Char) : Bool :=
  (48 ≤ c.toNat) && (c.toNat ≤ 57)

def isCastChar (c : Char) : Bool :=
  isWordChar c || c = '[' || c = ']'

/-- ASCII case fold, as performed by the `i` flag on the ASCII patterns in the
source (`NOT`, `IN`). -/
def lcChar (c : Char) : Char :=
  if (65 ≤ c.toNat) && (c.toNat ≤ 90) then Char.ofNat (c.toNat + 32) else c

/-! ### The `{{ name }}` marker regex

Source regex (fetchUserData/index.ts:353): `/{{\s*([a-zA-Z0-9_]+)\s*}}/g`. -/

/-- Attempt to match the marker regex at the head of `s`.  Returns the
captured name together with the number of characters consumed. -/
def matchMarker : List Char → Option (List Char × Nat)
  | '{' :: '{' :: rest =>
    let sp1 := rest.takeWhile isJsSpace
    let r1 := rest.drop sp1.length
    let nm := r1.takeWhile isWordChar
    if nm.isEmpty then none
    else
      let r2 := r1.drop nm.length
      let sp2 := r2.takeWhile isJsSpace
      match r2.drop sp2.length with
      | '}' :: '}' :: _ =>
        some (nm, 2 + sp1.length + nm.length + sp2.length + 2)
      | _ => none
  | _ => none

/-! ### The array-operator patterns

Source (fetchUserData/index.ts:384-390), for a placeholder index `k`:

* `new RegExp("\\bNOT\\s+IN\\s*\\(\\s*\\$
  " + k + "(\\s*::[a-zA-Z0-9_\\[\\]]+)?\\s*\\)", "gi")` replaced by
  `<> ALL($k<cast>)`;
* `new RegExp("\\bIN\\s*\\(\\s*\\$" + k +
  "(\\s*::[a-zA-Z0-9_\\[\\]]+)?\\s*\\)", "gi")` replaced by `= ANY($k<cast>)`,

where `<cast>` is the text captured by the optional group (empty when the
group did not participate). -/

/-- Decimal digits of the placeholder index, as produced by JS template
interpolation of a number (standard decimal notation). -/
def digitsOfAux : Nat → Nat → List Char
  | 0, k => [Char.ofNat (48 + k % 10)]
  | fuel + 1, k =>
    if k < 10 then [Char.ofNat (48 + k)]
    else digitsOfAux fuel (k / 10) ++ [Char.ofNat (48 + k % 10)]

def digitsOf (k : Nat) : List Char := digitsOfAux k k

/-- Match the common tail `\s*\(\s*\$k(\s*::[a-zA-Z0-9_\[\]]+)?\s*\)` of both
patterns at the head of `s`, returning the captured cast (with its leading
whitespace, as the JS group captures it) and the number of characters
consumed. -/
def matchParens (k : Nat) (s : List Char) : Option (List Char × Nat) :=
  let sp1 := s.takeWhile isJsSpace
  match s.drop sp1.length with
  | '(' :: r2 =>
    let sp2 := r2.takeWhile isJsSpace
    match r2.drop sp2.length with
    | '$' :: r4 =>
      let kd := digitsOf k
      if r4.take kd.length = kd then
        let r5 := r4.drop kd.length
        -- optional capture group `(\s*::[a-zA-Z0-9_\[\]]+)?`
        let sp3 := r5.takeWhile isJsSpace
        let castRes : Option (List Char × List Char) :=
          match (r5.drop sp3.length) with
          | ':' :: ':' :: r7 =>
            let ident := r7.takeWhile isCastChar
            if ident.isEmpty then none
            else some (sp3 ++ ':' :: ':' :: ident, r7.drop ident.length)
          | _ => none
        match castRes with
        | some (cast, r8) =>
          -- after a successful group, `\s*\)` must close the pattern; if it
          -- does not, re-trying with the group unmatched also fails, because
          -- the text at the group start begins with `\s*::`
          let sp4 := r8.takeWhile isJsSpace
          match r8.drop sp4.length with
          | ')' :: _ =>
            some (cast,
              sp1.length + 1 + sp2.length + 1 + kd.length +
              cast.length + sp4.length + 1)
          | _ => none
        | none =>
          let sp4 := r5.takeWhile isJsSpace
          match r5.drop sp4.length with
          | ')' :: _ =>
            some ([], sp1.length + 1 + sp2.length + 1 + kd.length +
              sp4.length + 1)
          | _ => none
      else none
    | _ => none
  | _ => none

/-- `\b` before a word character: satisfied at the string start or after a
non-word character. -/
def boundaryOk (prev : Option Char) : Bool :=
  match prev with
  | none => true
  | some c => !isWordChar c

/-- Match `\bIN\s*\(\s*\$k(cast)?\s*\)` (case-insensitive) at the head. -/
def matchIn (k : Nat) (prev : Option Char) : List Char → Option (List Char × Nat)
  | c1 :: c2 :: rest =>
    if boundaryOk prev && lcChar c1 = 'i' && lcChar c2 = 'n' then
      match matchParens k rest with
      | some (cast, n) => some (cast, 2 + n)
      | none => none
    else none
  | _ => none

/-- Match `\bNOT\s+IN\s*\(\s*\$k(cast)?\s*\)` (case-insensitive) at the head. -/
def matchNotIn (k : Nat) (prev : Option Char) : List Char → Option (List Char × Nat)
  | c1 :: c2 :: c3 :: rest =>
    if boundaryOk prev && lcChar c1 = 'n' && lcChar c2 = 'o' && lcChar c3 = 't' then
      let sp := rest.takeWhile isJsSpace
      if sp.isEmpty then none
      else
        match rest.drop sp.length with
        | d1 :: d2 :: r2 =>
          if lcChar d1 = 'i' && lcChar d2 = 'n' then
            match matchParens k r2 with
            | some (cast, n) => some (cast, 3 + sp.length + 2 + n)
            | none => none
          else none
        | _ => none
    else none
  | _ => none

/-- Replacement text `= ANY($k<cast>)` of the `IN` pattern. -/
def inRepl (k : Nat) (cast : List Char) : List Char :=
  '=' :: ' ' :: 'A' :: 'N' :: 'Y' :: '(' :: '$' :: (digitsOf k ++ cast ++ [')'])

/-- Replacement text `<> ALL($k<cast>)` of the `NOT IN` pattern. -/
def notInRepl (k : Nat) (cast : List Char) : List Char :=
  '<' :: '>' :: ' ' :: 'A' :: 'L' :: 'L' :: '(' :: '$' :: (digitsOf k ++ cast ++ [')'])

/-- One global-replace pass of `String.replace` with one of the two patterns:
scan left to right, at each position attempt the match, replace on success and
resume after the match, tracking the previous character for `\b`.  `m` is the
matcher, `repl` the replacement builder. -/
def scanReplace (m : Option Char → List Char → Option (List Char × Nat))
    (repl : List Char → List Char) :
    Option Char → Nat → List Char → List Char
  | _, _, [] => []
  | _, skip + 1, c :: t => scanReplace m repl (some c) skip t
  | prev, 0, c :: t =>
    match m prev (c :: t) with
    | some (cast, n) =>
      repl cast ++ scanReplace m repl (some c) (n - 1) t
    | none => c :: scanReplace m repl (some c) 0 t

/-- The rewrite performed for one array placeholder `k`: `NOT IN` first, then
`IN` (fetchUserData/index.ts:386-390). -/
def rewriteForIndex (k : Nat) (text : List Char) : List Char :=
  scanReplace (matchIn k) (inRepl k) none 0
    (scanReplace (matchNotIn k) (notInRepl k) none 0 text)

/-- The full array-operator rewrite loop over the placeholder metadata
(index, isArray) in placeholder order (fetchUserData/index.ts:379-391). -/
def applyArrayRewrites (metas : List (Nat × Bool)) (text : List Char) : List Char :=
  metas.foldl (fun txt meta => if meta.snd then rewriteForIndex meta.fst txt else txt) text

/-! ### Placeholder substitution -/

/-- One entry of a `param_schema` JSON object
(fetchUserData/index.ts:9-23).  `type` is kept as a string exactly as the
code compares it. -/
structure ParamSchemaEntry where
  type : String
  required : Bool := false
  enum : List JsValue := []
  minimum : Option Int := none
  maximum : Option Int := none
  itemsType : Option String := none
  itemsEnum : List JsValue := []
  itemsMinimum : Option Int := none
  itemsMaximum : Option Int := none
  default : Option JsValue := none

abbrev ParamSchema := List (String × ParamSchemaEntry)

def schemaLookup (schema : ParamSchema) (k : String) : Option ParamSchemaEntry :=
  (schema.find? (fun p => p.fst = k)).map Prod.snd

/-- The callback-driven `template.replace(placeholderRegex, …)` pass of
`buildParameterizedQuery` (fetchUserData/index.ts:365-377): each marker
occurrence appends the bound value to `args`, is replaced by `$<args.length>`,
and records whether the parameter is an array (schema type `array` or the
value is a JS array).  A marker naming an absent parameter throws. -/
def substMarkers (params : List (String × JsValue)) (schema : ParamSchema) :
    Nat → List Char → List JsValue → List (Nat × Bool) →
    Except String (List Char × List JsValue × List (Nat × Bool))
  | _, [], args, metas => .ok ([], args, metas)
  | skip + 1, _ :: t, args, metas => substMarkers params schema skip t args metas
  | 0, c :: t, args, metas =>
    match matchMarker (c :: t) with
    | some (nameChars, n) =>
      let name := String.mk nameChars
      match jsLookup params name with
      | none =>
        .error ("Parâmetro '" ++ name ++ "' não foi informado para a query.")
      | some v =>
        let idx := args.length + 1
        let isArr := (schemaLookup schema name).any (fun e => e.type = "array")
          || v.isArray
        match substMarkers params schema (n - 1) t (args ++ [v])
            (metas ++ [(idx, isArr)]) with
        | .ok (rest, argsF, metasF) =>
          .ok ('$' :: digitsOf idx ++ rest, argsF, metasF)
        | .error e => .error e
    | none =>
      match substMarkers params schema 0 t args metas with
      | .ok (rest, argsF, metasF) => .ok (c :: rest, argsF, metasF)
      | .error e => .error e

/-- `buildParameterizedQuery` (fetchUserData/index.ts:348-400): substitute
markers, then apply the array-operator rewrite for every array placeholder.
(The unreferenced-parameter pass of the source only emits a console warning
and does not affect the result.) -/
def buildParameterizedQuery (template : String) (params : List (String × JsValue))
    (schema : ParamSchema) : Except String (String × List JsValue) :=
  match substMarkers params schema 0 template.data [] [] with
  | .ok (chars, args, metas) =>
    .ok (String.mk (applyArrayRewrites metas chars), args)
  | .error e => .error e

/-! ### Dates

`new Date()` / `toISOString` / `setDate` are modelled on civil day numbers
(days since 1970-01-01); the server runs in UTC, where
`setDate(getDate() + days)` is exactly day-number addition.  The
day-number/calendar conversions below are the standard civil-calendar
algorithms. -/

/-- Civil date from a day number (days since 1970-01-01). -/
def civilFromDays (z : Int) : Int × Nat × Nat :=
  let z2 := z + 719468
  let era := z2.fdiv 146097
  let doe := (z2 - era * 146097).toNat
  let yoe := (doe - doe / 1460 + doe / 36524 - doe / 146096) / 365
  let y := era * 400 + yoe
  let doy := doe - (365 * yoe + yoe / 4 - yoe / 100)
  let mp := (5 * doy + 2) / 153
  let d := doy - (153 * mp + 2) / 5 + 1
  let m := if mp < 10 then mp + 3 else mp - 9
  (if m ≤ 2 then y + 1 else y, m, d)

/-- Day number of a civil date (days since 1970-01-01). -/
def daysFromCivil (y : Int) (m d : Nat) : Int :=
  let y2 := if m ≤ 2 then y - 1 else y
  let era := y2.fdiv 400
  let yoe := (y2 - era * 400).toNat
  let mp : Nat := if m > 2 then m - 3 else m + 9
  let doy := (153 * mp + 2) / 5 + d - 1
  let doe := yoe * 365 + yoe / 4 - yoe / 100 + doy
  era * 146097 + (doe : Int) - 719468

def padDigits (width n : Nat) : List Char :=
  let ds := digitsOf n
  if ds.length < width then List.replicate (width - ds.length) '0' ++ ds else ds

/-- `toDateOnlyISO` (fetchUserData/index.ts:82-84): `toISOString().slice(0,10)`,
i.e. the zero-padded `YYYY-MM-DD` of the UTC calendar date. -/
def toDateOnlyISO (day : Int) : String :=
  let c := civilFromDays day
  let yChars := if c.fst < 0 then '-' :: padDigits 4 (-c.fst).toNat
    else padDigits 4 c.fst.toNat
  String.mk (yChars ++ '-' :: (padDigits 2 c.snd.fst ++ '-' :: padDigits 2 c.snd.snd))

/-! ### JS string utilities used by the validator -/

/-- ASCII case fold extended with the one non-ASCII letter occurring in the
patterns of the source (the accented i of the Portuguese word spelled
i-n-i-c-i-o with an acute accent), as JS case-insensitive matching folds it. -/
def lcCharI (c : Char) : Char :=
  if (65 ≤ c.toNat) && (c.toNat ≤ 90) then Char.ofNat (c.toNat + 32)
  else if c.toNat = 0xcd then Char.ofNat 0xed
  else c

def jsTrimList (l : List Char) : List Char :=
  ((l.dropWhile isJsSpace).reverse.dropWhile isJsSpace).reverse

/-- JS `String.prototype.trim`. -/
def jsTrim (s : String) : String := String.mk (jsTrimList s.data)

/-- Contiguous-substring occurrence test on character lists. -/
def startsWithSeq : List Char → List Char → Bool
  | [], _ => true
  | _ :: _, [] => false
  | n :: ns, h :: hs => n = h && startsWithSeq ns hs

def containsSub (needle : List Char) : List Char → Bool
  | [] => needle.isEmpty
  | c :: t => startsWithSeq needle (c :: t) || containsSub needle t

/-- `String.prototype.includes` on modelled strings. -/
def strIncludes (hay needle : String) : Bool := containsSub needle.data hay.data

/-- `/pat1|pat2|…/i.test(name)`: the alternatives of the source patterns are
plain words, so the test is a case-folded substring check. -/
def regexTestCI (alternatives : List String) (name : String) : Bool :=
  alternatives.any (fun p => containsSub p.data (name.data.map lcCharI))

mutual

/-- JS `String(value)` for array elements inside `Array.prototype.join`
(null renders as the empty string there), mutually defined with the
comma-join of `Array.prototype.toString`. -/
def jsStringInArray : JsValue → String
  | .vNull => ""
  | .vBool b => if b then "true" else "false"
  | .vInt n => n.repr
  | .vStr s => s
  | .vArr l => jsJoinComma l
  | .vObj _ => "[object Object]"

def jsJoinComma : List JsValue → String
  | [] => ""
  | [x] => jsStringInArray x
  | x :: y :: t => jsStringInArray x ++ "," ++ jsJoinComma (y :: t)

end

/-- JS `String(value)` at top level. -/
def jsString : JsValue → String
  | .vNull => "null"
  | .vBool b => if b then "true" else "false"
  | .vInt n => n.repr
  | .vStr s => s
  | .vArr l => jsJoinComma l
  | .vObj _ => "[object Object]"

/-- Platform-provided behaviour that the source delegates to the JS runtime:
`Number(string)` parsing, `new Date(string)` parsing and `new Date(number)`
(millisecond epoch); the latter two are abstracted as the civil day that
`toISOString().slice(0,10)` would produce, `none` meaning an invalid date /
NaN.  Theorems quantify over this environment. -/
structure JsEnv where
  parseNumber : String → Option Int
  parseDate : String → Option Int
  dateFromEpochMs : Int → Option Int

/-- JS `Number(value)` coercion on a modelled value (`none` = NaN). -/
def jsToNumber (env : JsEnv) : JsValue → Option Int
  | .vNull => some 0
  | .vBool b => some (if b then 1 else 0)
  | .vInt n => some n
  | .vStr s => if jsTrim s = "" then some 0 else env.parseNumber s
  | .vArr l =>
    let s := jsJoinComma l
    if jsTrim s = "" then some 0 else env.parseNumber s
  | .vObj _ => none

/-! ### The parameter validator (fetchUserData/index.ts:92-313) -/

/-- `DATE_ONLY_FORMAT = /^(\d{4})-(\d{2})-(\d{2})$/` (index.ts:62). -/
def matchesDateOnly (s : String) : Bool :=
  match s.data with
  | [a, b, c, d, h1, e, f, h2, g, i] =>
    isAsciiDigit a && isAsciiDigit b && isAsciiDigit c && isAsciiDigit d &&
    h1 = '-' && isAsciiDigit e && isAsciiDigit f && h2 = '-' &&
    isAsciiDigit g && isAsciiDigit i
  | _ => false

/-- `computeAutoDefaultValue` (index.ts:92-123).  `today` is the civil day of
`new Date()`; the result `none` is JS `undefined`. -/
def computeAutoDefaultValue (today : Int) (paramName : String)
    (schema : ParamSchemaEntry) : Option JsValue :=
  match schema.default with
  | some v => some v
  | none =>
    if schema.type = "date" then
      if regexTestCI ["fim", "final", "end"] paramName then
        some (.vStr (toDateOnlyISO today))
      else if regexTestCI ["inicio", "início", "start", "begin"] paramName then
        some (.vStr (toDateOnlyISO (today - 30)))
      else some (.vStr (toDateOnlyISO today))
    else if schema.type = "number" then
      match schema.minimum with
      | some mn => some (.vInt mn)
      | none =>
        match schema.maximum with
        | some mx => if mx < 1000 then some (.vInt mx) else some (.vInt 0)
        | none => some (.vInt 0)
    else if schema.type = "array" && !schema.itemsEnum.isEmpty then
      some (.vArr schema.itemsEnum)
    else none

/-- `normalizeBoolean` (index.ts:125-137). -/
def normalizeBoolean : JsValue → Bool
  | .vBool b => b
  | .vStr s =>
    let n := String.mk ((jsTrim s).data.map lcCharI)
    n = "true" || n = "1"
  | .vInt n => n ≠ 0
  | _ => false

/-- `normalizeNumber` (index.ts:139-153).  Finiteness checks collapse to
parse success in the integer model. -/
def normalizeNumber (env : JsEnv) (v : JsValue) : Except String Int :=
  match v with
  | .vInt n => .ok n
  | .vStr s =>
    if jsTrim s ≠ "" then
      match env.parseNumber s with
      | some n => .ok n
      | none => .error ("Valor numérico inválido: " ++ jsString v)
    else .error ("Valor numérico inválido: " ++ jsString v)
  | .vBool b => .ok (if b then 1 else 0)
  | _ => .error ("Valor numérico inválido: " ++ jsString v)

/-- `normalizeDate` (index.ts:155-175).  (The `instanceof Date` branch is
unreachable for JSON-decoded parameters and is omitted.) -/
def normalizeDate (env : JsEnv) (v : JsValue) : Except String String :=
  match v with
  | .vStr s =>
    if matchesDateOnly s then .ok s
    else
      match env.parseDate s with
      | some day => .ok (toDateOnlyISO day)
      | none => .error ("Valor de data inválido: " ++ jsString v)
  | .vInt n =>
    match env.dateFromEpochMs n with
    | some day => .ok (toDateOnlyISO day)
    | none => .error ("Valor de data inválido: " ++ jsString v)
  | _ => .error ("Valor de data inválido: " ++ jsString v)

/-- `normalizeString` (index.ts:177-185). -/
def normalizeString : JsValue → String
  | .vStr s => s
  | .vNull => ""
  | v => jsString v

/-- The `ensureArray` helper of `normalizeArrayValue` (index.ts:188-206). -/
def ensureArray : JsValue → List JsValue
  | .vArr l => l
  | .vStr s =>
    let t := jsTrim s
    if t = "" then []
    else ((t.splitOn ",").map jsTrim).filter (fun x => x ≠ "") |>.map .vStr
  | .vNull => []
  | v => [v]

/-- Per-item validation of `normalizeArrayValue` (index.ts:213-238). -/
def normalizeArrayItem (env : JsEnv) (itemsType : String)
    (itemsEnum : List JsValue) (itemsMin itemsMax : Option Int)
    (item : JsValue) : Except String JsValue :=
  if itemsType = "number" then
    match normalizeNumber env item with
    | .error e => .error e
    | .ok n =>
      if itemsMin.any (fun mn => n < mn) then
        .error ("Valor do array abaixo do mínimo permitido (" ++
          (itemsMin.getD 0).repr ++ ").")
      else if itemsMax.any (fun mx => n > mx) then
        .error ("Valor do array acima do máximo permitido (" ++
          (itemsMax.getD 0).repr ++ ").")
      else .ok (.vInt n)
  else if itemsType = "boolean" then .ok (.vBool (normalizeBoolean item))
  else if itemsType = "date" then
    match normalizeDate env item with
    | .ok s => .ok (.vStr s)
    | .error e => .error e
  else
    let strValue := normalizeString item
    if !itemsEnum.isEmpty && !(itemsEnum.map jsString).contains strValue then
      .error ("Valor '" ++ strValue ++ "' não é permitido para o campo.")
    else .ok (.vStr strValue)

/-- `normalizeArrayValue` (index.ts:187-239). -/
def normalizeArrayValue (env : JsEnv) (entry : ParamSchemaEntry)
    (v : JsValue) : Except String (List JsValue) :=
  let base := ensureArray v
  match entry.itemsType with
  | none => .ok base
  | some it =>
    base.mapM (normalizeArrayItem env it entry.itemsEnum entry.itemsMinimum
      entry.itemsMaximum)

/-- `normalizeValue` (index.ts:241-278).  The argument `v` is `none` for JS
`undefined` and `some .vNull` for JS `null`; the result `none` means the
parameter is left unset. -/
def normalizeValue (env : JsEnv) (paramName : String) (entry : ParamSchemaEntry)
    (v : Option JsValue) : Except String (Option JsValue) :=
  match v with
  | none =>
    if entry.required then .error ("Parâmetro obrigatório ausente: " ++ paramName)
    else .ok none
  | some .vNull =>
    if entry.required then .error ("Parâmetro obrigatório ausente: " ++ paramName)
    else .ok none
  | some val =>
    if entry.type = "number" then
      match normalizeNumber env val with
      | .error e => .error e
      | .ok n =>
        if entry.minimum.any (fun mn => n < mn) then
          .error ("Valor de '" ++ paramName ++ "' abaixo do mínimo permitido (" ++
            (entry.minimum.getD 0).repr ++ ").")
        else if entry.maximum.any (fun mx => n > mx) then
          .error ("Valor de '" ++ paramName ++ "' acima do máximo permitido (" ++
            (entry.maximum.getD 0).repr ++ ").")
        else if !entry.enum.isEmpty &&
            !((entry.enum.map (jsToNumber env)).contains (some n)) then
          .error ("Valor '" ++ n.repr ++ "' não é permitido para '" ++ paramName ++ "'.")
        else .ok (some (.vInt n))
    else if entry.type = "date" then
      match normalizeDate env val with
      | .ok s => .ok (some (.vStr s))
      | .error e => .error e
    else if entry.type = "boolean" then .ok (some (.vBool (normalizeBoolean val)))
    else if entry.type = "array" then
      match normalizeArrayValue env entry val with
      | .ok l => .ok (some (.vArr l))
      | .error e => .error e
    else
      let stringValue := normalizeString val
      if !entry.enum.isEmpty && !((entry.enum.map jsString).contains stringValue) then
        .error ("Valor '" ++ stringValue ++ "' não é permitido para '" ++ paramName ++ "'.")
      else .ok (some (.vStr stringValue))

/-- JS nullish coalescing `a ?? b` on optional values (`none` = undefined). -/
def jsCoalesce : Option JsValue → Option JsValue → Option JsValue
  | some .vNull, d => d
  | some v, _ => some v
  | none, d => d

/-- The body of the per-entry loop of `resolveParams` (index.ts:288-301):
pick `provided[name] ?? defaults[name]`, fall back to the auto-default when
that is undefined, then validate; a defined result is appended to the
accumulated parameter object. -/
def resolveStep (env : JsEnv) (today : Int)
    (defaults : List (String × JsValue)) (provided : Option (List (String × JsValue)))
    (acc : Except String (List (String × JsValue))) (p : String × ParamSchemaEntry) :
    Except String (List (String × JsValue)) :=
  match acc with
  | .error e => .error e
  | .ok finalParams =>
    let suppliedValue := provided.bind (fun pl => jsLookup pl p.fst)
    let defaultValue := jsLookup defaults p.fst
    let afterCoalesce := jsCoalesce suppliedValue defaultValue
    let valueToUse := match afterCoalesce with
      | none => computeAutoDefaultValue today p.fst p.snd
      | some v => some v
    match normalizeValue env p.fst p.snd valueToUse with
    | .error e => .error e
    | .ok none => .ok finalParams
    | .ok (some n) => .ok (finalParams ++ [(p.fst, n)])

/-- `resolveParams` (index.ts:280-313): walk the schema entries in order,
pick provided > default > auto-default, validate, then pass through the
provided parameters that the schema does not declare. -/
def resolveParams (env : JsEnv) (today : Int) (schema : ParamSchema)
    (defaults : List (String × JsValue)) (provided : Option (List (String × JsValue))) :
    Except String (List (String × JsValue)) :=
  let providedList := provided.getD []
  match schema.foldl (resolveStep env today defaults provided) (.ok []) with
  | .error e => .error e
  | .ok finalParams =>
    .ok (finalParams ++
      providedList.filter (fun q => !(schema.map Prod.fst).contains q.fst))


/-! ### Role extraction

`extractRoles` (_shared/http.ts:185-210) and `extractUserRoles`
(fetchUserData/index.ts:446-472). -/

/-- A user as far as role extraction is concerned: the two metadata maps,
each possibly absent. -/
structure JsUser where
  app_metadata : Option (List (String × JsValue)) := none
  user_metadata : Option (List (String × JsValue)) := none

def metaGet (m : Option (List (String × JsValue))) (k : String) : Option JsValue :=
  m.bind (fun l => jsLookup l k)

/-- JS truthiness test on a possibly-undefined value (`none` = undefined).
NaN is not representable in the model. -/
def jsFalsy : Option JsValue → Bool
  | none => true
  | some .vNull => true
  | some (.vBool false) => true
  | some (.vInt 0) => true
  | some (.vStr "") => true
  | _ => false

/-- Insertion into a JS `Set<string>` materialised as an insertion-ordered
duplicate-free list. -/
def setAdd (l : List String) (s : String) : List String :=
  if l.contains s then l else l ++ [s]

/-- The shared loop body of both role extractors: `if (!source) continue;`
then a string adds itself and an array adds its string elements. -/
def rolesAddSource (roles : List String) (src : Option JsValue) : List String :=
  if jsFalsy src then roles
  else
    match src with
    | some (.vStr s) => setAdd roles s
    | some (.vArr items) =>
      items.foldl (fun acc it =>
        match it with
        | .vStr s => setAdd acc s
        | _ => acc) roles
    | _ => roles

/-- The four `role`/`roles` sources in the order both extractors walk them. -/
def roleSources (u : JsUser) : List (Option JsValue) :=
  [metaGet u.app_metadata "role", metaGet u.user_metadata "role",
   metaGet u.app_metadata "roles", metaGet u.user_metadata "roles"]

/-- `extractRoles` (_shared/http.ts:185-210): seeded with
`{"authenticated"}`. -/
def extractRoles (u : JsUser) : List String :=
  (roleSources u).foldl rolesAddSource ["authenticated"]

/-- `extractUserRoles` (fetchUserData/index.ts:446-472): seeded with
`{"user", "authenticated"}`. -/
def extractUserRoles (u : JsUser) : List String :=
  (roleSources u).foldl rolesAddSource ["user", "authenticated"]

/-! ### Device approval (checkDeviceStatus / registerLoginEvent) -/

/-- The fields of a `security_user_devices` row consulted by the two
handlers.  `none` models SQL NULL. -/
structure DeviceRecord where
  status : String
  approval_token : Option String
  confirmed_at : Option String

/-- JS falsiness of a nullable string column (`!record.field`): NULL or the
empty string. -/
def strFalsy : Option String → Bool
  | none => true
  | some s => s = ""

/-- Outcome of the device-handling branch of a handler, as far as token
issuance and mailing are concerned. -/
structure DeviceOutcome where
  requiresConfirmation : Bool
  finalToken : Option String
  generatedNewToken : Bool
  confirmationEmailSent : Bool
  loginEmailSent : Bool
  statusAfter : String

/-- The known-device path of `checkDeviceStatus` (its serve handler, lines
482-524 of the source): on a not-yet-approved record, mint a fresh token iff
`resend` was requested or the stored token is falsy, and send the
confirmation email iff a fresh token was minted or `resend` was requested.
`freshToken` stands for `crypto.randomUUID()`. -/
def checkDeviceStatusCore (rec : DeviceRecord) (resend : Bool)
    (freshToken : String) : DeviceOutcome :=
  let requiresConfirmation := rec.status ≠ "approved" || strFalsy rec.confirmed_at
  if requiresConfirmation then
    let shouldGenerateNewToken := resend || strFalsy rec.approval_token
    let approvalToken := if shouldGenerateNewToken then freshToken
      else rec.approval_token.getD ""
    { requiresConfirmation := true
      finalToken := some approvalToken
      generatedNewToken := shouldGenerateNewToken
      confirmationEmailSent := shouldGenerateNewToken || resend
      loginEmailSent := false
      statusAfter := "pending" }
  else
    { requiresConfirmation := false
      finalToken := rec.approval_token
      generatedNewToken := false
      confirmationEmailSent := false
      loginEmailSent := false
      statusAfter := rec.status }

/-- The known-device branch of `registerLoginEvent` (its serve handler,
lines 325-376 of the source): on a not-yet-approved record the token is
`approval_token ?? randomUUID()` — a fresh token iff the stored one is NULL,
irrespective of `resend` — and a confirmation email is always sent; on an
approved record a login-notification email is sent instead. -/
def registerLoginKnownDevice (rec : DeviceRecord) (resend : Bool)
    (freshToken : String) : DeviceOutcome :=
  if rec.status ≠ "approved" || strFalsy rec.confirmed_at then
    let approvalToken := match rec.approval_token with
      | some t => t
      | none => freshToken
    { requiresConfirmation := true
      finalToken := some approvalToken
      generatedNewToken := rec.approval_token.isNone
      confirmationEmailSent := true
      loginEmailSent := false
      statusAfter := "pending" }
  else
    { requiresConfirmation := false
      finalToken := rec.approval_token
      generatedNewToken := false
      confirmationEmailSent := false
      loginEmailSent := true
      statusAfter := rec.status }

/-! ### Rate limiter (`applyRateLimit`, _shared/http.ts:104-134) -/

structure RateBucket where
  count : Nat
  resetAt : Int

/-- The process-local `rateLimitBuckets` map, insertion-ordered. -/
abbrev RateState := List (String × RateBucket)

def rlGet (st : RateState) (k : String) : Option RateBucket :=
  (st.find? (fun p => p.fst = k)).map Prod.snd

/-- `Map.set`: overwrite the existing binding in place, else append. -/
def rlSet (st : RateState) (k : String) (b : RateBucket) : RateState :=
  if (st.find? (fun p => p.fst = k)).isSome then
    st.map (fun p => if p.fst = k then (k, b) else p)
  else st ++ [(k, b)]

/-- The 429 payload produced on rejection. -/
structure RateLimitReject where
  status : Nat
  retryAfterSeconds : Int
  retryAfterHeader : String

/-- `Math.ceil(a / 1000)` on an integer count of milliseconds. -/
def ceilDiv1000 (a : Int) : Int := -((-a).fdiv 1000)

/-- `applyRateLimit` (_shared/http.ts:104-134), for an already-derived bucket
key: returns the 429 rejection (if any) and the updated bucket map.  `now` is
`Date.now()` in milliseconds. -/
def applyRateLimit (st : RateState) (bucketKey : String) (now : Int)
    (windowMs : Int) (maxCount : Nat) : Option RateLimitReject × RateState :=
  match rlGet st bucketKey with
  | none => (none, rlSet st bucketKey ⟨1, now + windowMs⟩)
  | some existing =>
    if existing.resetAt ≤ now then
      (none, rlSet st bucketKey ⟨1, now + windowMs⟩)
    else if existing.count ≥ maxCount then
      let retryAfterSeconds := max 1 (ceilDiv1000 (existing.resetAt - now))
      (some { status := 429, retryAfterSeconds,
              retryAfterHeader := toString retryAfterSeconds }, st)
    else
      (none, rlSet st bucketKey ⟨existing.count + 1, existing.resetAt⟩)

/-- A sequence of calls on one bucket key, returning the final state. -/
def applyRateLimitSeq (bucketKey : String) (windowMs : Int) (maxCount : Nat) :
    RateState → List Int → RateState
  | st, [] => st
  | st, t :: ts =>
    applyRateLimitSeq bucketKey windowMs maxCount
      (applyRateLimit st bucketKey t windowMs maxCount).snd ts

/-! ### Request-body parsing (`parseRequestBody`, fetchUserData/index.ts
402-417 and the same function in the table-enabled variant) -/

/-- `parseRequestBody`: `rawBody` is the outcome of `await req.text()`
(`none` when reading threw), `jsonParse` the platform JSON parser (`none`
when `JSON.parse` throws).  Every failure path yields `{}`; a parsed value
that is not a JS object (where arrays and objects both have
`typeof === "object"`) also yields `{}`. -/
def parseRequestBody (jsonParse : String → Option JsValue)
    (rawBody : Option String) : JsValue :=
  match rawBody with
  | none => .vObj []
  | some raw =>
    if jsTrim raw = "" then .vObj []
    else
      match jsonParse raw with
      | none => .vObj []
      | some parsed =>
        match parsed with
        | .vObj m => .vObj m
        | .vArr a => .vArr a
        | _ => .vObj []

/-- `Array.isArray(requestBody.graphs) ? requestBody.graphs : null`
(index.ts:614): property access on a non-object (including an array result of
`parseRequestBody`) yields undefined, hence `none`. -/
def bodyGraphs (body : JsValue) : Option (List JsValue) :=
  match body with
  | .vObj m =>
    match jsLookup m "graphs" with
    | some (.vArr l) => some l
    | _ => none
  | _ => none

/-! ### The batch loop of the `serve` handler

Graph loop: fetchUserData/index.ts:656-728; table loop: the table-enabled
variant, lines 890-1147.  Iterations of both loops are independent (the
accumulated maps are only written, never read), so each loop is expressed as
a per-row outcome followed by the accumulation of the outcomes in row
order. -/

/-- One row returned by the tenant database for an executed query; the
sanitisation of bigint/Date cell values is outside the model (the execution
oracle used in the theorems already returns JSON values). -/
abbrev DbRow := List (String × JsValue)

/-- The `allowed_roles` column as `normalizeGraphRecord` leaves it:
a string array, a string, or NULL. -/
inductive RolesField where
  | rNull
  | rArr (l : List JsValue)
  | rStr (s : String)

/-- `normalizeAllowedRoles` (index.ts:419-444). -/
def normalizeAllowedRoles (v : RolesField) : List String :=
  match v with
  | .rNull => []
  | .rArr l => (l.map (fun r => jsTrim (jsString r))).filter (fun x => x ≠ "")
  | .rStr s =>
    if jsTrim s = "" then []
    else
      let t := jsTrim s
      let stripQuotes := fun (x : String) => String.mk (x.data.filter (fun c => c ≠ '"'))
      match t.data with
      | '{' :: _ =>
        if t.data.getLast? = some '}' then
          (((String.mk ((t.data.drop 1).dropLast)).splitOn ",").map
            (fun item => jsTrim (stripQuotes item))).filter (fun x => x ≠ "")
        else
          ((t.splitOn ",").map (fun role => jsTrim (stripQuotes role))).filter
            (fun x => x ≠ "")
      | _ =>
        ((t.splitOn ",").map (fun role => jsTrim (stripQuotes role))).filter
          (fun x => x ≠ "")

/-- A chart metadata row after `normalizeGraphRecord` (index.ts:474-514). -/
structure GraphRecordRow where
  id : Nat
  slug : String
  query_template : String
  param_schema : Option ParamSchema
  default_params : Option (List (String × JsValue))
  allowed_roles : RolesField

/-- The outcome of one iteration of the graph loop (index.ts:658-720): a
per-slug error message, or the executed dataset. -/
def graphRowOutcome (env : JsEnv) (today : Int)
    (exec : String → List JsValue → Except String (List DbRow))
    (userRoles : List String)
    (providedParamsMap : List (String × List (String × JsValue)))
    (r : GraphRecordRow) : Except String (List DbRow) :=
  if jsTrim r.query_template = "" then .error "Query template vazio."
  else
    let allowedRoles := normalizeAllowedRoles r.allowed_roles
    if !allowedRoles.isEmpty && !(allowedRoles.any (fun role => userRoles.contains role)) then
      .error "Usuário não possui permissão para este gráfico."
    else
      let schema := r.param_schema.getD []
      let defaults := r.default_params.getD []
      let provided := (providedParamsMap.find? (fun p => p.fst = r.slug)).map Prod.snd
      match resolveParams env today schema defaults provided with
      | .error e => .error e
      | .ok resolvedParams =>
        match buildParameterizedQuery r.query_template resolvedParams
            (r.param_schema.getD []) with
        | .error e => .error e
        | .ok (text, args) =>
          match exec text args with
          | .error e => .error e
          | .ok rows => .ok rows

/-- Accumulated result of the graph side of the batch. -/
structure GraphBatchOutput where
  datasets : List (Nat × List DbRow)
  errors : List (String × String)
  graphicsIds : List Nat
  returnedSlugs : List String

/-- The graph batch (index.ts:656-728): run every metadata row, then add a
`não encontrado` error for every requested slug that no row covered. -/
def runGraphBatch (env : JsEnv) (today : Int)
    (exec : String → List JsValue → Except String (List DbRow))
    (userRoles : List String)
    (providedParamsMap : List (String × List (String × JsValue)))
    (requestedSlugs : List String)
    (rows : List GraphRecordRow) : GraphBatchOutput :=
  let outcomes := rows.map (fun r =>
    (r, graphRowOutcome env today exec userRoles providedParamsMap r))
  let returned := rows.map (fun r => r.slug)
  { datasets := outcomes.filterMap (fun p =>
      match p.snd with
      | .ok ds => some (p.fst.id, ds)
      | .error _ => none)
    errors := (outcomes.filterMap (fun p =>
      match p.snd with
      | .ok _ => none
      | .error e => some (p.fst.slug, e))) ++
      (if requestedSlugs ≠ [] then
        (requestedSlugs.filter (fun s => !returned.contains s)).map
          (fun s => (s, "Gráfico não encontrado ou inativo."))
      else [])
    graphicsIds := outcomes.filterMap (fun p =>
      match p.snd with
      | .ok _ => some p.fst.id
      | .error _ => none)
    returnedSlugs := returned }

/-- A table metadata row after `normalizeTableRecord` (table variant,
lines 620-668); only the fields the loop consults are modelled. -/
structure TableRecordRow where
  id : Nat
  slug : String
  query_template : String
  param_schema : Option ParamSchema
  default_params : Option (List (String × JsValue))
  allowed_roles : RolesField

/-- One iteration of the dashboard-tables loop (table variant, lines
1065-1128); identical to the graph loop up to the error message. -/
def tableRowOutcome (env : JsEnv) (today : Int)
    (exec : String → List JsValue → Except String (List DbRow))
    (userRoles : List String)
    (providedTableParams : List (String × List (String × JsValue)))
    (r : TableRecordRow) : Except String (List DbRow) :=
  if jsTrim r.query_template = "" then .error "Query template vazio."
  else
    let allowedRoles := normalizeAllowedRoles r.allowed_roles
    if !allowedRoles.isEmpty && !(allowedRoles.any (fun role => userRoles.contains role)) then
      .error "Usuário não possui permissão para esta tabela."
    else
      let schema := r.param_schema.getD []
      let defaults := r.default_params.getD []
      let provided := (providedTableParams.find? (fun p => p.fst = r.slug)).map Prod.snd
      match resolveParams env today schema defaults provided with
      | .error e => .error e
      | .ok resolvedParams =>
        match buildParameterizedQuery r.query_template resolvedParams
            (r.param_schema.getD []) with
        | .error e => .error e
        | .ok (text, args) =>
          match exec text args with
          | .error e => .error e
          | .ok rows => .ok rows

structure TableBatchOutput where
  tableRows : List (Nat × List DbRow)
  tableErrors : List (String × String)
  tableIds : List Nat
  returnedSlugs : List String

/-- The table side of the batch (table variant, lines 890-1147).  The
baseline `clientes` table (id 0) is included when no table slugs were
requested or `clientes` was; its fixed query (text assembled from the
`information_schema` probe for `ultimo_acesso`) is abstracted as
`baseResult`, the outcome of executing it.  `hasDashboardTables` is the
`to_regclass` probe; `tableMeta` the outcome of the `dashboard_tables`
metadata query. -/
def runTableBatch (env : JsEnv) (today : Int)
    (exec : String → List JsValue → Except String (List DbRow))
    (userRoles : List String)
    (providedTableParams : List (String × List (String × JsValue)))
    (requestedTableSlugs : List String)
    (baseResult : Except String (List DbRow))
    (hasDashboardTables : Bool)
    (tableMeta : Except String (List TableRecordRow)) : TableBatchOutput :=
  let shouldIncludeBaseTable :=
    requestedTableSlugs = [] || requestedTableSlugs.contains "clientes"
  let basePart : TableBatchOutput :=
    if shouldIncludeBaseTable then
      match baseResult with
      | .ok rows =>
        { tableRows := [(0, rows)], tableErrors := [], tableIds := [0],
          returnedSlugs := ["clientes"] }
      | .error e =>
        { tableRows := [], tableErrors := [("clientes", e)], tableIds := [0],
          returnedSlugs := ["clientes"] }
    else
      { tableRows := [], tableErrors := [], tableIds := [], returnedSlugs := [] }
  let filteredTableSlugs := requestedTableSlugs.filter (fun s => s ≠ "clientes")
  let dashPart : TableBatchOutput :=
    if hasDashboardTables then
      match tableMeta with
      | .error e =>
        { tableRows := [], tableErrors := [("__metadata", e)], tableIds := [],
          returnedSlugs := [] }
      | .ok trows =>
        let outcomes := trows.map (fun r =>
          (r, tableRowOutcome env today exec userRoles providedTableParams r))
        { tableRows := outcomes.filterMap (fun p =>
            match p.snd with
            | .ok ds => some (p.fst.id, ds)
            | .error _ => none)
          tableErrors := outcomes.filterMap (fun p =>
            match p.snd with
            | .ok _ => none
            | .error e => some (p.fst.slug, e))
          tableIds := outcomes.filterMap (fun p =>
            match p.snd with
            | .ok _ => some p.fst.id
            | .error _ => none)
          returnedSlugs := trows.map (fun r => r.slug) }
    else if filteredTableSlugs ≠ [] then
      { tableRows := [],
        tableErrors := filteredTableSlugs.map (fun s =>
          (s, "Tabela personalizada indisponível: metadados não foram provisionados."))
        tableIds := [], returnedSlugs := [] }
    else
      { tableRows := [], tableErrors := [], tableIds := [], returnedSlugs := [] }
  let returned := basePart.returnedSlugs ++ dashPart.returnedSlugs
  let notFound : List (String × String) :=
    if requestedTableSlugs ≠ [] then
      (requestedTableSlugs.filter (fun s =>
        !(s = "clientes" && shouldIncludeBaseTable) && !returned.contains s)).map
        (fun s => (s, "Tabela não encontrada ou inativa."))
    else []
  { tableRows := basePart.tableRows ++ dashPart.tableRows
    tableErrors := basePart.tableErrors ++ dashPart.tableErrors ++ notFound
    tableIds := basePart.tableIds ++ dashPart.tableIds
    returnedSlugs := returned }

/-- The HTTP result the handler produces once it has reached the batch: the
status is unconditionally 200 whatever the per-slug outcomes were
(index.ts:730-744). -/
def fetchUserDataResponseStatus (_graphOut : GraphBatchOutput)
    (_tableOut : TableBatchOutput) : Nat := 200


/-! ### Specification-side notions used to state the claims -/

/-- Whether the `IN` pattern for index `k` matches anywhere in the text,
`prev` being the character preceding the scanned suffix. -/
def hasInMatch (k : Nat) (prev : Option Char) : List Char → Bool
  | [] => false
  | c :: t => (matchIn k prev (c :: t)).isSome || hasInMatch k (some c) t

/-- Whether the `NOT IN` pattern for index `k` matches anywhere. -/
def hasNotInMatch (k : Nat) (prev : Option Char) : List Char → Bool
  | [] => false
  | c :: t => (matchNotIn k prev (c :: t)).isSome || hasNotInMatch k (some c) t

/-- Whether a matcher fires at any scan position of the text, `prev` being
the character preceding the scanned suffix (generalizes `hasInMatch` and
`hasNotInMatch` over the matcher). -/
def hasScanMatch (m : Option Char → List Char → Option (List Char × Nat)) :
    Option Char → List Char → Bool
  | _, [] => false
  | prev, c :: t => (m prev (c :: t)).isSome || hasScanMatch m (some c) t

/-- The marker names of a template in occurrence order, collected by the
same scan as `countMarkers`. -/
def markerNames : Nat → List Char → List String
  | _, [] => []
  | skip + 1, _ :: t => markerNames skip t
  | 0, c :: t =>
    match matchMarker (c :: t) with
    | some (nm, n) => String.mk nm :: markerNames (n - 1) t
    | none => markerNames 0 t

/-- A list of JS whitespace characters. -/
def SpList (l : List Char) : Prop := ∀ c ∈ l, isJsSpace c = true

/-- Shape of the text captured by the optional cast group
`(\s*::[a-zA-Z0-9_\[\]]+)?`: empty (group not participating) or whitespace,
`::`, and a nonempty cast identifier. -/
def CastShape (cast : List Char) : Prop :=
  cast = [] ∨
  ∃ sp ident, cast = sp ++ ':' :: ':' :: ident ∧ SpList sp ∧ ident ≠ [] ∧
    ∀ c ∈ ident, isCastChar c = true

/-- Declarative reading of one occurrence of the `IN ( $k [::cast] )`
pattern: a case-variant of `IN`, optional whitespace, `(`, optional
whitespace, `$k`, the optional cast, optional whitespace, `)`. -/
def InInstance (k : Nat) (cast w : List Char) : Prop :=
  ∃ ci cn sp1 sp2 sp4,
    lcChar ci = 'i' ∧ lcChar cn = 'n' ∧ SpList sp1 ∧ SpList sp2 ∧ SpList sp4 ∧
    CastShape cast ∧
    w = ci :: cn :: (sp1 ++ '(' :: (sp2 ++ '$' ::
      (digitsOf k ++ cast ++ sp4 ++ [')'])))

/-- Declarative reading of one occurrence of `NOT IN ( $k [::cast] )`:
a case-variant of `NOT`, mandatory whitespace, then an `IN` occurrence. -/
def NotInInstance (k : Nat) (cast w : List Char) : Prop :=
  ∃ cn co ct sp0 wIn,
    lcChar cn = 'n' ∧ lcChar co = 'o' ∧ lcChar ct = 't' ∧
    SpList sp0 ∧ sp0 ≠ [] ∧ InInstance k cast wIn ∧
    w = cn :: co :: ct :: (sp0 ++ wIn)

/-- `InRewrites k prev s u`: `u` is `s` with every word-boundary-delimited
occurrence of the `IN ( $k [::cast] )` pattern replaced, leftmost first and
non-overlapping, by `= ANY($k<cast>)`, the cast preserved verbatim.  `prev`
is the character preceding `s` (`none` at the start of the text). -/
inductive InRewrites (k : Nat) : Option Char → List Char → List Char → Prop where
  | nil (prev) : InRewrites k prev [] []
  | keep (prev) (c : Char) (t u : List Char) :
      (¬ (boundaryOk prev = true ∧
          ∃ cast w rest, c :: t = w ++ rest ∧ InInstance k cast w)) →
      InRewrites k (some c) t u → InRewrites k prev (c :: t) (c :: u)
  | repl (prev) (cast w rest u : List Char) :
      boundaryOk prev = true → InInstance k cast w →
      InRewrites k (some ')') rest u →
      InRewrites k prev (w ++ rest) (inRepl k cast ++ u)

/-- Same as `InRewrites` for the `NOT IN` pattern, replacement
`<> ALL($k<cast>)`. -/
inductive NotInRewrites (k : Nat) : Option Char → List Char → List Char → Prop where
  | nil (prev) : NotInRewrites k prev [] []
  | keep (prev) (c : Char) (t u : List Char) :
      (¬ (boundaryOk prev = true ∧
          ∃ cast w rest, c :: t = w ++ rest ∧ NotInInstance k cast w)) →
      NotInRewrites k (some c) t u → NotInRewrites k prev (c :: t) (c :: u)
  | repl (prev) (cast w rest u : List Char) :
      boundaryOk prev = true → NotInInstance k cast w →
      NotInRewrites k (some ')') rest u →
      NotInRewrites k prev (w ++ rest) (notInRepl k cast ++ u)

/-- The contribution of one `role`/`roles` source as the specification words
it (claim C7 and §4.1 of the spec), restricted to what the code actually
adds: a non-empty string contributes itself, an array contributes its string
elements, anything else contributes nothing. -/
def sourceContrib : Option JsValue → List String
  | some (.vStr s) => if s = "" then [] else [s]
  | some (.vArr l) =>
    l.filterMap (fun it =>
      match it with
      | .vStr s => some s
      | _ => none)
  | _ => []

/-- The contribution of the four sources as claim C7 words it verbatim:
every string value contributes itself (also the empty one). -/
def claimContrib : Option JsValue → List String
  | some (.vStr s) => [s]
  | some (.vArr l) =>
    l.filterMap (fun it =>
      match it with
      | .vStr s => some s
      | _ => none)
  | _ => []

/-- A degenerate platform environment for evaluating closed counterexamples:
no string parses as a number or date. -/
def cexEnv : JsEnv :=
  { parseNumber := fun _ => none
    parseDate := fun _ => none
    dateFromEpochMs := fun _ => none }

/-- A concrete `dashboard_tables` metadata row slugged `clientes` whose query
template is empty, as the unfiltered metadata query can return it when the
only requested table slug is `clientes` (the `AND slug = ANY(...)` clause is
added only when a non-`clientes` slug was requested, lines 1056-1059). -/
def cexCliRow : TableRecordRow :=
  { id := 7, slug := "clientes", query_template := "",
    param_schema := none, default_params := none, allowed_roles := .rNull }


/-! ## Theorems -/

/-! ### C7 — role extraction -/

theorem mem_setAdd (l : List String) (s r : String) :
    r ∈ setAdd l s ↔ r ∈ l ∨ r = s := by
  unfold setAdd
  by_cases h : l.contains s
  · simp only [h, if_true]
    constructor
    · exact Or.inl
    · rintro (hr | rfl)
      · exact hr
      · exact List.elem_iff.mp h
  · rw [if_neg h]
    simp only [List.mem_append, List.mem_singleton]

theorem mem_foldl_strAdd (items : List JsValue) (init : List String) (r : String) :
    r ∈ items.foldl (fun acc it =>
        match it with
        | JsValue.vStr s => setAdd acc s
        | _ => acc) init ↔
      r ∈ init ∨ r ∈ items.filterMap (fun it =>
        match it with
        | JsValue.vStr s => some s
        | _ => none) := by
  induction items generalizing init with
  | nil => simp
  | cons hd tl ih =>
    cases hd <;>
      simp only [List.foldl_cons, List.filterMap_cons, ih, mem_setAdd,
        List.mem_cons] <;> tauto

theorem mem_rolesAddSource (init : List String) (src : Option JsValue) (r : String) :
    r ∈ rolesAddSource init src ↔ r ∈ init ∨ r ∈ sourceContrib src := by
  unfold rolesAddSource sourceContrib
  match src with
  | none => simp [jsFalsy]
  | some JsValue.vNull => simp [jsFalsy]
  | some (JsValue.vBool b) => cases b <;> simp [jsFalsy]
  | some (JsValue.vInt n) =>
    by_cases h : n = 0
    · subst h; simp [jsFalsy]
    · simp only [jsFalsy]
      rw [if_neg (by simp [h])]
      simp
  | some (JsValue.vStr s) =>
    by_cases h : s = ""
    · subst h; simp [jsFalsy]
    · simp only [jsFalsy]
      rw [if_neg (by simp [h]), if_neg h]
      simp [mem_setAdd]
  | some (JsValue.vArr items) => simp [jsFalsy, mem_foldl_strAdd]
  | some (JsValue.vObj fields) => simp [jsFalsy]

theorem mem_foldl_rolesAddSource (srcs : List (Option JsValue))
    (init : List String) (r : String) :
    r ∈ srcs.foldl rolesAddSource init ↔ r ∈ init ∨ r ∈ srcs.flatMap sourceContrib := by
  induction srcs generalizing init with
  | nil => simp
  | cons hd tl ih =>
    simp only [List.foldl_cons, List.flatMap_cons, ih, mem_rolesAddSource,
      List.mem_append]
    tauto

/-- C1 of the claim list is handled further below; this theorem settles
claim C7.  The claim as stated is false: `extractUserRoles` seeds the set
with `user` besides `authenticated`, and both extractors skip falsy sources,
so an empty-string `role` does not contribute itself.  At the concrete user
below whose `app_metadata.role` is `""`, the code returns
`{user, authenticated}` for the chart path while the claimed set is
`{authenticated, ""}`, and the shared helper returns `{authenticated}`,
which also misses the claimed `""`. -/
theorem claim_C7_counterexample :
    ("user" ∈ extractUserRoles
        { app_metadata := some [("role", JsValue.vStr "")] } ∧
      "user" ∉ "authenticated" ::
        (roleSources { app_metadata := some [("role", JsValue.vStr "")] }).flatMap
          claimContrib) ∧
    ("" ∈ "authenticated" ::
        (roleSources { app_metadata := some [("role", JsValue.vStr "")] }).flatMap
          claimContrib ∧
      "" ∉ extractRoles { app_metadata := some [("role", JsValue.vStr "")] }) := by
  decide

/-- C7, amended: the shared `extractRoles` returns exactly
`{"authenticated"}` united with the contributions of the four sources
`app_metadata.role`, `user_metadata.role`, `app_metadata.roles`,
`user_metadata.roles`, where a *non-empty* string contributes itself, a list
contributes its string elements and anything else (including the empty
string, which is falsy) contributes nothing; `extractUserRoles` of the chart
path returns the same united with `{"user"}` besides. -/
theorem claim_C7_amended (u : JsUser) (r : String) :
    (r ∈ extractRoles u ↔
      r = "authenticated" ∨ r ∈ (roleSources u).flatMap sourceContrib) ∧
    (r ∈ extractUserRoles u ↔
      r = "user" ∨ r = "authenticated" ∨ r ∈ (roleSources u).flatMap sourceContrib) := by
  unfold extractRoles extractUserRoles
  rw [mem_foldl_rolesAddSource, mem_foldl_rolesAddSource]
  simp only [List.mem_singleton, List.mem_cons]
  tauto


/-! ### C8 — pending-device token issuance -/

/-- Claim C8 is false on both handlers it names.  At the concrete pending
record below (stored token `"t0"`, `confirmed_at` NULL): with `resend = true`
the claim demands a fresh token from both handlers, yet the known-device
branch of `registerLoginEvent` keeps `"t0"` (it ignores `resend`:
`approval_token ?? randomUUID()`); and with `resend = false` the claim
demands a confirmation email in the token-kept case, yet `checkDeviceStatus`
sends none (`shouldGenerateNewToken || resend` is false). -/
theorem claim_C8_counterexample :
    ((registerLoginKnownDevice
        { status := "pending", approval_token := some "t0", confirmed_at := none }
        true "t1").finalToken = some "t0" ∧
      (registerLoginKnownDevice
        { status := "pending", approval_token := some "t0", confirmed_at := none }
        true "t1").generatedNewToken = false) ∧
    ((checkDeviceStatusCore
        { status := "pending", approval_token := some "t0", confirmed_at := none }
        false "t1").confirmationEmailSent = false ∧
      (checkDeviceStatusCore
        { status := "pending", approval_token := some "t0", confirmed_at := none }
        false "t1").generatedNewToken = false) := by
  decide

/-- C8, amended: on a pending record, `checkDeviceStatus` mints a fresh token
iff the client set `resend` or the stored token is NULL *or empty*, and sends
a confirmation email iff it minted a fresh token; the known-device branch of
`registerLoginEvent` mints a fresh token iff the stored token is NULL
(`resend` is ignored there) and always sends a confirmation email. -/
theorem claim_C8_amended (rec : DeviceRecord) (resend : Bool) (fresh : String)
    (hpending : rec.status ≠ "approved" ∨ strFalsy rec.confirmed_at = true) :
    ((checkDeviceStatusCore rec resend fresh).generatedNewToken =
        (resend || strFalsy rec.approval_token)) ∧
    ((checkDeviceStatusCore rec resend fresh).finalToken =
        some (if resend || strFalsy rec.approval_token then fresh
          else rec.approval_token.getD "")) ∧
    ((checkDeviceStatusCore rec resend fresh).confirmationEmailSent =
        (checkDeviceStatusCore rec resend fresh).generatedNewToken) ∧
    ((registerLoginKnownDevice rec resend fresh).generatedNewToken =
        rec.approval_token.isNone) ∧
    ((registerLoginKnownDevice rec resend fresh).finalToken =
        some (rec.approval_token.getD fresh)) ∧
    (registerLoginKnownDevice rec resend fresh).confirmationEmailSent = true := by
  have hreq : (rec.status ≠ "approved" || strFalsy rec.confirmed_at) = true := by
    rcases hpending with h | h
    · simp [h]
    · simp [h]
  unfold checkDeviceStatusCore registerLoginKnownDevice
  rw [if_pos hreq, if_pos hreq]
  refine ⟨rfl, ?_, ?_, ?_, ?_, rfl⟩
  · by_cases h : (resend || strFalsy rec.approval_token) = true
    · simp [h]
    · simp only [Bool.not_eq_true] at h
      simp [h]
  · cases resend <;> simp
  · cases h : rec.approval_token <;> simp
  · cases h : rec.approval_token <;> simp

/-- Witness for `claim_C8_amended` at a concrete pending record. -/
theorem claim_C8_amended_witness :
    (("pending" : String) ≠ "approved" ∨ strFalsy (none : Option String) = true) ∧
    ((checkDeviceStatusCore ⟨"pending", some "t0", none⟩
        true "t1").generatedNewToken = (true || strFalsy (some "t0")) ∧
      (registerLoginKnownDevice ⟨"pending", some "t0", none⟩
        true "t1").confirmationEmailSent = true) :=
  ⟨Or.inl (by decide),
    ⟨(claim_C8_amended ⟨"pending", some "t0", none⟩ true "t1"
        (Or.inl (by decide))).1,
      (claim_C8_amended ⟨"pending", some "t0", none⟩ true "t1"
        (Or.inl (by decide))).2.2.2.2.2⟩⟩


/-! ### C10 — request-body parsing -/

/-- Claim C10 is almost right but overstates one case: a JSON *array* body is
not turned into `{}` — `typeof [] === "object"`, so `parseRequestBody`
returns the array itself.  Concretely, with a parser that reads `"[]"` as the
empty array, the function returns that array, which differs from `{}`. -/
theorem claim_C10_counterexample :
    parseRequestBody (fun s => if s = "[]" then some (JsValue.vArr []) else none)
      (some "[]") = JsValue.vArr [] ∧
    JsValue.vArr [] ≠ JsValue.vObj [] :=
  ⟨rfl, fun h => JsValue.noConfusion h⟩

/-- C10, amended: body parsing is total and never yields a 400 — a missing,
empty, malformed, or non-object non-array JSON body is replaced by `{}`; an
array body is passed through unchanged, but it carries no `graphs` property,
so the batch treats it exactly like `{}` (all active charts, default
parameters); an object body is passed through unchanged. -/
theorem claim_C10_amended (jsonParse : String → Option JsValue) :
    (parseRequestBody jsonParse none = JsValue.vObj []) ∧
    (∀ raw, jsTrim raw = "" → parseRequestBody jsonParse (some raw) = JsValue.vObj []) ∧
    (∀ raw, jsTrim raw ≠ "" → jsonParse raw = none →
      parseRequestBody jsonParse (some raw) = JsValue.vObj []) ∧
    (∀ raw m, jsTrim raw ≠ "" → jsonParse raw = some (JsValue.vObj m) →
      parseRequestBody jsonParse (some raw) = JsValue.vObj m) ∧
    (∀ raw a, jsTrim raw ≠ "" → jsonParse raw = some (JsValue.vArr a) →
      parseRequestBody jsonParse (some raw) = JsValue.vArr a ∧
        bodyGraphs (JsValue.vArr a) = none) ∧
    (∀ raw v, jsTrim raw ≠ "" → jsonParse raw = some v →
      (∀ m, v ≠ JsValue.vObj m) → (∀ a, v ≠ JsValue.vArr a) →
      parseRequestBody jsonParse (some raw) = JsValue.vObj []) ∧
    bodyGraphs (JsValue.vObj []) = none := by
  refine ⟨rfl, ?_, ?_, ?_, ?_, ?_, rfl⟩
  · intro raw h
    simp [parseRequestBody, h]
  · intro raw h hp
    simp [parseRequestBody, h, hp]
  · intro raw m h hp
    simp [parseRequestBody, h, hp]
  · intro raw a h hp
    exact ⟨by simp [parseRequestBody, h, hp, bodyGraphs], rfl⟩
  · intro raw v h hp hobj harr
    simp only [parseRequestBody, h, if_neg h, hp]
    match v with
    | JsValue.vNull => rfl
    | JsValue.vBool b => rfl
    | JsValue.vInt n => rfl
    | JsValue.vStr s => rfl
    | JsValue.vArr a => exact absurd rfl (harr a)
    | JsValue.vObj m => exact absurd rfl (hobj m)

/-- Witness for `claim_C10_amended` with a concrete parser and bodies. -/
theorem claim_C10_amended_witness :
    (jsTrim " " = "" ∧
      parseRequestBody (fun _ => some (JsValue.vInt 7)) (some " ") = JsValue.vObj []) ∧
    (jsTrim "7" ≠ "" ∧
      parseRequestBody (fun _ => some (JsValue.vInt 7)) (some "7") = JsValue.vObj []) :=
  ⟨⟨by decide, (claim_C10_amended (fun _ => some (JsValue.vInt 7))).2.1 " " (by decide)⟩,
   ⟨by decide, (claim_C10_amended (fun _ => some (JsValue.vInt 7))).2.2.2.2.2.1 "7"
      (JsValue.vInt 7) (by decide) rfl (fun m h => JsValue.noConfusion h)
      (fun a h => JsValue.noConfusion h)⟩⟩


/-! ### C9 — rate limiter -/

theorem rlGet_rlSet_self (st : RateState) (k : String) (b : RateBucket) :
    rlGet (rlSet st k b) k = some b := by
  unfold rlGet rlSet
  by_cases h : (st.find? (fun p => p.fst = k)).isSome
  · rw [if_pos h]
    induction st with
    | nil => simp at h
    | cons hd tl ih =>
      by_cases hk : hd.fst = k
      · simp [List.find?_cons, hk]
      · simp only [List.map_cons, if_neg hk]
        rw [List.find?_cons_of_neg _ (by simpa using hk)]
        apply ih
        rwa [List.find?_cons_of_neg _ (by simpa using hk)] at h
  · rw [if_neg h]
    induction st with
    | nil => simp
    | cons hd tl ih =>
      by_cases hk : hd.fst = k
      · exfalso
        apply h
        rw [List.find?_cons_of_pos _ (by simpa using hk)]
        rfl
      · simp only [List.cons_append]
        rw [List.find?_cons_of_neg _ (by simpa using hk)]
        apply ih
        intro hs
        apply h
        rwa [List.find?_cons_of_neg _ (by simpa using hk)]

theorem ceilDiv1000_pos {a : Int} (h : 1 ≤ a) : 1 ≤ ceilDiv1000 a := by
  unfold ceilDiv1000
  rw [Int.fdiv_eq_ediv _ (by norm_num)]
  omega

/-- Helper: starting from a bucket `⟨c, reset⟩` with `1 ≤ c ≤ m`, a sequence
of calls all before `reset` leaves the bucket at `⟨min (c + len) m, reset⟩`:
accepted calls increment the counter up to `m`, further calls are rejected
and leave it unchanged. -/
theorem applyRateLimitSeq_count (k : String) (w : Int) (m : Nat) (hm : 1 ≤ m) :
    ∀ (ts : List Int) (st : RateState) (c : Nat) (reset : Int),
      rlGet st k = some ⟨c, reset⟩ → 1 ≤ c → c ≤ m →
      (∀ t ∈ ts, t < reset) →
      rlGet (applyRateLimitSeq k w m st ts) k = some ⟨min (c + ts.length) m, reset⟩ := by
  intro ts
  induction ts with
  | nil =>
    intro st c reset hget hc1 hcm _
    simp only [applyRateLimitSeq, List.length_nil]
    rw [hget]
    have hmin : min (c + 0) m = c := by
      rw [Nat.add_zero]
      exact min_eq_left hcm
    rw [hmin]
  | cons t ts ih =>
    intro st c reset hget hc1 hcm hts
    have hlt : t < reset := hts t (List.mem_cons_self t ts)
    unfold applyRateLimitSeq
    unfold applyRateLimit
    rw [hget]
    simp only
    rw [if_neg (by omega)]
    by_cases hfull : c ≥ m
    · rw [if_pos hfull]
      rw [ih st c reset hget hc1 hcm (fun x hx => hts x (List.mem_cons_of_mem _ hx))]
      have h1 : min (c + ts.length) m = m := min_eq_right (by omega)
      have h2 : min (c + (t :: ts).length) m = m := min_eq_right (by
        simp only [List.length_cons]
        omega)
      rw [h1, h2]
    · rw [if_neg hfull]
      rw [ih (rlSet st k ⟨c + 1, reset⟩) (c + 1) reset
        (rlGet_rlSet_self st k ⟨c + 1, reset⟩) (by omega) (by omega)
        (fun x hx => hts x (List.mem_cons_of_mem _ hx))]
      have h2 : c + 1 + ts.length = c + (t :: ts).length := by
        simp only [List.length_cons]
        omega
      rw [h2]

/-- C9: the token-bucket behaviour of `applyRateLimit`.  (i) A call on a full
bucket (`count ≥ max`) before `resetAt` is rejected with a 429 carrying
`retryAfterSeconds = ⌈(resetAt − now)/1000⌉` and an equal `Retry-After`
header, and leaves the state unchanged.  (ii) A call at or after `resetAt`
is accepted and resets the counter to 1 with a fresh window.  (iii) From an
empty bucket, `max` accepted calls within one window leave the counter at
`max`, so the next call before the window end is rejected as in (i). -/
theorem claim_C9 (k : String) (w : Int) (m : Nat) :
    (∀ (st : RateState) (now : Int) (b : RateBucket),
      rlGet st k = some b → m ≤ b.count → now < b.resetAt →
      (applyRateLimit st k now w m).fst =
        some { status := 429, retryAfterSeconds := ceilDiv1000 (b.resetAt - now),
               retryAfterHeader := toString (ceilDiv1000 (b.resetAt - now)) } ∧
      (applyRateLimit st k now w m).snd = st) ∧
    (∀ (st : RateState) (now : Int) (b : RateBucket),
      rlGet st k = some b → b.resetAt ≤ now →
      (applyRateLimit st k now w m).fst = none ∧
      rlGet (applyRateLimit st k now w m).snd k = some ⟨1, now + w⟩) ∧
    (∀ (st : RateState) (t1 : Int) (ts : List Int),
      1 ≤ m → rlGet st k = none → (∀ t ∈ ts, t < t1 + w) →
      rlGet (applyRateLimitSeq k w m st (t1 :: ts)) k =
        some ⟨min (1 + ts.length) m, t1 + w⟩) := by
  refine ⟨?_, ?_, ?_⟩
  · intro st now b hget hfull hnow
    unfold applyRateLimit
    rw [hget]
    simp only
    rw [if_neg (by omega), if_pos (by omega)]
    have h1 : 1 ≤ ceilDiv1000 (b.resetAt - now) := ceilDiv1000_pos (by omega)
    rw [max_eq_right h1]
    exact ⟨rfl, rfl⟩
  · intro st now b hget hreset
    unfold applyRateLimit
    rw [hget]
    simp only
    rw [if_pos (by omega)]
    exact ⟨rfl, rlGet_rlSet_self st k _⟩
  · intro st t1 ts hm hget hts
    unfold applyRateLimitSeq
    unfold applyRateLimit
    rw [hget]
    simp only
    exact applyRateLimitSeq_count k w m hm ts _ 1 (t1 + w)
      (rlGet_rlSet_self st k _) (by omega) hm hts

/-- Witness for `claim_C9`: window 60 s, quota 2, calls at times 0 and 1 fill
the bucket; the call at time 2 is rejected with `retryAfterSeconds = 60`; the
call at time 60000 is accepted and resets the counter. -/
theorem claim_C9_witness :
    (rlGet (applyRateLimitSeq "k" 60000 2 [] [0, 1]) "k" = some ⟨2, 60000⟩ ∧
      (applyRateLimit (applyRateLimitSeq "k" 60000 2 [] [0, 1]) "k" 2 60000 2).fst =
        some { status := 429, retryAfterSeconds := 60, retryAfterHeader := "60" } ∧
      rlGet (applyRateLimit (applyRateLimitSeq "k" 60000 2 [] [0, 1]) "k"
          60000 60000 2).snd "k" = some ⟨1, 120000⟩) := by
  have hseq := (claim_C9 "k" 60000 2).2.2 [] 0 [1] (by decide) rfl
    (by intro t ht; simp at ht; omega)
  have hseq2 : rlGet (applyRateLimitSeq "k" 60000 2 [] [0, 1]) "k" =
      some ⟨2, 60000⟩ := by
    simpa using hseq
  refine ⟨hseq2, ?_, ?_⟩
  · have := ((claim_C9 "k" 60000 2).1 (applyRateLimitSeq "k" 60000 2 [] [0, 1])
      2 ⟨2, 60000⟩ hseq2 (by decide) (by decide)).1
    rw [this]
    rfl
  · exact ((claim_C9 "k" 60000 2).2.1 (applyRateLimitSeq "k" 60000 2 [] [0, 1])
      60000 ⟨2, 60000⟩ hseq2 (by decide)).2


/-! ### C6 — date auto-defaults -/

theorem toNat_ofNat_small {n : Nat} (h : n < 0xd800) : (Char.ofNat n).toNat = n := by
  unfold Char.ofNat
  rw [dif_pos (Or.inl h)]
  show (UInt32.ofNat' n _).toNat = n
  simp [UInt32.ofNat', UInt32.toNat]

theorem digitsOfAux_irrel : ∀ (k fuel1 fuel2 : Nat), k ≤ fuel1 → k ≤ fuel2 →
    digitsOfAux fuel1 k = digitsOfAux fuel2 k := by
  intro k
  induction k using Nat.strong_induction_on with
  | _ k ih =>
    intro fuel1 fuel2 h1 h2
    by_cases hk : k < 10
    · have unf : ∀ fuel, digitsOfAux fuel k = [Char.ofNat (48 + k)] := by
        intro fuel
        cases fuel with
        | zero =>
          show [Char.ofNat (48 + k % 10)] = [Char.ofNat (48 + k)]
          rw [Nat.mod_eq_of_lt hk]
        | succ f =>
          show (if k < 10 then _ else _) = _
          rw [if_pos hk]
      rw [unf fuel1, unf fuel2]
    · obtain ⟨f1, rfl⟩ : ∃ f1, fuel1 = f1 + 1 := ⟨fuel1 - 1, by omega⟩
      obtain ⟨f2, rfl⟩ : ∃ f2, fuel2 = f2 + 1 := ⟨fuel2 - 1, by omega⟩
      show (if k < 10 then _ else digitsOfAux f1 (k / 10) ++ _) =
        (if k < 10 then _ else digitsOfAux f2 (k / 10) ++ _)
      rw [if_neg hk, if_neg hk,
        ih (k / 10) (Nat.div_lt_self (by omega) (by omega)) f1 f2
          (by omega) (by omega)]

theorem digitsOf_small {k : Nat} (h : k < 10) :
    digitsOf k = [Char.ofNat (48 + k)] := by
  unfold digitsOf
  cases k with
  | zero => rfl
  | succ n =>
    show (if n + 1 < 10 then _ else _) = _
    rw [if_pos h]

theorem digitsOf_step {k : Nat} (h : 10 ≤ k) :
    digitsOf k = digitsOf (k / 10) ++ [Char.ofNat (48 + k % 10)] := by
  unfold digitsOf
  match k, h with
  | m + 1, h =>
    show (if m + 1 < 10 then _ else digitsOfAux m ((m + 1) / 10) ++ _) = _
    rw [if_neg (by omega)]
    rw [digitsOfAux_irrel ((m + 1) / 10) m ((m + 1) / 10)
      (by omega) (Nat.le_refl _)]

theorem digitsOf_digits (k : Nat) : ∀ c ∈ digitsOf k, isAsciiDigit c = true := by
  induction k using Nat.strong_induction_on with
  | _ k ih =>
    by_cases h : k < 10
    · rw [digitsOf_small h]
      intro c hc
      simp only [List.mem_singleton] at hc
      subst hc
      simp only [isAsciiDigit, toNat_ofNat_small (by omega : 48 + k < 0xd800)]
      simp only [Bool.and_eq_true, decide_eq_true_eq]
      omega
    · rw [digitsOf_step (by omega)]
      intro c hc
      rcases List.mem_append.mp hc with h1 | h1
      · exact ih (k / 10) (Nat.div_lt_self (by omega) (by omega)) c h1
      · simp only [List.mem_singleton] at h1
        subst h1
        simp only [isAsciiDigit, toNat_ofNat_small (by omega : 48 + k % 10 < 0xd800)]
        simp only [Bool.and_eq_true, decide_eq_true_eq]
        omega

theorem digitsOf_len1 {k : Nat} (h : k < 10) : (digitsOf k).length = 1 := by
  rw [digitsOf_small h]
  rfl

theorem digitsOf_len2 {k : Nat} (h1 : 10 ≤ k) (h2 : k < 100) :
    (digitsOf k).length = 2 := by
  rw [digitsOf_step h1, List.length_append, digitsOf_len1 (by omega)]
  rfl

theorem digitsOf_len3 {k : Nat} (h1 : 100 ≤ k) (h2 : k < 1000) :
    (digitsOf k).length = 3 := by
  rw [digitsOf_step (by omega), List.length_append,
    digitsOf_len2 (by omega) (by omega)]
  rfl

theorem digitsOf_len4 {k : Nat} (h1 : 1000 ≤ k) (h2 : k < 10000) :
    (digitsOf k).length = 4 := by
  rw [digitsOf_step (by omega), List.length_append,
    digitsOf_len3 (by omega) (by omega)]
  rfl

theorem digitsOf_len_le4 {k : Nat} (h : k < 10000) : (digitsOf k).length ≤ 4 := by
  by_cases h1 : k < 10
  · rw [digitsOf_len1 h1]; omega
  · by_cases h2 : k < 100
    · rw [digitsOf_len2 (by omega) h2]; omega
    · by_cases h3 : k < 1000
      · rw [digitsOf_len3 (by omega) h3]; omega
      · rw [digitsOf_len4 (by omega) h]

theorem digitsOf_len_le2 {k : Nat} (h : k < 100) : (digitsOf k).length ≤ 2 := by
  by_cases h1 : k < 10
  · rw [digitsOf_len1 h1]; omega
  · rw [digitsOf_len2 (by omega) h]

theorem padDigits_spec (width n : Nat) (h : (digitsOf n).length ≤ width) :
    (padDigits width n).length = width ∧
    ∀ c ∈ padDigits width n, isAsciiDigit c = true := by
  unfold padDigits
  by_cases hlt : (digitsOf n).length < width
  · rw [if_pos hlt]
    constructor
    · rw [List.length_append, List.length_replicate]
      omega
    · intro c hc
      rcases List.mem_append.mp hc with h1 | h1
      · rw [List.eq_of_mem_replicate h1]
        rfl
      · exact digitsOf_digits n c h1
  · rw [if_neg hlt]
    exact ⟨by omega, digitsOf_digits n⟩

theorem civil_bounds_weak {z : Int} (h0 : 0 ≤ z) (h1 : z ≤ 2900000) :
    0 ≤ (civilFromDays z).fst ∧ (civilFromDays z).fst ≤ 9999 ∧
    (civilFromDays z).snd.fst ≤ 99 ∧ (civilFromDays z).snd.snd ≤ 99 := by
  unfold civilFromDays
  simp only [Int.fdiv_eq_ediv _ (by norm_num : (0:Int) ≤ 146097)]
  split_ifs <;> refine ⟨by omega, by omega, by omega, by omega⟩

theorem list_len4 {l : List Char} (h : l.length = 4) :
    ∃ a b c d, l = [a, b, c, d] := by
  match l, h with
  | [a, b, c, d], _ => exact ⟨a, b, c, d, rfl⟩

theorem list_len2 {l : List Char} (h : l.length = 2) :
    ∃ a b, l = [a, b] := by
  match l, h with
  | [a, b], _ => exact ⟨a, b, rfl⟩

/-- In the useful clock range (1970-01-01 up to the year 9909) the formatted
date satisfies the `DATE_ONLY_FORMAT` regex. -/
theorem matchesDateOnly_toDateOnlyISO {z : Int} (h0 : 0 ≤ z) (h1 : z ≤ 2900000) :
    matchesDateOnly (toDateOnlyISO z) = true := by
  obtain ⟨hy0, hy1, hm, hd⟩ := civil_bounds_weak h0 h1
  simp only [toDateOnlyISO]
  rw [if_neg (by omega : ¬ (civilFromDays z).fst < 0)]
  obtain ⟨hl4, hd4⟩ := padDigits_spec 4 (civilFromDays z).fst.toNat
    (digitsOf_len_le4 (by omega))
  obtain ⟨hl2a, hd2a⟩ := padDigits_spec 2 (civilFromDays z).snd.fst
    (digitsOf_len_le2 (by omega))
  obtain ⟨hl2b, hd2b⟩ := padDigits_spec 2 (civilFromDays z).snd.snd
    (digitsOf_len_le2 (by omega))
  obtain ⟨a, b, c, d, he4⟩ := list_len4 hl4
  obtain ⟨e, f, he2a⟩ := list_len2 hl2a
  obtain ⟨g, i, he2b⟩ := list_len2 hl2b
  rw [he4] at hd4
  rw [he2a] at hd2a
  rw [he2b] at hd2b
  unfold matchesDateOnly
  rw [he4, he2a, he2b]
  simp only [List.cons_append, List.nil_append, String.data]
  simp [hd4 a (by simp), hd4 b (by simp), hd4 c (by simp), hd4 d (by simp),
    hd2a e (by simp), hd2a f (by simp), hd2b g (by simp), hd2b i (by simp)]

theorem normalizeDate_iso (env : JsEnv) {z : Int} (h0 : 0 ≤ z) (h1 : z ≤ 2900000) :
    normalizeDate env (.vStr (toDateOnlyISO z)) = .ok (toDateOnlyISO z) := by
  simp only [normalizeDate]
  rw [if_pos (matchesDateOnly_toDateOnlyISO h0 h1)]

/-- `computeAutoDefaultValue` on a date entry with no schema default: the
`fim|final|end` test is applied before the `inicio|início|start|begin`
test. -/
theorem computeAutoDefaultValue_date (today : Int) (name : String)
    (entry : ParamSchemaEntry) (htype : entry.type = "date")
    (hdef : entry.default = none) :
    computeAutoDefaultValue today name entry = some (.vStr (toDateOnlyISO
      (if regexTestCI ["fim", "final", "end"] name then today
       else if regexTestCI ["inicio", "início", "start", "begin"] name then today - 30
       else today))) := by
  unfold computeAutoDefaultValue
  rw [hdef, htype]
  simp only [if_pos rfl]
  split_ifs <;> rfl


theorem jsLookup_append (l1 l2 : List (String × JsValue)) (k : String) :
    jsLookup (l1 ++ l2) k =
      match jsLookup l1 k with
      | some v => some v
      | none => jsLookup l2 k := by
  unfold jsLookup
  rw [List.find?_append]
  cases h : l1.find? (fun p => p.fst = k) <;> simp [Option.or]

theorem jsLookup_singleton_ne {k n : String} (v : JsValue) (h : n ≠ k) :
    jsLookup [(n, v)] k = none := by
  simp [jsLookup, List.find?, h]

theorem jsLookup_singleton_eq (k : String) (v : JsValue) :
    jsLookup [(k, v)] k = some v := by
  simp [jsLookup, List.find?]

theorem foldl_resolveStep_error (env : JsEnv) (today : Int)
    (defaults : List (String × JsValue)) (provided : Option (List (String × JsValue)))
    (sch : ParamSchema) (e : String) :
    sch.foldl (resolveStep env today defaults provided) (.error e) = .error e := by
  induction sch with
  | nil => rfl
  | cons p sch ih => simpa [resolveStep] using ih

/-- One step of the resolver either fails, keeps the accumulator, or appends
exactly the binding of the processed entry. -/
theorem resolveStep_shape (env : JsEnv) (today : Int)
    (defaults : List (String × JsValue)) (provided : Option (List (String × JsValue)))
    (acc : List (String × JsValue)) (p : String × ParamSchemaEntry) :
    (∃ e, resolveStep env today defaults provided (.ok acc) p = .error e) ∨
    resolveStep env today defaults provided (.ok acc) p = .ok acc ∨
    ∃ v, resolveStep env today defaults provided (.ok acc) p =
      .ok (acc ++ [(p.fst, v)]) := by
  unfold resolveStep
  cases hn : normalizeValue env p.fst p.snd
    (match jsCoalesce (provided.bind (fun pl => jsLookup pl p.fst))
        (jsLookup defaults p.fst) with
      | none => computeAutoDefaultValue today p.fst p.snd
      | some v => some v) with
  | error e => exact Or.inl ⟨e, by simp [hn]⟩
  | ok r =>
    cases r with
    | none => exact Or.inr (Or.inl (by simp [hn]))
    | some v => exact Or.inr (Or.inr ⟨v, by simp [hn]⟩)

/-- The resolver fold only appends bindings whose keys come from the schema
entries it processed. -/
theorem foldl_resolveStep_extends (env : JsEnv) (today : Int)
    (defaults : List (String × JsValue)) (provided : Option (List (String × JsValue))) :
    ∀ (sch : ParamSchema) (acc final : List (String × JsValue)),
      sch.foldl (resolveStep env today defaults provided) (.ok acc) = .ok final →
      ∃ ext, final = acc ++ ext ∧ ∀ q ∈ ext, q.fst ∈ sch.map Prod.fst := by
  intro sch
  induction sch with
  | nil =>
    intro acc final h
    exact ⟨[], by simpa using h.symm, by simp⟩
  | cons p sch ih =>
    intro acc final h
    rw [List.foldl_cons] at h
    rcases resolveStep_shape env today defaults provided acc p with ⟨e, he⟩ | he | ⟨v, he⟩
    · rw [he, foldl_resolveStep_error] at h
      exact absurd h (by simp)
    · rw [he] at h
      obtain ⟨ext, hfin, hkeys⟩ := ih acc final h
      exact ⟨ext, hfin, fun q hq => by simp [hkeys q hq]⟩
    · rw [he] at h
      obtain ⟨ext, hfin, hkeys⟩ := ih (acc ++ [(p.fst, v)]) final h
      refine ⟨(p.fst, v) :: ext, by simpa using hfin, ?_⟩
      intro q hq
      rcases List.mem_cons.mp hq with rfl | hq
      · simp
      · simp [hkeys q hq]

theorem bind_lookup_none {o : Option (List (String × JsValue))} {name : String}
    (h : ∀ pl, o = some pl → jsLookup pl name = none) :
    o.bind (fun pl => jsLookup pl name) = none := by
  cases o with
  | none => rfl
  | some pl => exact h pl rfl

theorem normalizeValue_date_str (env : JsEnv) (name : String)
    (entry : ParamSchemaEntry) (s : String) (htype : entry.type = "date")
    (hok : normalizeDate env (JsValue.vStr s) = .ok s) :
    normalizeValue env name entry (some (.vStr s)) = .ok (some (.vStr s)) := by
  simp only [normalizeValue, htype, if_true, hok]
  rw [if_neg (by decide : ¬ ("date" : String) = "number")]

/-- The heart of claim C6: the fold assigns the auto-default ISO date to a
date-typed entry that got no value from `provided` or `defaults`. -/
theorem foldl_resolveStep_date (env : JsEnv) (today : Int)
    (defaults : List (String × JsValue)) (provided : Option (List (String × JsValue)))
    (name : String) (entry : ParamSchemaEntry)
    (htype : entry.type = "date") (hdef : entry.default = none)
    (hdefs : jsLookup defaults name = none)
    (hprov : ∀ pl, provided = some pl → jsLookup pl name = none)
    (h0 : 30 ≤ today) (h1 : today ≤ 2900000) :
    ∀ (sch : ParamSchema) (acc final : List (String × JsValue)),
      sch.foldl (resolveStep env today defaults provided) (.ok acc) = .ok final →
      (name, entry) ∈ sch → (sch.map Prod.fst).Nodup →
      jsLookup acc name = none →
      jsLookup final name = some (.vStr (toDateOnlyISO
        (if regexTestCI ["fim", "final", "end"] name then today
         else if regexTestCI ["inicio", "início", "start", "begin"] name then today - 30
         else today))) := by
  intro sch
  induction sch with
  | nil =>
    intro acc final _ hmem
    exact absurd hmem (by simp)
  | cons p sch ih =>
    intro acc final h hmem hnd hacc
    rw [List.foldl_cons] at h
    by_cases hp : p.fst = name
    · -- the processed entry is ours: `p = (name, entry)` by key uniqueness
      have hpe : p = (name, entry) := by
        rcases List.mem_cons.mp hmem with hq | hq
        · exact hq.symm
        · exfalso
          have : name ∈ sch.map Prod.fst := List.mem_map.mpr ⟨(name, entry), hq, rfl⟩
          have := (List.nodup_cons.mp hnd).1
          rw [hp] at this
          exact this ‹name ∈ sch.map Prod.fst›
      subst hpe
      -- evaluate the step
      have hsupp := bind_lookup_none hprov
      have hday : 0 ≤ (if regexTestCI ["fim", "final", "end"] name then today
          else if regexTestCI ["inicio", "início", "start", "begin"] name then today - 30
          else today) ∧
          (if regexTestCI ["fim", "final", "end"] name then today
          else if regexTestCI ["inicio", "início", "start", "begin"] name then today - 30
          else today) ≤ 2900000 := by
        split_ifs <;> omega
      have hstep : resolveStep env today defaults provided (.ok acc) (name, entry) =
          .ok (acc ++ [(name, .vStr (toDateOnlyISO
            (if regexTestCI ["fim", "final", "end"] name then today
             else if regexTestCI ["inicio", "início", "start", "begin"] name then today - 30
             else today)))]) := by
        unfold resolveStep
        simp only [hsupp, hdefs, jsCoalesce,
          computeAutoDefaultValue_date today name entry htype hdef]
        rw [normalizeValue_date_str env name entry _ htype
          (normalizeDate_iso env hday.1 hday.2)]
      rw [hstep] at h
      obtain ⟨ext, hfin, hkeys⟩ := foldl_resolveStep_extends env today defaults
        provided sch _ final h
      have hnm : name ∉ sch.map Prod.fst := by
        have := (List.nodup_cons.mp hnd).1
        simpa using this
      rw [hfin, List.append_assoc, jsLookup_append, hacc]
      simp only []
      rw [jsLookup_append, jsLookup_singleton_eq]
    · -- a different entry first: it cannot shadow `name`
      have hmem2 : (name, entry) ∈ sch := by
        rcases List.mem_cons.mp hmem with hq | hq
        · exact absurd (congrArg Prod.fst hq).symm hp
        · exact hq
      rcases resolveStep_shape env today defaults provided acc p with ⟨e, he⟩ | he | ⟨v, he⟩
      · rw [he, foldl_resolveStep_error] at h
        exact absurd h (by simp)
      · rw [he] at h
        exact ih acc final h hmem2 (List.nodup_cons.mp hnd).2 hacc
      · rw [he] at h
        refine ih _ final h hmem2 (List.nodup_cons.mp hnd).2 ?_
        rw [jsLookup_append, hacc]
        simp only []
        exact jsLookup_singleton_ne v hp

/-- Claim C6 as stated is false: the code tests `fim|final|end` *before*
`inicio|início|start|begin`, so a name matching both — here `inicio_final` —
receives today, not today − 30 as the claim's `inicio` clause demands.
Today is 2025-01-15 in this instance. -/
theorem claim_C6_counterexample :
    regexTestCI ["inicio", "início", "start", "begin"] "inicio_final" = true ∧
    resolveParams cexEnv (daysFromCivil 2025 1 15)
      [("inicio_final", { type := "date" })] [] none =
      .ok [("inicio_final", JsValue.vStr "2025-01-15")] ∧
    toDateOnlyISO (daysFromCivil 2025 1 15 - 30) = "2024-12-16" ∧
    ("2025-01-15" : String) ≠ "2024-12-16" :=
  ⟨by decide, rfl, by decide, by decide⟩

/-- C6, amended: for a date-typed schema entry with no provided value, no
default and no schema default, `resolveParams` assigns today in ISO
`YYYY-MM-DD` form, except that the name patterns are tested with
`fim|final|end` taking precedence: a name matching `fim|final|end` receives
today, otherwise a name matching `inicio|início|start|begin` receives
today − 30 days.  (`today` is the civil day of the server clock, assumed
between 1970-01-31 and the year 9909.) -/
theorem claim_C6_amended (env : JsEnv) (today : Int) (schema : ParamSchema)
    (defaults : List (String × JsValue)) (provided : Option (List (String × JsValue)))
    (name : String) (entry : ParamSchemaEntry) (m : List (String × JsValue))
    (hnd : (schema.map Prod.fst).Nodup)
    (hmem : (name, entry) ∈ schema)
    (htype : entry.type = "date") (hdef : entry.default = none)
    (hdefs : jsLookup defaults name = none)
    (hprov : ∀ pl, provided = some pl → jsLookup pl name = none)
    (h0 : 30 ≤ today) (h1 : today ≤ 2900000)
    (hok : resolveParams env today schema defaults provided = .ok m) :
    jsLookup m name = some (.vStr (toDateOnlyISO
      (if regexTestCI ["fim", "final", "end"] name then today
       else if regexTestCI ["inicio", "início", "start", "begin"] name then today - 30
       else today))) := by
  unfold resolveParams at hok
  cases hfold : schema.foldl (resolveStep env today defaults provided) (.ok []) with
  | error e =>
    rw [hfold] at hok
    exact absurd hok (by simp)
  | ok finalParams =>
    rw [hfold] at hok
    simp only [Except.ok.injEq] at hok
    have hmain := foldl_resolveStep_date env today defaults provided name entry
      htype hdef hdefs hprov h0 h1 schema [] finalParams hfold hmem hnd rfl
    rw [← hok, jsLookup_append, hmain]

/-- Witness for `claim_C6_amended`: the concrete scenario of the claim —
schema `{start: date, end: date}`, nothing provided, today = 2025-01-15 —
where `start` receives 2024-12-16 and `end` receives 2025-01-15. -/
theorem claim_C6_amended_witness :
    ((30 : Int) ≤ daysFromCivil 2025 1 15 ∧ daysFromCivil 2025 1 15 ≤ 2900000 ∧
      resolveParams cexEnv (daysFromCivil 2025 1 15)
        [("start", { type := "date" }), ("end", { type := "date" })] [] none =
        .ok [("start", JsValue.vStr "2024-12-16"), ("end", JsValue.vStr "2025-01-15")]) ∧
    jsLookup [("start", JsValue.vStr "2024-12-16"), ("end", JsValue.vStr "2025-01-15")]
        "start" = some (.vStr (toDateOnlyISO
      (if regexTestCI ["fim", "final", "end"] "start" then daysFromCivil 2025 1 15
       else if regexTestCI ["inicio", "início", "start", "begin"] "start" then
         daysFromCivil 2025 1 15 - 30
       else daysFromCivil 2025 1 15))) :=
  ⟨⟨by decide, by decide, rfl⟩,
    claim_C6_amended cexEnv (daysFromCivil 2025 1 15)
      [("start", { type := "date" }), ("end", { type := "date" })] [] none
      "start" { type := "date" } _
      (by decide) (List.mem_cons_self _ _) rfl rfl rfl
      (fun pl h => Option.noConfusion h) (by decide) (by decide) rfl⟩


/-! ### C4 — failure isolation in the batch -/

theorem mem_outcomes_ok {α β : Type} (rows : List α)
    (f : α → Except String (List DbRow)) (idOf : α → β) (i : β) (ds : List DbRow) :
    ((i, ds) ∈ (rows.map (fun r => (r, f r))).filterMap (fun p =>
        match p.snd with
        | .ok d => some (idOf p.fst, d)
        | .error _ => none) ↔
      ∃ r ∈ rows, idOf r = i ∧ f r = .ok ds) := by
  rw [List.mem_filterMap]
  constructor
  · rintro ⟨⟨r, res⟩, hmem, hsel⟩
    obtain ⟨rr, hrr, heq⟩ := List.mem_map.mp hmem
    rw [Prod.mk.injEq] at heq
    obtain ⟨rfl, rfl⟩ := heq
    cases hres : f rr with
    | ok d =>
      rw [hres] at hsel
      simp only [Option.some.injEq, Prod.mk.injEq] at hsel
      exact ⟨rr, hrr, hsel.1, by rw [hres, hsel.2]⟩
    | error e =>
      rw [hres] at hsel
      exact absurd hsel (by simp)
  · rintro ⟨r, hr, rfl, hok⟩
    exact ⟨(r, f r), List.mem_map_of_mem _ hr, by rw [hok]⟩

theorem mem_outcomes_err {α : Type} (rows : List α)
    (f : α → Except String (List DbRow)) (slugOf : α → String)
    (slug e : String) :
    ((slug, e) ∈ (rows.map (fun r => (r, f r))).filterMap (fun p =>
        match p.snd with
        | .ok _ => none
        | .error er => some (slugOf p.fst, er)) ↔
      ∃ r ∈ rows, slugOf r = slug ∧ f r = .error e) := by
  rw [List.mem_filterMap]
  constructor
  · rintro ⟨⟨r, res⟩, hmem, hsel⟩
    obtain ⟨rr, hrr, heq⟩ := List.mem_map.mp hmem
    rw [Prod.mk.injEq] at heq
    obtain ⟨rfl, rfl⟩ := heq
    cases hres : f rr with
    | error er =>
      rw [hres] at hsel
      simp only [Option.some.injEq, Prod.mk.injEq] at hsel
      exact ⟨rr, hrr, hsel.1, by rw [hres, hsel.2]⟩
    | ok d =>
      rw [hres] at hsel
      exact absurd hsel (by simp)
  · rintro ⟨r, hr, rfl, herr⟩
    exact ⟨(r, f r), List.mem_map_of_mem _ hr, by rw [herr]⟩

theorem mem_notfound {req returned : List String} {slug e msg : String} :
    ((slug, e) ∈ (req.filter (fun s => !returned.contains s)).map
        (fun s => (s, msg)) ↔
      slug ∈ req ∧ ¬ slug ∈ returned ∧ e = msg) := by
  constructor
  · intro h
    obtain ⟨s, hs, heq⟩ := List.mem_map.mp h
    rw [Prod.mk.injEq] at heq
    obtain ⟨rfl, rfl⟩ := heq
    obtain ⟨hreq, hcon⟩ := List.mem_filter.mp hs
    refine ⟨hreq, ?_, rfl⟩
    intro hmem
    rw [Bool.not_eq_true', ← Bool.not_eq_true] at hcon
    exact hcon (List.elem_iff.mpr hmem)
  · rintro ⟨hreq, hnot, rfl⟩
    refine List.mem_map.mpr ⟨slug, List.mem_filter.mpr ⟨hreq, ?_⟩, rfl⟩
    rw [Bool.not_eq_true']
    rw [← Bool.not_eq_true]
    intro hcon
    exact hnot (List.elem_iff.mp hcon)

theorem graph_datasets_mem (env : JsEnv) (today : Int)
    (exec : String → List JsValue → Except String (List DbRow))
    (userRoles : List String)
    (provided : List (String × List (String × JsValue)))
    (requestedSlugs : List String) (rows : List GraphRecordRow)
    (i : Nat) (ds : List DbRow) :
    ((i, ds) ∈ (runGraphBatch env today exec userRoles provided
        requestedSlugs rows).datasets ↔
      ∃ r ∈ rows, r.id = i ∧
        graphRowOutcome env today exec userRoles provided r = .ok ds) := by
  simp only [runGraphBatch]
  exact mem_outcomes_ok rows _ GraphRecordRow.id i ds

theorem graph_errors_mem (env : JsEnv) (today : Int)
    (exec : String → List JsValue → Except String (List DbRow))
    (userRoles : List String)
    (provided : List (String × List (String × JsValue)))
    (requestedSlugs : List String) (rows : List GraphRecordRow)
    (hreq : requestedSlugs ≠ []) (slug e : String) :
    ((slug, e) ∈ (runGraphBatch env today exec userRoles provided
        requestedSlugs rows).errors ↔
      (∃ r ∈ rows, r.slug = slug ∧
        graphRowOutcome env today exec userRoles provided r = .error e) ∨
      (slug ∈ requestedSlugs ∧ ¬ slug ∈ rows.map GraphRecordRow.slug ∧
        e = "Gráfico não encontrado ou inativo.")) := by
  simp only [runGraphBatch]
  rw [if_pos hreq, List.mem_append]
  exact or_congr (mem_outcomes_err rows _ GraphRecordRow.slug slug e) mem_notfound

theorem table_rows_mem (env : JsEnv) (today : Int)
    (exec : String → List JsValue → Except String (List DbRow))
    (userRoles : List String)
    (provided : List (String × List (String × JsValue)))
    (requestedTableSlugs : List String)
    (baseResult : Except String (List DbRow)) (hasDash : Bool)
    (tableMeta : Except String (List TableRecordRow))
    (hreq : requestedTableSlugs ≠ []) (i : Nat) (ds : List DbRow) :
    ((i, ds) ∈ (runTableBatch env today exec userRoles provided
        requestedTableSlugs baseResult hasDash tableMeta).tableRows ↔
      (requestedTableSlugs.contains "clientes" = true ∧ i = 0 ∧
        baseResult = .ok ds) ∨
      (hasDash = true ∧ ∃ tm, tableMeta = .ok tm ∧ ∃ r ∈ tm, r.id = i ∧
        tableRowOutcome env today exec userRoles provided r = .ok ds)) := by
  simp only [runTableBatch, decide_eq_false hreq, Bool.false_or]
  rw [List.mem_append]
  apply or_congr
  · cases hc : requestedTableSlugs.contains "clientes" with
    | false => simp
    | true =>
      rw [if_pos rfl]
      cases baseResult with
      | ok rows0 => simp [eq_comm]
      | error e0 => simp
  · cases hasDash with
    | false =>
      rw [if_neg (by decide : ¬ (false = true))]
      constructor
      · intro h
        exfalso
        revert h
        split <;> simp
      · rintro ⟨h, _⟩
        exact absurd h (by decide)
    | true =>
      rw [if_pos rfl]
      cases tableMeta with
      | error em => simp
      | ok tm =>
        refine Iff.trans
          (mem_outcomes_ok tm (tableRowOutcome env today exec userRoles provided)
            TableRecordRow.id i ds) ?_
        simp

theorem mem_notfound2 {req R : List String} {p : String → Bool}
    {slug e msg : String} :
    ((slug, e) ∈ (req.filter (fun s => !(p s) && !R.contains s)).map
        (fun s => (s, msg)) ↔
      slug ∈ req ∧ p slug = false ∧ ¬ slug ∈ R ∧ e = msg) := by
  constructor
  · intro h
    obtain ⟨s, hs, heq⟩ := List.mem_map.mp h
    rw [Prod.mk.injEq] at heq
    obtain ⟨rfl, rfl⟩ := heq
    obtain ⟨hreq', hcond⟩ := List.mem_filter.mp hs
    rw [Bool.and_eq_true, Bool.not_eq_true', Bool.not_eq_true'] at hcond
    refine ⟨hreq', hcond.1, ?_, rfl⟩
    intro hmem
    have h1 : R.contains s = true := List.elem_iff.mpr hmem
    rw [hcond.2] at h1
    exact Bool.noConfusion h1
  · rintro ⟨hreq', hp, hnm, rfl⟩
    refine List.mem_map.mpr ⟨slug, List.mem_filter.mpr ⟨hreq', ?_⟩, rfl⟩
    rw [Bool.and_eq_true, Bool.not_eq_true', Bool.not_eq_true']
    refine ⟨hp, ?_⟩
    rw [← Bool.not_eq_true]
    intro h1
    exact hnm (List.elem_iff.mp h1)

theorem table_errors_mem (env : JsEnv) (today : Int)
    (exec : String → List JsValue → Except String (List DbRow))
    (userRoles : List String)
    (provided : List (String × List (String × JsValue)))
    (requestedTableSlugs : List String)
    (baseResult : Except String (List DbRow)) (hasDash : Bool)
    (tableMeta : Except String (List TableRecordRow))
    (hreq : requestedTableSlugs ≠ []) (slug e : String) :
    ((slug, e) ∈ (runTableBatch env today exec userRoles provided
        requestedTableSlugs baseResult hasDash tableMeta).tableErrors ↔
      ((requestedTableSlugs.contains "clientes" = true ∧ slug = "clientes" ∧
          baseResult = .error e) ∨
        ((hasDash = true ∧ tableMeta = .error e ∧ slug = "__metadata") ∨
          (hasDash = true ∧ ∃ tm, tableMeta = .ok tm ∧ ∃ r ∈ tm, r.slug = slug ∧
            tableRowOutcome env today exec userRoles provided r = .error e) ∨
          (hasDash = false ∧
            slug ∈ requestedTableSlugs.filter (fun s => s ≠ "clientes") ∧
            requestedTableSlugs.filter (fun s => s ≠ "clientes") ≠ [] ∧
            e = "Tabela personalizada indisponível: metadados não foram provisionados."))) ∨
      (slug ∈ requestedTableSlugs ∧
        ¬ (slug = "clientes" ∧ requestedTableSlugs.contains "clientes" = true) ∧
        ¬ slug ∈ (if hasDash = true then
            (match tableMeta with
              | .ok tm => tm.map TableRecordRow.slug
              | .error _ => ([] : List String))
            else []) ∧
        e = "Tabela não encontrada ou inativa.")) := by
  simp only [runTableBatch, decide_eq_false hreq, Bool.false_or]
  rw [if_pos hreq, List.mem_append, List.mem_append]
  apply or_congr
  · apply or_congr
    · cases hc : requestedTableSlugs.contains "clientes" with
      | false => simp
      | true =>
        rw [if_pos rfl]
        cases baseResult with
        | ok rows0 => simp
        | error e0 => simp [eq_comm, and_comm]
    · cases hasDash with
      | false =>
        rw [if_neg (by decide : ¬ (false = true))]
        by_cases hf : requestedTableSlugs.filter (fun s => s ≠ "clientes") ≠ []
        · rw [if_pos hf]
          constructor
          · intro h
            obtain ⟨s, hs, heq⟩ := List.mem_map.mp h
            rw [Prod.mk.injEq] at heq
            obtain ⟨rfl, rfl⟩ := heq
            exact Or.inr (Or.inr ⟨rfl, hs, hf, rfl⟩)
          · rintro (⟨h1, _⟩ | ⟨h1, _⟩ | ⟨_, hmf, _, rfl⟩)
            · exact absurd h1 (by decide)
            · exact absurd h1 (by decide)
            · exact List.mem_map.mpr ⟨slug, hmf, rfl⟩
        · rw [if_neg hf]
          constructor
          · intro h
            exact absurd h (List.not_mem_nil _)
          · rintro (⟨h1, _⟩ | ⟨h1, _⟩ | ⟨_, _, hfne, _⟩)
            · exact absurd h1 (by decide)
            · exact absurd h1 (by decide)
            · exact absurd hfne hf
      | true =>
        rw [if_pos rfl]
        cases tableMeta with
        | error em =>
          constructor
          · intro h
            rw [List.mem_singleton, Prod.mk.injEq] at h
            exact Or.inl ⟨rfl, by rw [h.2], h.1⟩
          · rintro (⟨_, hme, hsm⟩ | ⟨_, tm, htm, _⟩ | ⟨hfd, _⟩)
            · injection hme with h'
              rw [List.mem_singleton, Prod.mk.injEq]
              exact ⟨hsm, h'.symm⟩
            · exact absurd htm (by simp)
            · exact absurd hfd (by decide)
        | ok tm =>
          refine Iff.trans
            (mem_outcomes_err tm (tableRowOutcome env today exec userRoles provided)
              TableRecordRow.slug slug e) ?_
          simp
  · refine Iff.trans mem_notfound2 ?_
    cases hc : requestedTableSlugs.contains "clientes" with
    | false =>
      cases hasDash with
      | false =>
        simp
        intro _ _
        split <;> simp
      | true =>
        cases tableMeta with
        | error em => simp
        | ok tm => simp
    | true =>
      cases baseResult with
      | ok rows0 =>
        cases hasDash with
        | false =>
          simp
          intro _ h2 _
          exact ⟨h2, by split <;> simp⟩
        | true =>
          cases tableMeta with
          | error em => simp
          | ok tm =>
            simp [not_or]
            intro _ h2 _ _
            exact h2
      | error e0 =>
        cases hasDash with
        | false =>
          simp
          intro _ h2 _
          exact ⟨h2, by split <;> simp⟩
        | true =>
          cases tableMeta with
          | error em => simp
          | ok tm =>
            simp [not_or]
            intro _ h2 _ _
            exact h2

/-- C4 counterexample: when the only requested table slug is `clientes`,
`filteredTableSlugs` is empty, so the source omits the `AND slug = ANY(...)`
filter from the `dashboard_tables` metadata query (table variant, lines
1056-1059) and processes every active metadata row.  A metadata row slugged
`clientes` with an empty query template then fails with `Query template
vazio.` and writes `tableErrors["clientes"]`, while the baseline `clientes`
table succeeds at `tableRows[0]` — the requested slug `clientes` is reported
both as a success and as an error, refuting the claimed exclusivity. -/
theorem claim_C4_counterexample :
    "clientes" ∈ (["clientes"] : List String) ∧
    (runTableBatch cexEnv 0 (fun _ _ => .ok []) [] [] ["clientes"]
      (.ok []) true (.ok [cexCliRow])).tableRows = [(0, [])] ∧
    (runTableBatch cexEnv 0 (fun _ _ => .ok []) [] [] ["clientes"]
      (.ok []) true (.ok [cexCliRow])).tableErrors =
      [("clientes", "Query template vazio.")] :=
  ⟨List.mem_singleton.mpr rfl, rfl, rfl⟩

/-- C4 (amended): failure isolation of the batch.  Every requested chart slug
is covered either by a dataset entry keyed by its metadata row's id or by an
`errors` entry keyed by the slug, never both; every requested table slug is
covered by a `tableRows` entry (the baseline `clientes` table has id 0) or a
`tableErrors` entry.  For tables, success and error are mutually exclusive
whenever some non-`clientes` table slug was requested: exactly then the
source adds the `AND slug = ANY(filteredTableSlugs)` clause to the metadata
query, so every returned metadata row's slug is a requested non-`clientes`
slug (hypothesis `hsubT`); when only `clientes` is requested the filter is
dropped and the two sides can overlap at `clientes` (see the counterexample
above).  Per-slug failures never abort the batch: the handler's status is
200 regardless of the per-row outcomes of the execution oracle. -/
theorem claim_C4_amended (env : JsEnv) (today : Int)
    (exec : String → List JsValue → Except String (List DbRow))
    (userRoles : List String)
    (providedG providedT : List (String × List (String × JsValue)))
    (requestedSlugs : List String) (rows : List GraphRecordRow)
    (requestedTableSlugs : List String)
    (baseResult : Except String (List DbRow)) (hasDash : Bool)
    (tableMeta : Except String (List TableRecordRow))
    (hndG : (rows.map GraphRecordRow.slug).Nodup)
    (hidG : (rows.map GraphRecordRow.id).Nodup)
    (hsubT : requestedTableSlugs.filter (fun s => s ≠ "clientes") ≠ [] →
      ∀ tm, tableMeta = .ok tm → ∀ r ∈ tm,
        r.slug ∈ requestedTableSlugs ∧ r.slug ≠ "clientes")
    (hndT : ∀ tm, tableMeta = .ok tm → (tm.map TableRecordRow.slug).Nodup)
    (hidT : ∀ tm, tableMeta = .ok tm →
      (tm.map TableRecordRow.id).Nodup ∧ ∀ r ∈ tm, r.id ≠ 0) :
    (∀ slug ∈ requestedSlugs,
      ((∃ r ∈ rows, r.slug = slug ∧ ∃ ds, (r.id, ds) ∈
          (runGraphBatch env today exec userRoles providedG requestedSlugs rows).datasets) ∨
        (∃ e, (slug, e) ∈
          (runGraphBatch env today exec userRoles providedG requestedSlugs rows).errors)) ∧
      ¬ ((∃ r ∈ rows, r.slug = slug ∧ ∃ ds, (r.id, ds) ∈
          (runGraphBatch env today exec userRoles providedG requestedSlugs rows).datasets) ∧
        (∃ e, (slug, e) ∈
          (runGraphBatch env today exec userRoles providedG requestedSlugs rows).errors))) ∧
    (∀ slug ∈ requestedTableSlugs,
      (slug = "clientes" ∧ ∃ ds, (0, ds) ∈
          (runTableBatch env today exec userRoles providedT requestedTableSlugs
            baseResult hasDash tableMeta).tableRows) ∨
        (∃ tm, tableMeta = .ok tm ∧ ∃ r ∈ tm, r.slug = slug ∧ ∃ ds, (r.id, ds) ∈
          (runTableBatch env today exec userRoles providedT requestedTableSlugs
            baseResult hasDash tableMeta).tableRows) ∨
        (∃ e, (slug, e) ∈
          (runTableBatch env today exec userRoles providedT requestedTableSlugs
            baseResult hasDash tableMeta).tableErrors)) ∧
    (requestedTableSlugs.filter (fun s => s ≠ "clientes") ≠ [] →
      ∀ slug ∈ requestedTableSlugs,
        ¬ (((slug = "clientes" ∧ ∃ ds, (0, ds) ∈
            (runTableBatch env today exec userRoles providedT requestedTableSlugs
              baseResult hasDash tableMeta).tableRows) ∨
          (∃ tm, tableMeta = .ok tm ∧ ∃ r ∈ tm, r.slug = slug ∧ ∃ ds, (r.id, ds) ∈
            (runTableBatch env today exec userRoles providedT requestedTableSlugs
              baseResult hasDash tableMeta).tableRows)) ∧
          (∃ e, (slug, e) ∈
            (runTableBatch env today exec userRoles providedT requestedTableSlugs
              baseResult hasDash tableMeta).tableErrors))) ∧
    fetchUserDataResponseStatus
      (runGraphBatch env today exec userRoles providedG requestedSlugs rows)
      (runTableBatch env today exec userRoles providedT requestedTableSlugs
        baseResult hasDash tableMeta) = 200 := by
  refine ⟨?_, ?_, ?_, rfl⟩
  · intro slug hslug
    have hreqG : requestedSlugs ≠ [] := List.ne_nil_of_mem hslug
    constructor
    · by_cases hrow : ∃ r ∈ rows, r.slug = slug
      · obtain ⟨r, hr, hrs⟩ := hrow
        cases hres : graphRowOutcome env today exec userRoles providedG r with
        | ok ds =>
          exact Or.inl ⟨r, hr, hrs, ds,
            (graph_datasets_mem env today exec userRoles providedG requestedSlugs
              rows r.id ds).mpr ⟨r, hr, rfl, hres⟩⟩
        | error e =>
          exact Or.inr ⟨e,
            (graph_errors_mem env today exec userRoles providedG requestedSlugs
              rows hreqG slug e).mpr (Or.inl ⟨r, hr, hrs, hres⟩)⟩
      · refine Or.inr ⟨"Gráfico não encontrado ou inativo.",
          (graph_errors_mem env today exec userRoles providedG requestedSlugs
            rows hreqG slug _).mpr (Or.inr ⟨hslug, ?_, rfl⟩)⟩
        intro hmem
        obtain ⟨r, hr, hrs⟩ := List.mem_map.mp hmem
        exact hrow ⟨r, hr, hrs⟩
    · rintro ⟨⟨r, hr, hrs, ds, hds⟩, e, herr⟩
      obtain ⟨r', hr', hid, hok⟩ :=
        (graph_datasets_mem env today exec userRoles providedG requestedSlugs
          rows r.id ds).mp hds
      have hre : r' = r := List.inj_on_of_nodup_map hidG hr' hr hid
      subst hre
      rcases (graph_errors_mem env today exec userRoles providedG requestedSlugs
          rows hreqG slug e).mp herr with ⟨r'', hr'', hrs'', herr''⟩ | ⟨_, hnm, _⟩
      · have hre2 : r'' = r' :=
          List.inj_on_of_nodup_map hndG hr'' hr' (hrs''.trans hrs.symm)
        subst hre2
        rw [hok] at herr''
        exact Except.noConfusion herr''
      · exact hnm (List.mem_map.mpr ⟨r', hr', hrs⟩)
  · intro slug hslug
    have hreqT : requestedTableSlugs ≠ [] := List.ne_nil_of_mem hslug
    by_cases hcl : slug = "clientes"
    · subst hcl
      have hc : requestedTableSlugs.contains "clientes" = true :=
        List.elem_iff.mpr hslug
      cases baseResult with
      | ok rows0 =>
        exact Or.inl ⟨rfl, rows0,
          (table_rows_mem env today exec userRoles providedT requestedTableSlugs
            (.ok rows0) hasDash tableMeta hreqT 0 rows0).mpr
            (Or.inl ⟨hc, rfl, rfl⟩)⟩
      | error e0 =>
        exact Or.inr (Or.inr ⟨e0,
          (table_errors_mem env today exec userRoles providedT requestedTableSlugs
            (.error e0) hasDash tableMeta hreqT "clientes" e0).mpr
            (Or.inl (Or.inl ⟨hc, rfl, rfl⟩))⟩)
    · cases hd : hasDash with
      | false =>
        have hmf : slug ∈ requestedTableSlugs.filter (fun s => s ≠ "clientes") :=
          List.mem_filter.mpr ⟨hslug, by simpa using hcl⟩
        exact Or.inr (Or.inr
          ⟨"Tabela personalizada indisponível: metadados não foram provisionados.",
          (table_errors_mem env today exec userRoles providedT requestedTableSlugs
            baseResult false tableMeta hreqT slug _).mpr
            (Or.inl (Or.inr (Or.inr (Or.inr
              ⟨rfl, hmf, List.ne_nil_of_mem hmf, rfl⟩))))⟩)
      | true =>
        cases hm : tableMeta with
        | error em =>
          refine Or.inr (Or.inr ⟨"Tabela não encontrada ou inativa.",
            (table_errors_mem env today exec userRoles providedT requestedTableSlugs
              baseResult true (.error em) hreqT slug _).mpr
              (Or.inr ⟨hslug, ?_, ?_, rfl⟩)⟩)
          · rintro ⟨h1, _⟩
            exact hcl h1
          · simp
        | ok tm =>
          by_cases hrowT : ∃ r ∈ tm, r.slug = slug
          · obtain ⟨r, hr, hrs⟩ := hrowT
            cases hres : tableRowOutcome env today exec userRoles providedT r with
            | ok ds =>
              exact Or.inr (Or.inl ⟨tm, rfl, r, hr, hrs, ds,
                (table_rows_mem env today exec userRoles providedT
                  requestedTableSlugs baseResult true (.ok tm) hreqT r.id ds).mpr
                  (Or.inr ⟨rfl, tm, rfl, r, hr, rfl, hres⟩)⟩)
            | error e0 =>
              exact Or.inr (Or.inr ⟨e0,
                (table_errors_mem env today exec userRoles providedT
                  requestedTableSlugs baseResult true (.ok tm) hreqT slug e0).mpr
                  (Or.inl (Or.inr (Or.inr (Or.inl
                    ⟨rfl, tm, rfl, r, hr, hrs, hres⟩))))⟩)
          · refine Or.inr (Or.inr ⟨"Tabela não encontrada ou inativa.",
              (table_errors_mem env today exec userRoles providedT
                requestedTableSlugs baseResult true (.ok tm) hreqT slug _).mpr
                (Or.inr ⟨hslug, ?_, ?_, rfl⟩)⟩)
            · rintro ⟨h1, _⟩
              exact hcl h1
            · intro hmem
              rw [if_pos rfl] at hmem
              obtain ⟨r, hr, hrs⟩ := List.mem_map.mp hmem
              exact hrowT ⟨r, hr, hrs⟩
  · intro hfil slug hslug
    have hreqT : requestedTableSlugs ≠ [] := List.ne_nil_of_mem hslug
    have hsubT' := hsubT hfil
    rintro ⟨hsucc, e, herr⟩
    have herr' := (table_errors_mem env today exec userRoles providedT
        requestedTableSlugs baseResult hasDash tableMeta hreqT slug e).mp herr
    rcases hsucc with ⟨hcl, ds, hds⟩ | ⟨tm, htm, r, hr, hrs, ds, hds⟩
    · subst hcl
      rcases (table_rows_mem env today exec userRoles providedT requestedTableSlugs
          baseResult hasDash tableMeta hreqT 0 ds).mp hds with
        ⟨hc, _, hbr⟩ | ⟨hd, tm, htm, r, hr, hid0, _⟩
      · rcases herr' with (⟨_, _, hbr'⟩ | ⟨_, _, hsm⟩ |
          ⟨_, tm', htm', r', hr', hrs', _⟩ | ⟨_, hmf, _, _⟩) | ⟨_, hncl, _, _⟩
        · rw [hbr] at hbr'
          exact Except.noConfusion hbr'
        · exact absurd hsm (by decide)
        · exact (hsubT' tm' htm' r' hr').2 hrs'
        · have := (List.mem_filter.mp hmf).2
          simp at this
        · exact hncl ⟨rfl, hc⟩
      · exact absurd hid0 ((hidT tm htm).2 r hr)
    · have hclB : slug ≠ "clientes" := fun h => (hsubT' tm htm r hr).2 (hrs.trans h)
      rcases (table_rows_mem env today exec userRoles providedT requestedTableSlugs
          baseResult hasDash tableMeta hreqT r.id ds).mp hds with
        ⟨_, hid0, _⟩ | ⟨hd, tm', htm', r', hr', hid', hok⟩
      · exact absurd hid0 ((hidT tm htm).2 r hr)
      · rw [htm] at htm'
        injection htm' with htmeq
        subst htmeq
        have hrr : r' = r := List.inj_on_of_nodup_map (hidT tm htm).1 hr' hr hid'
        rw [hrr] at hok
        rcases herr' with (⟨_, hcl', _⟩ | ⟨_, hme, _⟩ |
          ⟨_, tm'', htm'', r'', hr'', hrs'', herr''⟩ | ⟨hdf, _, _, _⟩) |
          ⟨_, _, hnm, _⟩
        · exact hclB hcl'
        · rw [htm] at hme
          exact Except.noConfusion hme
        · rw [htm] at htm''
          injection htm'' with htmeq2
          subst htmeq2
          have hrr2 : r'' = r :=
            List.inj_on_of_nodup_map (hndT tm htm) hr'' hr (hrs''.trans hrs.symm)
          rw [hrr2, hok] at herr''
          exact Except.noConfusion herr''
        · rw [hd] at hdf
          exact Bool.noConfusion hdf
        · apply hnm
          rw [if_pos hd, htm]
          exact List.mem_map.mpr ⟨r, hr, hrs⟩

/-- Witness for the amended C4 theorem, instantiated at a charts-only batch
(one requested chart slug, no requested table slugs, no metadata rows), with
every hypothesis discharged concretely. -/
theorem claim_C4_amended_witness :
    fetchUserDataResponseStatus
      (runGraphBatch cexEnv 0 (fun _ _ => .ok []) [] [] ["alpha"] [])
      (runTableBatch cexEnv 0 (fun _ _ => .ok []) [] [] []
        (.ok []) true (.ok [])) = 200 :=
  (claim_C4_amended cexEnv 0 (fun _ _ => .ok []) [] [] [] ["alpha"] [] []
    (.ok []) true (.ok [])
    (by simp)
    (by simp)
    (fun hfil => absurd rfl hfil)
    (by intro tm h; injection h with h2; subst h2; simp)
    (by intro tm h; injection h with h2; subst h2;
        exact ⟨by simp, fun r hr => absurd hr (List.not_mem_nil r)⟩)).2.2.2



/-! ### Character classes and list facts for the regex machinery -/

theorem space_not_word {c : Char} (h : isJsSpace c = true) : isWordChar c = false := by
  simp only [isJsSpace, Bool.or_eq_true, Bool.and_eq_true, decide_eq_true_eq] at h
  rw [← Bool.not_eq_true]
  simp only [isWordChar, Bool.or_eq_true, Bool.and_eq_true, decide_eq_true_eq]
  omega

theorem space_not_cast {c : Char} (h : isJsSpace c = true) : isCastChar c = false := by
  rw [← Bool.not_eq_true]
  simp only [isCastChar, Bool.or_eq_true]
  rintro ((hw | hb) | hb)
  · rw [space_not_word h] at hw
    exact Bool.noConfusion hw
  · rw [decide_eq_true_eq] at hb
    have h91 : c.toNat = 91 := by rw [hb]; rfl
    simp only [isJsSpace, Bool.or_eq_true, Bool.and_eq_true, decide_eq_true_eq] at h
    omega
  · rw [decide_eq_true_eq] at hb
    have h93 : c.toNat = 93 := by rw [hb]; rfl
    simp only [isJsSpace, Bool.or_eq_true, Bool.and_eq_true, decide_eq_true_eq] at h
    omega

theorem word_not_space {c : Char} (h : isWordChar c = true) : isJsSpace c = false := by
  simp only [isWordChar, Bool.or_eq_true, Bool.and_eq_true, decide_eq_true_eq] at h
  rw [← Bool.not_eq_true]
  simp only [isJsSpace, Bool.or_eq_true, Bool.and_eq_true, decide_eq_true_eq]
  omega

theorem digit_word {c : Char} (h : isAsciiDigit c = true) : isWordChar c = true := by
  simp only [isAsciiDigit, Bool.and_eq_true, decide_eq_true_eq] at h
  simp only [isWordChar, Bool.or_eq_true, Bool.and_eq_true, decide_eq_true_eq]
  omega

theorem digit_toNat {c : Char} (h : isAsciiDigit c = true) :
    48 ≤ c.toNat ∧ c.toNat ≤ 57 := by
  simp only [isAsciiDigit, Bool.and_eq_true, decide_eq_true_eq] at h
  exact h

theorem cast_not_space {c : Char} (h : isCastChar c = true) : isJsSpace c = false := by
  simp only [isCastChar, Bool.or_eq_true] at h
  rcases h with (hw | hb) | hb
  · exact word_not_space hw
  · rw [decide_eq_true_eq] at hb
    subst hb
    rfl
  · rw [decide_eq_true_eq] at hb
    subst hb
    rfl

theorem takeWhile_middle {p : Char → Bool} {u : List Char} (c : Char) (v : List Char)
    (hu : ∀ x ∈ u, p x = true) (hc : p c = false) :
    (u ++ c :: v).takeWhile p = u := by
  induction u with
  | nil => simp [List.takeWhile_cons, hc]
  | cons a u ih =>
    have ha := hu a (List.mem_cons_self a u)
    have ih2 := ih (fun x hx => hu x (List.mem_cons_of_mem a hx))
    simp [List.takeWhile_cons, ha, ih2]

theorem takeWhile_all {p : Char → Bool} {u : List Char} (v : List Char)
    (hu : ∀ x ∈ u, p x = true) :
    (u ++ v).takeWhile p = u ++ v.takeWhile p := by
  induction u with
  | nil => simp
  | cons a u ih =>
    have ha := hu a (List.mem_cons_self a u)
    have ih2 := ih (fun x hx => hu x (List.mem_cons_of_mem a hx))
    simp [List.takeWhile_cons, ha, ih2]

theorem takeWhile_head_false {p : Char → Bool} {c : Char} (v : List Char)
    (hc : p c = false) : (c :: v).takeWhile p = [] := by
  simp [List.takeWhile_cons, hc]

theorem drop_takeWhile {p : Char → Bool} (l : List Char) :
    l = l.takeWhile p ++ l.drop (l.takeWhile p).length := by
  obtain ⟨t, ht⟩ := List.takeWhile_prefix (p := p) (l := l)
  have h2 : l.drop (l.takeWhile p).length = t := by
    nth_rewrite 2 [← ht]
    rw [List.drop_left]
  rw [h2]
  exact ht.symm

theorem matchParens_complete {k : Nat} {sp1 sp2 sp4 cast : List Char} (rest : List Char)
    (h1 : SpList sp1) (h2 : SpList sp2) (h4 : SpList sp4) (hc : CastShape cast) :
    matchParens k
      (sp1 ++ '(' :: (sp2 ++ '$' :: (digitsOf k ++ (cast ++ (sp4 ++ ')' :: rest))))) =
      some (cast, sp1.length + 1 + sp2.length + 1 + (digitsOf k).length +
        cast.length + sp4.length + 1) := by
  simp only [matchParens]
  rw [takeWhile_middle '(' _ h1 (by decide)]
  rw [List.drop_left]
  simp only []
  rw [takeWhile_middle '$' _ h2 (by decide)]
  rw [List.drop_left]
  simp only []
  rw [List.take_left, if_pos rfl, List.drop_left]
  rcases hc with hce | ⟨sp, ident, hcast, hsp, hid, hidc⟩
  · subst hce
    simp only [List.nil_append, List.length_nil]
    rw [takeWhile_middle ')' rest h4 (by decide)]
    rw [List.drop_left]
    rfl
  · subst hcast
    have hassoc : (sp ++ ':' :: ':' :: ident) ++ (sp4 ++ ')' :: rest)
        = sp ++ ':' :: ':' :: (ident ++ (sp4 ++ ')' :: rest)) := by
      simp [List.append_assoc]
    rw [hassoc]
    rw [takeWhile_middle ':' _ hsp (by decide)]
    rw [List.drop_left]
    simp only []
    have hident : (ident ++ (sp4 ++ ')' :: rest)).takeWhile isCastChar = ident := by
      rw [takeWhile_all _ hidc]
      have hz : (sp4 ++ ')' :: rest).takeWhile isCastChar = [] := by
        cases hs4 : sp4 with
        | nil =>
          simp only [List.nil_append]
          exact takeWhile_head_false _ (by decide)
        | cons a sp4' =>
          rw [hs4] at h4
          simp only [List.cons_append]
          exact takeWhile_head_false _
            (space_not_cast (h4 a (List.mem_cons_self a sp4')))
      rw [hz, List.append_nil]
    rw [hident]
    rw [if_neg (by simp [List.isEmpty_iff, hid])]
    rw [List.drop_left]
    simp only []
    rw [takeWhile_middle ')' rest h4 (by decide)]
    rw [List.drop_left]
    simp only []

theorem matchParens_sound {k : Nat} {s cast : List Char} {n : Nat}
    (h : matchParens k s = some (cast, n)) :
    ∃ sp1 sp2 sp4 rest,
      s = sp1 ++ '(' :: (sp2 ++ '$' :: (digitsOf k ++ (cast ++ (sp4 ++ ')' :: rest)))) ∧
      n = sp1.length + 1 + sp2.length + 1 + (digitsOf k).length +
        cast.length + sp4.length + 1 ∧
      SpList sp1 ∧ SpList sp2 ∧ SpList sp4 ∧ CastShape cast := by
  simp only [matchParens] at h
  split at h
  · rename_i r2 heq1
    split at h
    · rename_i r4 heq2
      split at h
      · rename_i htake
        split at h
        · rename_i castv r8 heq3
          split at h
          · rename_i tail heq5
            rw [Option.some.injEq, Prod.mk.injEq] at h
            obtain ⟨hcast, hn⟩ := h
            split at heq3
            · rename_i r7 heq6
              split at heq3
              · exact absurd heq3 (by simp)
              · rename_i hnemp
                rw [Option.some.injEq, Prod.mk.injEq] at heq3
                obtain ⟨hcv, hr8⟩ := heq3
                subst hcast
                have e8 : r8 = r8.takeWhile isJsSpace ++ ')' :: tail := by
                  conv_lhs => rw [drop_takeWhile (p := isJsSpace) r8]
                  rw [heq5]
                have e7 : r7 = r7.takeWhile isCastChar ++
                    (r8.takeWhile isJsSpace ++ ')' :: tail) := by
                  conv_lhs => rw [drop_takeWhile (p := isCastChar) r7]
                  rw [hr8]
                  rw [← e8]
                have e5 : (r4.drop (digitsOf k).length) =
                    (r4.drop (digitsOf k).length).takeWhile isJsSpace ++
                      ':' :: ':' :: (r7.takeWhile isCastChar ++
                        (r8.takeWhile isJsSpace ++ ')' :: tail)) := by
                  conv_lhs => rw [drop_takeWhile (p := isJsSpace) (r4.drop (digitsOf k).length)]
                  rw [heq6]
                  rw [← e7]
                have e4 : r4 = digitsOf k ++ (r4.drop (digitsOf k).length) := by
                  conv_lhs => rw [← List.take_append_drop (digitsOf k).length r4]
                  rw [htake]
                have e2 : r2 = r2.takeWhile isJsSpace ++ '$' :: r4 := by
                  conv_lhs => rw [drop_takeWhile (p := isJsSpace) r2]
                  rw [heq2]
                have e0 : s = s.takeWhile isJsSpace ++ '(' :: r2 := by
                  conv_lhs => rw [drop_takeWhile (p := isJsSpace) s]
                  rw [heq1]
                refine ⟨s.takeWhile isJsSpace, r2.takeWhile isJsSpace,
                  r8.takeWhile isJsSpace, tail, ?_, ?_,
                  fun c hc => List.mem_takeWhile_imp hc,
                  fun c hc => List.mem_takeWhile_imp hc,
                  fun c hc => List.mem_takeWhile_imp hc,
                  Or.inr ⟨(r4.drop (digitsOf k).length).takeWhile isJsSpace,
                    r7.takeWhile isCastChar, ?_,
                    fun c hc => List.mem_takeWhile_imp hc,
                    ?_,
                    fun c hc => List.mem_takeWhile_imp hc⟩⟩
                · rw [← hcv]
                  conv_lhs => rw [e0]
                  conv_lhs => rw [e2]
                  conv_lhs => rw [e4]
                  conv_lhs => rw [e5]
                  simp [List.append_assoc]
                · rw [← hn, ← hcv]
                · rw [← hcv]
                · intro hh
                  exact hnemp (by rw [hh]; rfl)
            · exact absurd heq3 (by simp)
          · exact absurd h (by simp)
        · rename_i heq3
          split at h
          · rename_i tail heq4
            rw [Option.some.injEq, Prod.mk.injEq] at h
            obtain ⟨hcast, hn⟩ := h
            subst hcast
            have e5 : (r4.drop (digitsOf k).length) =
                (r4.drop (digitsOf k).length).takeWhile isJsSpace ++ ')' :: tail := by
              conv_lhs => rw [drop_takeWhile (p := isJsSpace) (r4.drop (digitsOf k).length)]
              rw [heq4]
            have e4 : r4 = digitsOf k ++ (r4.drop (digitsOf k).length) := by
              conv_lhs => rw [← List.take_append_drop (digitsOf k).length r4]
              rw [htake]
            have e2 : r2 = r2.takeWhile isJsSpace ++ '$' :: r4 := by
              conv_lhs => rw [drop_takeWhile (p := isJsSpace) r2]
              rw [heq2]
            have e0 : s = s.takeWhile isJsSpace ++ '(' :: r2 := by
              conv_lhs => rw [drop_takeWhile (p := isJsSpace) s]
              rw [heq1]
            refine ⟨s.takeWhile isJsSpace, r2.takeWhile isJsSpace,
              (r4.drop (digitsOf k).length).takeWhile isJsSpace, tail, ?_, ?_,
              fun c hc => List.mem_takeWhile_imp hc,
              fun c hc => List.mem_takeWhile_imp hc,
              fun c hc => List.mem_takeWhile_imp hc,
              Or.inl rfl⟩
            · conv_lhs => rw [e0]
              conv_lhs => rw [e2]
              conv_lhs => rw [e4]
              conv_lhs => rw [e5]
              simp [List.append_assoc]
            · rw [← hn]
              simp
          · exact absurd h (by simp)
      · exact absurd h (by simp)
    · exact absurd h (by simp)
  · exact absurd h (by simp)

theorem not_space_toNat {c : Char} (h1 : 33 ≤ c.toNat) (h2 : c.toNat ≤ 126) :
    isJsSpace c = false := by
  rw [← Bool.not_eq_true]
  simp only [isJsSpace, Bool.or_eq_true, Bool.and_eq_true, decide_eq_true_eq]
  omega

theorem space_toNat_facts {c : Char} (h : isJsSpace c = true) :
    c.toNat ≤ 32 ∨ 160 ≤ c.toNat := by
  simp only [isJsSpace, Bool.or_eq_true, Bool.and_eq_true, decide_eq_true_eq] at h
  omega

theorem word_toNat_facts {c : Char} (h : isWordChar c = true) :
    (97 ≤ c.toNat ∧ c.toNat ≤ 122) ∨ (65 ≤ c.toNat ∧ c.toNat ≤ 90) ∨
    (48 ≤ c.toNat ∧ c.toNat ≤ 57) ∨ c.toNat = 95 := by
  simp only [isWordChar, Bool.or_eq_true, Bool.and_eq_true, decide_eq_true_eq] at h
  omega

theorem cast_toNat_facts {c : Char} (h : isCastChar c = true) :
    (97 ≤ c.toNat ∧ c.toNat ≤ 122) ∨ (65 ≤ c.toNat ∧ c.toNat ≤ 90) ∨
    (48 ≤ c.toNat ∧ c.toNat ≤ 57) ∨ c.toNat = 95 ∨ c.toNat = 91 ∨ c.toNat = 93 := by
  simp only [isCastChar, Bool.or_eq_true] at h
  rcases h with (hw | hb) | hb
  · rcases word_toNat_facts hw with h1 | h1 | h1 | h1 <;> omega
  · rw [decide_eq_true_eq] at hb
    have : c.toNat = 91 := by rw [hb]; rfl
    omega
  · rw [decide_eq_true_eq] at hb
    have : c.toNat = 93 := by rw [hb]; rfl
    omega

theorem ne_of_toNat_ne {c d : Char} (h : c.toNat ≠ d.toNat) : c ≠ d :=
  fun he => h (he ▸ rfl)

theorem lc_alpha_toNat {c d : Char} (h : lcChar c = d) :
    c.toNat = d.toNat ∨ (c.toNat + 32 = d.toNat ∧ 65 ≤ c.toNat ∧ c.toNat ≤ 90) := by
  simp only [lcChar] at h
  split at h
  · next hcond =>
    rw [Bool.and_eq_true, decide_eq_true_eq, decide_eq_true_eq] at hcond
    right
    refine ⟨?_, hcond.1, hcond.2⟩
    rw [← h]
    rw [toNat_ofNat_small (by omega)]
  · left
    rw [h]

theorem lc_i_not_space {c : Char} (h : lcChar c = 'i') : isJsSpace c = false := by
  have hi : ('i' : Char).toNat = 105 := rfl
  rcases lc_alpha_toNat h with h1 | ⟨h1, h2, h3⟩
  · exact not_space_toNat (by omega) (by omega)
  · exact not_space_toNat (by omega) (by omega)

theorem matchIn_sound {k : Nat} {prev : Option Char} {s cast : List Char} {n : Nat}
    (h : matchIn k prev s = some (cast, n)) :
    boundaryOk prev = true ∧ ∃ w rest, s = w ++ rest ∧ w.length = n ∧
      InInstance k cast w := by
  rw [matchIn.eq_def] at h
  split at h
  · next c1 c2 rest0 =>
    split at h
    · next hcond =>
      rw [Bool.and_eq_true, Bool.and_eq_true, decide_eq_true_eq, decide_eq_true_eq]
        at hcond
      obtain ⟨⟨hb, h1⟩, h2⟩ := hcond
      split at h
      · next castp np heqp =>
        rw [Option.some.injEq, Prod.mk.injEq] at h
        obtain ⟨rfl, rfl⟩ := h
        obtain ⟨sp1, sp2, sp4, rest, hs, hnp, hsp1, hsp2, hsp4, hcs⟩ :=
          matchParens_sound heqp
        refine ⟨hb, c1 :: c2 :: (sp1 ++ '(' :: (sp2 ++ '$' ::
          (digitsOf k ++ castp ++ sp4 ++ [')']))), rest, ?_, ?_, ?_⟩
        · rw [hs]
          simp [List.append_assoc]
        · simp only [List.length_cons, List.length_append, List.length_nil]
          omega
        · exact ⟨c1, c2, sp1, sp2, sp4, h1, h2, hsp1, hsp2, hsp4, hcs, rfl⟩
      · exact absurd h (by simp)
    · exact absurd h (by simp)
  · exact absurd h (by simp)

theorem matchIn_complete {k : Nat} {prev : Option Char} {cast w : List Char}
    (rest : List Char) (hb : boundaryOk prev = true) (hw : InInstance k cast w) :
    matchIn k prev (w ++ rest) = some (cast, w.length) := by
  obtain ⟨ci, cn, sp1, sp2, sp4, h1, h2, hsp1, hsp2, hsp4, hcs, hweq⟩ := hw
  subst hweq
  have hassoc : (ci :: cn :: (sp1 ++ '(' :: (sp2 ++ '$' ::
      (digitsOf k ++ cast ++ sp4 ++ [')'])))) ++ rest =
      ci :: cn :: (sp1 ++ '(' :: (sp2 ++ '$' ::
        (digitsOf k ++ (cast ++ (sp4 ++ ')' :: rest))))) := by
    simp [List.append_assoc]
  rw [hassoc]
  rw [matchIn.eq_def]
  simp only []
  rw [if_pos (by rw [Bool.and_eq_true, Bool.and_eq_true, decide_eq_true_eq,
    decide_eq_true_eq]; exact ⟨⟨hb, h1⟩, h2⟩)]
  rw [matchParens_complete rest hsp1 hsp2 hsp4 hcs]
  simp only [Option.some.injEq, Prod.mk.injEq, true_and]
  simp only [List.length_cons, List.length_append, List.length_nil]
  omega

theorem matchNotIn_sound {k : Nat} {prev : Option Char} {s cast : List Char} {n : Nat}
    (h : matchNotIn k prev s = some (cast, n)) :
    boundaryOk prev = true ∧ ∃ w rest, s = w ++ rest ∧ w.length = n ∧
      NotInInstance k cast w := by
  rw [matchNotIn.eq_def] at h
  split at h
  · next c1 c2 c3 rest0 =>
    split at h
    · next hcond =>
      rw [Bool.and_eq_true, Bool.and_eq_true, Bool.and_eq_true,
        decide_eq_true_eq, decide_eq_true_eq, decide_eq_true_eq] at hcond
      obtain ⟨⟨⟨hb, h1⟩, h2⟩, h3⟩ := hcond
      simp only [] at h
      split at h
      · exact absurd h (by simp)
      · next hspne =>
        split at h
        · next d1 d2 r2 heqd =>
          split at h
          · next hdcond =>
            rw [Bool.and_eq_true, decide_eq_true_eq, decide_eq_true_eq] at hdcond
            obtain ⟨hd1, hd2⟩ := hdcond
            split at h
            · next castp np heqp =>
              rw [Option.some.injEq, Prod.mk.injEq] at h
              obtain ⟨rfl, rfl⟩ := h
              obtain ⟨sp1, sp2, sp4, rest, hs, hnp, hsp1, hsp2, hsp4, hcs⟩ :=
                matchParens_sound heqp
              have e0 : rest0 = rest0.takeWhile isJsSpace ++ d1 :: d2 :: r2 := by
                conv_lhs => rw [drop_takeWhile (p := isJsSpace) rest0]
                rw [heqd]
              refine ⟨hb, c1 :: c2 :: c3 :: (rest0.takeWhile isJsSpace ++
                (d1 :: d2 :: (sp1 ++ '(' :: (sp2 ++ '$' ::
                  (digitsOf k ++ castp ++ sp4 ++ [')']))))), rest, ?_, ?_, ?_⟩
              · conv_lhs => rw [e0]
                rw [hs]
                simp [List.append_assoc]
              · simp only [List.length_cons, List.length_append, List.length_nil]
                omega
              · refine ⟨c1, c2, c3, rest0.takeWhile isJsSpace,
                  d1 :: d2 :: (sp1 ++ '(' :: (sp2 ++ '$' ::
                    (digitsOf k ++ castp ++ sp4 ++ [')']))),
                  h1, h2, h3,
                  fun c hc => List.mem_takeWhile_imp hc,
                  ?_,
                  ⟨d1, d2, sp1, sp2, sp4, hd1, hd2, hsp1, hsp2, hsp4, hcs, rfl⟩,
                  rfl⟩
                intro hnil
                exact hspne (by rw [hnil]; rfl)
            · exact absurd h (by simp)
          · exact absurd h (by simp)
        · exact absurd h (by simp)
    · exact absurd h (by simp)
  · exact absurd h (by simp)

theorem matchNotIn_complete {k : Nat} {prev : Option Char} {cast w : List Char}
    (rest : List Char) (hb : boundaryOk prev = true) (hw : NotInInstance k cast w) :
    matchNotIn k prev (w ++ rest) = some (cast, w.length) := by
  obtain ⟨cn, co, ct, sp0, wIn, h1, h2, h3, hsp0, hne0, hin, hweq⟩ := hw
  obtain ⟨ci, cn2, sp1, sp2, sp4, g1, g2, gsp1, gsp2, gsp4, gcs, gweq⟩ := hin
  subst hweq
  subst gweq
  have hassoc : (cn :: co :: ct :: (sp0 ++ ci :: cn2 :: (sp1 ++ '(' ::
      (sp2 ++ '$' :: (digitsOf k ++ cast ++ sp4 ++ [')']))))) ++ rest =
      cn :: co :: ct :: (sp0 ++ ci :: (cn2 :: (sp1 ++ '(' ::
        (sp2 ++ '$' :: (digitsOf k ++ (cast ++ (sp4 ++ ')' :: rest))))))) := by
    simp [List.append_assoc]
  rw [hassoc]
  rw [matchNotIn.eq_def]
  simp only []
  have hcond1 : (boundaryOk prev && decide (lcChar cn = 'n') &&
      decide (lcChar co = 'o') && decide (lcChar ct = 't')) = true := by
    rw [Bool.and_eq_true, Bool.and_eq_true, Bool.and_eq_true,
      decide_eq_true_eq, decide_eq_true_eq, decide_eq_true_eq]
    exact ⟨⟨⟨hb, h1⟩, h2⟩, h3⟩
  rw [if_pos hcond1]
  rw [takeWhile_middle ci _ hsp0 (lc_i_not_space g1)]
  rw [if_neg (by simp [List.isEmpty_iff, hne0])]
  rw [List.drop_left]
  simp only []
  have hcond2 : (decide (lcChar ci = 'i') && decide (lcChar cn2 = 'n')) = true := by
    rw [Bool.and_eq_true, decide_eq_true_eq, decide_eq_true_eq]
    exact ⟨g1, g2⟩
  rw [if_pos hcond2]
  rw [matchParens_complete rest gsp1 gsp2 gsp4 gcs]
  simp only [Option.some.injEq, Prod.mk.injEq, true_and]
  simp only [List.length_cons, List.length_append, List.length_nil]
  omega

theorem hasInMatch_eq_hasScan (k : Nat) :
    ∀ (s : List Char) (prev : Option Char),
      hasInMatch k prev s = hasScanMatch (matchIn k) prev s := by
  intro s
  induction s with
  | nil => intro prev; rfl
  | cons c t ih =>
    intro prev
    simp only [hasInMatch, hasScanMatch]
    rw [ih]

theorem hasNotInMatch_eq_hasScan (k : Nat) :
    ∀ (s : List Char) (prev : Option Char),
      hasNotInMatch k prev s = hasScanMatch (matchNotIn k) prev s := by
  intro s
  induction s with
  | nil => intro prev; rfl
  | cons c t ih =>
    intro prev
    simp only [hasNotInMatch, hasScanMatch]
    rw [ih]

theorem scanReplace_skip_last (m : Option Char → List Char → Option (List Char × Nat))
    (repl : List Char → List Char) :
    ∀ (u : List Char) (d : Char) (v : List Char) (prev : Option Char),
      scanReplace m repl prev (u ++ [d]).length ((u ++ [d]) ++ v) =
        scanReplace m repl (some d) 0 v := by
  intro u
  induction u with
  | nil => intro d v prev; rfl
  | cons c u ih =>
    intro d v prev
    simp only [List.cons_append, List.length_cons]
    exact ih d v (some c)

theorem scanReplace_id (m : Option Char → List Char → Option (List Char × Nat))
    (repl : List Char → List Char) :
    ∀ (s : List Char) (prev : Option Char),
      hasScanMatch m prev s = false → scanReplace m repl prev 0 s = s := by
  intro s
  induction s with
  | nil => intro prev _; rfl
  | cons c t ih =>
    intro prev h
    simp only [hasScanMatch, Bool.or_eq_false_iff] at h
    obtain ⟨h1, h2⟩ := h
    have hm : m prev (c :: t) = none := by
      cases hm2 : m prev (c :: t) with
      | none => rfl
      | some p =>
        rw [hm2] at h1
        exact absurd h1 (by simp)
    simp only [scanReplace]
    rw [hm]
    show c :: scanReplace m repl (some c) 0 t = c :: t
    rw [ih (some c) h2]

theorem hasScan_suffix_false (m : Option Char → List Char → Option (List Char × Nat)) :
    ∀ (u : List Char) (d : Char) (v : List Char) (prev : Option Char),
      hasScanMatch m prev ((u ++ [d]) ++ v) = false →
      hasScanMatch m (some d) v = false := by
  intro u
  induction u with
  | nil =>
    intro d v prev h
    simp only [List.nil_append, List.cons_append, hasScanMatch,
      Bool.or_eq_false_iff] at h
    exact h.2
  | cons c u ih =>
    intro d v prev h
    simp only [List.cons_append, hasScanMatch, Bool.or_eq_false_iff] at h
    exact ih d v (some c) h.2

theorem scanPrefixTransfer (m' : Option Char → List Char → Option (List Char × Nat))
    (repl' : List Char → List Char)
    (hrepl : ∀ cast, ∃ h t, repl' cast = h :: t ∧ (h = '=' ∨ h = '<')) :
    ∀ (s : List Char) (skip : Nat) (prev : Option Char) (w : List Char),
      w <+: scanReplace m' repl' prev skip s →
      (∀ x ∈ w, x ≠ '=' ∧ x ≠ '<') → w <+: s.drop skip := by
  intro s
  induction s with
  | nil =>
    intro skip prev w hp _
    have hz : scanReplace m' repl' prev skip [] = [] := by
      cases skip <;> rfl
    rw [hz] at hp
    rw [List.prefix_nil] at hp
    subst hp
    exact List.nil_prefix
  | cons c t ih =>
    intro skip prev w hp hfree
    cases skip with
    | succ sk =>
      have hz : scanReplace m' repl' prev (sk + 1) (c :: t) =
          scanReplace m' repl' (some c) sk t := rfl
      rw [hz] at hp
      have := ih sk (some c) w hp hfree
      simpa using this
    | zero =>
      cases hm : m' prev (c :: t) with
      | some p =>
        obtain ⟨cast, n⟩ := p
        have heq : scanReplace m' repl' prev 0 (c :: t) =
            repl' cast ++ scanReplace m' repl' (some c) (n - 1) t := by
          simp only [scanReplace]
          rw [hm]
        rw [heq] at hp
        obtain ⟨h0, t0, hr, hfence⟩ := hrepl cast
        cases w with
        | nil => exact List.nil_prefix
        | cons w0 w' =>
          rw [hr] at hp
          have hw0 : w0 = h0 := (List.cons_prefix_cons.mp hp).1
          have := hfree w0 (List.mem_cons_self w0 w')
          rcases hfence with hf | hf
          · exact absurd (hw0.trans hf) this.1
          · exact absurd (hw0.trans hf) this.2
      | none =>
        have heq : scanReplace m' repl' prev 0 (c :: t) =
            c :: scanReplace m' repl' (some c) 0 t := by
          simp only [scanReplace]
          rw [hm]
        rw [heq] at hp
        cases w with
        | nil => exact List.nil_prefix
        | cons w0 w' =>
          obtain ⟨hw0, hp'⟩ := List.cons_prefix_cons.mp hp
          have := ih 0 (some c) w' hp'
            (fun x hx => hfree x (List.mem_cons_of_mem w0 hx))
          rw [List.drop_zero] at this
          exact List.cons_prefix_cons.mpr ⟨hw0, this⟩

theorem fence_ne_of_toNat {c : Char} (h1 : c.toNat ≠ 61) (h2 : c.toNat ≠ 60) :
    c ≠ '=' ∧ c ≠ '<' :=
  ⟨ne_of_toNat_ne (by rw [show ('=' : Char).toNat = 61 from rfl]; exact h1),
   ne_of_toNat_ne (by rw [show ('<' : Char).toNat = 60 from rfl]; exact h2)⟩

theorem lc_fence {c d : Char} (hd1 : 97 ≤ d.toNat) (hd2 : d.toNat ≤ 122)
    (h : lcChar c = d) : c ≠ '=' ∧ c ≠ '<' := by
  rcases lc_alpha_toNat h with hh | ⟨hh, g2, g3⟩
  · exact fence_ne_of_toNat (by omega) (by omega)
  · exact fence_ne_of_toNat (by omega) (by omega)

theorem space_fence {c : Char} (h : isJsSpace c = true) : c ≠ '=' ∧ c ≠ '<' := by
  rcases space_toNat_facts h with hh | hh
  · exact fence_ne_of_toNat (by omega) (by omega)
  · exact fence_ne_of_toNat (by omega) (by omega)

theorem digit_fence {c : Char} (h : isAsciiDigit c = true) : c ≠ '=' ∧ c ≠ '<' := by
  have := digit_toNat h
  exact fence_ne_of_toNat (by omega) (by omega)

theorem castchar_fence {c : Char} (h : isCastChar c = true) : c ≠ '=' ∧ c ≠ '<' := by
  rcases cast_toNat_facts h with hc|hc|hc|hc|hc|hc <;>
    exact fence_ne_of_toNat (by omega) (by omega)

theorem cast_chars {cast : List Char} (h : CastShape cast) :
    ∀ x ∈ cast, isJsSpace x = true ∨ x = ':' ∨ isCastChar x = true := by
  rcases h with hce | ⟨sp, ident, hcast, hsp, _, hidc⟩
  · subst hce
    intro x hx
    exact absurd hx (List.not_mem_nil x)
  · subst hcast
    intro x hx
    rcases List.mem_append.mp hx with hx1 | hx2
    · exact Or.inl (hsp x hx1)
    · rcases hx2 with _ | ⟨_, hx3⟩
      · exact Or.inr (Or.inl rfl)
      rcases hx3 with _ | ⟨_, hx4⟩
      · exact Or.inr (Or.inl rfl)
      exact Or.inr (Or.inr (hidc x hx4))

theorem castShape_fence {cast : List Char} (h : CastShape cast) :
    ∀ x ∈ cast, x ≠ '=' ∧ x ≠ '<' := by
  intro x hx
  rcases cast_chars h x hx with hh | hh | hh
  · exact space_fence hh
  · subst hh
    exact fence_ne_of_toNat (by decide) (by decide)
  · exact castchar_fence hh

theorem InInstance_chars {k : Nat} {cast w : List Char} (h : InInstance k cast w) :
    ∀ x ∈ w, x ≠ '=' ∧ x ≠ '<' := by
  obtain ⟨ci, cn, sp1, sp2, sp4, h1, h2, hsp1, hsp2, hsp4, hcs, hweq⟩ := h
  subst hweq
  intro x hx
  have hx' : x = ci ∨ x = cn ∨ x ∈ sp1 ∨ x = '(' ∨ x ∈ sp2 ∨ x = '$' ∨
      x ∈ digitsOf k ∨ x ∈ cast ∨ x ∈ sp4 ∨ x = ')' := by
    simp only [List.mem_cons, List.mem_append, List.mem_singleton,
      List.not_mem_nil] at hx
    tauto
  rcases hx' with rfl | rfl | hh | rfl | hh | rfl | hh | hh | hh | rfl
  · exact lc_fence (by decide) (by decide) h1
  · exact lc_fence (by decide) (by decide) h2
  · exact space_fence (hsp1 x hh)
  · exact fence_ne_of_toNat (by decide) (by decide)
  · exact space_fence (hsp2 x hh)
  · exact fence_ne_of_toNat (by decide) (by decide)
  · exact digit_fence (digitsOf_digits k x hh)
  · exact castShape_fence hcs x hh
  · exact space_fence (hsp4 x hh)
  · exact fence_ne_of_toNat (by decide) (by decide)

theorem NotInInstance_chars {k : Nat} {cast w : List Char} (h : NotInInstance k cast w) :
    ∀ x ∈ w, x ≠ '=' ∧ x ≠ '<' := by
  obtain ⟨cn, co, ct, sp0, wIn, h1, h2, h3, hsp0, _, hin, hweq⟩ := h
  subst hweq
  intro x hx
  have hx' : x = cn ∨ x = co ∨ x = ct ∨ x ∈ sp0 ∨ x ∈ wIn := by
    simp only [List.mem_cons, List.mem_append] at hx
    tauto
  rcases hx' with rfl | rfl | rfl | hh | hh
  · exact lc_fence (by decide) (by decide) h1
  · exact lc_fence (by decide) (by decide) h2
  · exact lc_fence (by decide) (by decide) h3
  · exact space_fence (hsp0 x hh)
  · exact InInstance_chars hin x hh

theorem InInstance_split {k : Nat} {cast w : List Char} (h : InInstance k cast w) :
    ∃ w0, w = w0 ++ [')'] := by
  obtain ⟨ci, cn, sp1, sp2, sp4, _, _, _, _, _, _, hweq⟩ := h
  subst hweq
  refine ⟨ci :: cn :: (sp1 ++ '(' :: (sp2 ++ '$' :: (digitsOf k ++ cast ++ sp4))), ?_⟩
  simp [List.append_assoc]

theorem NotInInstance_split {k : Nat} {cast w : List Char} (h : NotInInstance k cast w) :
    ∃ w0, w = w0 ++ [')'] := by
  obtain ⟨cn, co, ct, sp0, wIn, _, _, _, _, _, hin, hweq⟩ := h
  subst hweq
  obtain ⟨w0, hw0⟩ := InInstance_split hin
  subst hw0
  refine ⟨cn :: co :: ct :: (sp0 ++ w0), ?_⟩
  simp [List.append_assoc]

theorem matchIn_fail_head {k : Nat} {prev : Option Char} {c : Char} (t : List Char)
    (h : lcChar c ≠ 'i') : matchIn k prev (c :: t) = none := by
  cases t with
  | nil => rfl
  | cons c2 t2 =>
    simp only [matchIn]
    rw [if_neg]
    simp [h]

theorem matchIn_fail_second {k : Nat} {prev : Option Char} {c1 c2 : Char}
    (t : List Char) (h : lcChar c2 ≠ 'n') : matchIn k prev (c1 :: c2 :: t) = none := by
  simp only [matchIn]
  rw [if_neg]
  simp [h]

theorem matchIn_parens_none {k : Nat} {prev : Option Char} {c1 c2 : Char}
    {t : List Char} (h : matchParens k t = none) :
    matchIn k prev (c1 :: c2 :: t) = none := by
  simp only [matchIn]
  split
  · rw [h]
  · rfl

theorem matchNotIn_fail_head {k : Nat} {prev : Option Char} {c : Char} (t : List Char)
    (h : lcChar c ≠ 'n') : matchNotIn k prev (c :: t) = none := by
  cases t with
  | nil => rfl
  | cons c2 t2 =>
    cases t2 with
    | nil => rfl
    | cons c3 t3 =>
      simp only [matchNotIn]
      rw [if_neg]
      simp [h]

theorem matchNotIn_fail_second {k : Nat} {prev : Option Char} {c1 c2 : Char}
    (t : List Char) (h : lcChar c2 ≠ 'o') :
    matchNotIn k prev (c1 :: c2 :: t) = none := by
  cases t with
  | nil => rfl
  | cons c3 t3 =>
    simp only [matchNotIn]
    rw [if_neg]
    simp [h]

theorem matchNotIn_fail_third {k : Nat} {prev : Option Char} {c1 c2 c3 : Char}
    (t : List Char) (h : lcChar c3 ≠ 't') :
    matchNotIn k prev (c1 :: c2 :: c3 :: t) = none := by
  simp only [matchNotIn]
  rw [if_neg]
  simp [h]

theorem matchParens_none_general {k : Nat} {sp : List Char} {c : Char} {t : List Char}
    (hsp : SpList sp) (hc : isJsSpace c = false) (hne : c ≠ '(') :
    matchParens k (sp ++ c :: t) = none := by
  simp only [matchParens]
  rw [takeWhile_middle c t hsp hc]
  rw [List.drop_left]
  split
  · next heq =>
    exact absurd (List.cons.inj heq).1 hne
  · rfl

theorem classTail_view : ∀ (d v : List Char),
    (∀ x ∈ d, isJsSpace x = true ∨ x = ':' ∨ isCastChar x = true) →
    ∃ sp rest2, d ++ ')' :: v = sp ++ rest2 ∧ SpList sp ∧
      (rest2 = ')' :: v ∨
        ∃ c' d2, rest2 = c' :: (d2 ++ ')' :: v) ∧ isJsSpace c' = false ∧
          (c' = ':' ∨ isCastChar c' = true) ∧
          (∀ x ∈ d2, isJsSpace x = true ∨ x = ':' ∨ isCastChar x = true)) := by
  intro d
  induction d with
  | nil =>
    intro v _
    exact ⟨[], ')' :: v, rfl, fun c hc => absurd hc (List.not_mem_nil c), Or.inl rfl⟩
  | cons x d ih =>
    intro v hcl
    rcases hcl x (List.mem_cons_self x d) with hx | hx | hx
    · obtain ⟨sp, rest2, heq, hsp, hbr⟩ :=
        ih v (fun c hc => hcl c (List.mem_cons_of_mem x hc))
      refine ⟨x :: sp, rest2, ?_, ?_, hbr⟩
      · simp only [List.cons_append, heq]
      · intro c hc
        rcases List.mem_cons.mp hc with rfl | hc2
        · exact hx
        · exact hsp c hc2
    · refine ⟨[], x :: (d ++ ')' :: v), rfl,
        fun c hc => absurd hc (List.not_mem_nil c),
        Or.inr ⟨x, d, rfl, ?_, Or.inl hx,
          fun c hc => hcl c (List.mem_cons_of_mem x hc)⟩⟩
      rw [hx]
      rfl
    · exact ⟨[], x :: (d ++ ')' :: v), rfl,
        fun c hc => absurd hc (List.not_mem_nil c),
        Or.inr ⟨x, d, rfl, cast_not_space hx, Or.inr hx,
          fun c hc => hcl c (List.mem_cons_of_mem x hc)⟩⟩

theorem castchar_ne_paren {c : Char} (h : isCastChar c = true) : c ≠ '(' := by
  have h40 : c.toNat ≠ 40 := by
    rcases cast_toNat_facts h with hc|hc|hc|hc|hc|hc <;> omega
  exact ne_of_toNat_ne (by rw [show ('(' : Char).toNat = 40 from rfl]; exact h40)

theorem matchParens_classTail_none (k : Nat) : ∀ (d v : List Char),
    (∀ x ∈ d, isJsSpace x = true ∨ x = ':' ∨ isCastChar x = true) →
    matchParens k (d ++ ')' :: v) = none := by
  intro d v hcl
  obtain ⟨sp, rest2, heq, hsp, hbr⟩ := classTail_view d v hcl
  rw [heq]
  rcases hbr with hb | ⟨c', d2, hb, hc', hcls, _⟩
  · subst hb
    exact matchParens_none_general hsp (by decide) (by decide)
  · subst hb
    refine matchParens_none_general hsp hc' ?_
    rcases hcls with rfl | hcc
    · decide
    · exact castchar_ne_paren hcc

theorem matchIn_classTail_none (k : Nat) : ∀ (d v : List Char) (prev : Option Char),
    (∀ x ∈ d, isJsSpace x = true ∨ x = ':' ∨ isCastChar x = true) →
    matchIn k prev (d ++ ')' :: v) = none := by
  intro d v prev hcl
  cases d with
  | nil => exact matchIn_fail_head _ (by decide)
  | cons x d' =>
    simp only [List.cons_append]
    by_cases hx : lcChar x = 'i'
    · cases d' with
      | nil =>
        simp only [List.nil_append]
        exact matchIn_fail_second _ (by decide)
      | cons y d'' =>
        simp only [List.cons_append]
        by_cases hy : lcChar y = 'n'
        · exact matchIn_parens_none (matchParens_classTail_none k d'' v
            (fun c hc => hcl c (List.mem_cons_of_mem x
              (List.mem_cons_of_mem y hc))))
        · exact matchIn_fail_second _ hy
    · exact matchIn_fail_head _ hx

theorem matchNotIn_classTail_none (k : Nat) : ∀ (d v : List Char) (prev : Option Char),
    (∀ x ∈ d, isJsSpace x = true ∨ x = ':' ∨ isCastChar x = true) →
    matchNotIn k prev (d ++ ')' :: v) = none := by
  intro d v prev hcl
  cases d with
  | nil => exact matchNotIn_fail_head _ (by decide)
  | cons x d' =>
    simp only [List.cons_append]
    by_cases hx : lcChar x = 'n'
    swap
    · exact matchNotIn_fail_head _ hx
    cases d' with
    | nil =>
      simp only [List.nil_append]
      exact matchNotIn_fail_second _ (by decide)
    | cons y d'' =>
      simp only [List.cons_append]
      by_cases hy : lcChar y = 'o'
      swap
      · exact matchNotIn_fail_second _ hy
      cases d'' with
      | nil =>
        simp only [List.nil_append]
        exact matchNotIn_fail_third _ (by decide)
      | cons z d3 =>
        simp only [List.cons_append]
        by_cases hz : lcChar z = 't'
        swap
        · exact matchNotIn_fail_third _ hz
        have hcl3 : ∀ c ∈ d3, isJsSpace c = true ∨ c = ':' ∨ isCastChar c = true :=
          fun c hc => hcl c (List.mem_cons_of_mem x (List.mem_cons_of_mem y
            (List.mem_cons_of_mem z hc)))
        obtain ⟨sp, rest2, heq, hsp, hbr⟩ := classTail_view d3 v hcl3
        simp only [matchNotIn]
        split
        swap
        · rfl
        rw [heq]
        rcases hbr with hb | ⟨c', d2, hb, hc', hcls, hcl2⟩
        · subst hb
          rw [takeWhile_middle ')' v hsp (by decide)]
          split
          · rfl
          · rw [List.drop_left]
            cases v with
            | nil => rfl
            | cons v0 v' =>
              simp [show lcChar ')' ≠ 'i' from by decide]
        · subst hb
          rw [takeWhile_middle c' _ hsp hc']
          split
          · rfl
          · rw [List.drop_left]
            cases d2 with
            | nil =>
              simp only [List.nil_append]
              simp [show lcChar ')' ≠ 'n' from by decide]
            | cons y2 d4 =>
              simp only [List.cons_append]
              by_cases hci : lcChar c' = 'i'
              · by_cases hy2 : lcChar y2 = 'n'
                · rw [if_pos (by simp [hci, hy2])]
                  rw [matchParens_classTail_none k d4 v
                    (fun c hc => hcl2 c (List.mem_cons_of_mem y2 hc))]
                · rw [if_neg (by simp [hy2])]
              · rw [if_neg (by simp [hci])]

theorem scanIn_classTail (k : Nat) : ∀ (d : List Char) (v : List Char)
    (prev : Option Char),
    (∀ x ∈ d, isJsSpace x = true ∨ x = ':' ∨ isCastChar x = true) →
    hasScanMatch (matchIn k) prev (d ++ ')' :: v) =
      hasScanMatch (matchIn k) (some ')') v := by
  intro d
  induction d with
  | nil =>
    intro v prev _
    simp only [List.nil_append, hasScanMatch]
    rw [matchIn_fail_head _ (by decide)]
    simp
  | cons x d ih =>
    intro v prev hcl
    simp only [List.cons_append, hasScanMatch, List.append_eq]
    have hz := matchIn_classTail_none k (x :: d) v prev hcl
    rw [List.cons_append] at hz
    rw [hz]
    simp only [Option.isSome_none, Bool.false_or]
    exact ih v (some x) (fun c hc => hcl c (List.mem_cons_of_mem x hc))

theorem scanNotIn_classTail (k : Nat) : ∀ (d : List Char) (v : List Char)
    (prev : Option Char),
    (∀ x ∈ d, isJsSpace x = true ∨ x = ':' ∨ isCastChar x = true) →
    hasScanMatch (matchNotIn k) prev (d ++ ')' :: v) =
      hasScanMatch (matchNotIn k) (some ')') v := by
  intro d
  induction d with
  | nil =>
    intro v prev _
    simp only [List.nil_append, hasScanMatch]
    rw [matchNotIn_fail_head _ (by decide)]
    simp
  | cons x d ih =>
    intro v prev hcl
    simp only [List.cons_append, hasScanMatch, List.append_eq]
    have hz := matchNotIn_classTail_none k (x :: d) v prev hcl
    rw [List.cons_append] at hz
    rw [hz]
    simp only [Option.isSome_none, Bool.false_or]
    exact ih v (some x) (fun c hc => hcl c (List.mem_cons_of_mem x hc))

theorem class_digits_cast {k' : Nat} {cast : List Char} (hcs : CastShape cast) :
    ∀ x ∈ digitsOf k' ++ cast, isJsSpace x = true ∨ x = ':' ∨ isCastChar x = true := by
  intro x hx
  rcases List.mem_append.mp hx with hx1 | hx2
  · refine Or.inr (Or.inr ?_)
    simp [isCastChar, digit_word (digitsOf_digits k' x hx1)]
  · exact cast_chars hcs x hx2

theorem block_scanIn_inRepl (k k' : Nat) {cast : List Char} (hcs : CastShape cast)
    (v : List Char) (prev : Option Char) :
    hasScanMatch (matchIn k) prev (inRepl k' cast ++ v) =
      hasScanMatch (matchIn k) (some ')') v := by
  simp only [inRepl, List.cons_append, List.append_assoc, List.singleton_append]
  simp only [hasScanMatch, List.append_eq]
  rw [matchIn_fail_head _ (show lcChar '=' ≠ 'i' from by decide)]
  rw [matchIn_fail_head _ (show lcChar ' ' ≠ 'i' from by decide)]
  rw [matchIn_fail_head _ (show lcChar 'A' ≠ 'i' from by decide)]
  rw [matchIn_fail_head _ (show lcChar 'N' ≠ 'i' from by decide)]
  rw [matchIn_fail_head _ (show lcChar 'Y' ≠ 'i' from by decide)]
  rw [matchIn_fail_head _ (show lcChar '(' ≠ 'i' from by decide)]
  rw [matchIn_fail_head _ (show lcChar '$' ≠ 'i' from by decide)]
  simp only [Option.isSome_none, Bool.false_or]
  rw [← List.append_assoc]
  exact scanIn_classTail k _ v _ (class_digits_cast hcs)

theorem block_scanIn_notInRepl (k k' : Nat) {cast : List Char} (hcs : CastShape cast)
    (v : List Char) (prev : Option Char) :
    hasScanMatch (matchIn k) prev (notInRepl k' cast ++ v) =
      hasScanMatch (matchIn k) (some ')') v := by
  simp only [notInRepl, List.cons_append, List.append_assoc, List.singleton_append]
  simp only [hasScanMatch, List.append_eq]
  rw [matchIn_fail_head _ (show lcChar '<' ≠ 'i' from by decide)]
  rw [matchIn_fail_head _ (show lcChar '>' ≠ 'i' from by decide)]
  rw [matchIn_fail_head _ (show lcChar ' ' ≠ 'i' from by decide)]
  rw [matchIn_fail_head _ (show lcChar 'A' ≠ 'i' from by decide)]
  rw [matchIn_fail_head _ (show lcChar 'L' ≠ 'i' from by decide)]
  rw [matchIn_fail_head _ (show lcChar '(' ≠ 'i' from by decide)]
  rw [matchIn_fail_head _ (show lcChar '$' ≠ 'i' from by decide)]
  simp only [Option.isSome_none, Bool.false_or]
  rw [← List.append_assoc]
  exact scanIn_classTail k _ v _ (class_digits_cast hcs)

theorem block_scanNotIn_inRepl (k k' : Nat) {cast : List Char} (hcs : CastShape cast)
    (v : List Char) (prev : Option Char) :
    hasScanMatch (matchNotIn k) prev (inRepl k' cast ++ v) =
      hasScanMatch (matchNotIn k) (some ')') v := by
  simp only [inRepl, List.cons_append, List.append_assoc, List.singleton_append]
  simp only [hasScanMatch, List.append_eq]
  rw [matchNotIn_fail_head _ (show lcChar '=' ≠ 'n' from by decide)]
  rw [matchNotIn_fail_head _ (show lcChar ' ' ≠ 'n' from by decide)]
  rw [matchNotIn_fail_head _ (show lcChar 'A' ≠ 'n' from by decide)]
  rw [matchNotIn_fail_second _ (show lcChar 'Y' ≠ 'o' from by decide)]
  rw [matchNotIn_fail_head _ (show lcChar 'Y' ≠ 'n' from by decide)]
  rw [matchNotIn_fail_head _ (show lcChar '(' ≠ 'n' from by decide)]
  rw [matchNotIn_fail_head _ (show lcChar '$' ≠ 'n' from by decide)]
  simp only [Option.isSome_none, Bool.false_or]
  rw [← List.append_assoc]
  exact scanNotIn_classTail k _ v _ (class_digits_cast hcs)

theorem block_scanNotIn_notInRepl (k k' : Nat) {cast : List Char} (hcs : CastShape cast)
    (v : List Char) (prev : Option Char) :
    hasScanMatch (matchNotIn k) prev (notInRepl k' cast ++ v) =
      hasScanMatch (matchNotIn k) (some ')') v := by
  simp only [notInRepl, List.cons_append, List.append_assoc, List.singleton_append]
  simp only [hasScanMatch, List.append_eq]
  rw [matchNotIn_fail_head _ (show lcChar '<' ≠ 'n' from by decide)]
  rw [matchNotIn_fail_head _ (show lcChar '>' ≠ 'n' from by decide)]
  rw [matchNotIn_fail_head _ (show lcChar ' ' ≠ 'n' from by decide)]
  rw [matchNotIn_fail_head _ (show lcChar 'A' ≠ 'n' from by decide)]
  rw [matchNotIn_fail_head _ (show lcChar 'L' ≠ 'n' from by decide)]
  rw [matchNotIn_fail_head _ (show lcChar '(' ≠ 'n' from by decide)]
  rw [matchNotIn_fail_head _ (show lcChar '$' ≠ 'n' from by decide)]
  simp only [Option.isSome_none, Bool.false_or]
  rw [← List.append_assoc]
  exact scanNotIn_classTail k _ v _ (class_digits_cast hcs)

theorem matchIn_fail_transfer (k : Nat) (prev : Option Char) (x y : List Char)
    (hpre : ∀ w, w <+: y → (∀ c ∈ w, c ≠ '=' ∧ c ≠ '<') → w <+: x)
    (hx : matchIn k prev x = none) : matchIn k prev y = none := by
  cases hy : matchIn k prev y with
  | none => rfl
  | some p =>
    obtain ⟨cast, n⟩ := p
    obtain ⟨hb, w, rest, hyeq, hwl, hin⟩ := matchIn_sound hy
    obtain ⟨rest2, hx2⟩ := hpre w ⟨rest, hyeq.symm⟩ (InInstance_chars hin)
    rw [← hx2, matchIn_complete rest2 hb hin] at hx
    exact Option.noConfusion hx

theorem matchNotIn_fail_transfer (k : Nat) (prev : Option Char) (x y : List Char)
    (hpre : ∀ w, w <+: y → (∀ c ∈ w, c ≠ '=' ∧ c ≠ '<') → w <+: x)
    (hx : matchNotIn k prev x = none) : matchNotIn k prev y = none := by
  cases hy : matchNotIn k prev y with
  | none => rfl
  | some p =>
    obtain ⟨cast, n⟩ := p
    obtain ⟨hb, w, rest, hyeq, hwl, hni⟩ := matchNotIn_sound hy
    obtain ⟨rest2, hx2⟩ := hpre w ⟨rest, hyeq.symm⟩ (NotInInstance_chars hni)
    rw [← hx2, matchNotIn_complete rest2 hb hni] at hx
    exact Option.noConfusion hx

theorem matchIn_shape {k : Nat} {prev : Option Char} {c : Char} {t cast : List Char}
    {n : Nat} (h : matchIn k prev (c :: t) = some (cast, n)) :
    CastShape cast ∧ ∃ u rest, t = (u ++ [')']) ++ rest ∧ n - 1 = u.length + 1 ∧
      InInstance k cast (c :: (u ++ [')'])) := by
  obtain ⟨hb, w, rest, heq, hwl, hin⟩ := matchIn_sound h
  obtain ⟨ci, cn, sp1, sp2, sp4, h1, h2, hsp1, hsp2, hsp4, hcs, hweq⟩ := hin
  subst hweq
  have hd : c :: t = ci :: ((cn :: (sp1 ++ '(' :: (sp2 ++ '$' ::
      (digitsOf k ++ cast ++ sp4))) ++ [')']) ++ rest) := by
    rw [heq]
    simp [List.append_assoc]
  obtain ⟨hc, ht⟩ := List.cons.inj hd
  refine ⟨hcs, cn :: (sp1 ++ '(' :: (sp2 ++ '$' :: (digitsOf k ++ cast ++ sp4))),
    rest, ht, ?_, ?_⟩
  · simp only [List.length_cons, List.length_append, List.length_singleton,
      List.length_nil] at hwl ⊢
    omega
  · rw [hc]
    exact ⟨ci, cn, sp1, sp2, sp4, h1, h2, hsp1, hsp2, hsp4, hcs, by
      simp [List.append_assoc]⟩

theorem matchNotIn_shape {k : Nat} {prev : Option Char} {c : Char} {t cast : List Char}
    {n : Nat} (h : matchNotIn k prev (c :: t) = some (cast, n)) :
    CastShape cast ∧ ∃ u rest, t = (u ++ [')']) ++ rest ∧ n - 1 = u.length + 1 ∧
      NotInInstance k cast (c :: (u ++ [')'])) := by
  obtain ⟨hb, w, rest, heq, hwl, hni⟩ := matchNotIn_sound h
  obtain ⟨cn, co, ct, sp0, wIn, h1, h2, h3, hsp0, hne0, hin, hweq⟩ := hni
  obtain ⟨ci, cn2, sp1, sp2, sp4, g1, g2, gsp1, gsp2, gsp4, gcs, gweq⟩ := hin
  subst gweq
  subst hweq
  have hd : c :: t = cn :: ((co :: ct :: (sp0 ++ ci :: cn2 :: (sp1 ++ '(' ::
      (sp2 ++ '$' :: (digitsOf k ++ cast ++ sp4)))) ++ [')']) ++ rest) := by
    rw [heq]
    simp [List.append_assoc]
  obtain ⟨hc, ht⟩ := List.cons.inj hd
  refine ⟨gcs, co :: ct :: (sp0 ++ ci :: cn2 :: (sp1 ++ '(' ::
      (sp2 ++ '$' :: (digitsOf k ++ cast ++ sp4)))), rest, ht, ?_, ?_⟩
  · simp only [List.length_cons, List.length_append, List.length_singleton,
      List.length_nil] at hwl ⊢
    omega
  · rw [hc]
    refine ⟨cn, co, ct, sp0,
      ci :: cn2 :: (sp1 ++ '(' :: (sp2 ++ '$' ::
        (digitsOf k ++ cast ++ sp4 ++ [')']))),
      h1, h2, h3, hsp0, hne0,
      ⟨ci, cn2, sp1, sp2, sp4, g1, g2, gsp1, gsp2, gsp4, gcs, rfl⟩, by
        simp [List.append_assoc]⟩

/-! ### The master scan lemmas: a global-replace pass leaves no own match in
its output, and cannot create a match of a pattern the input did not have -/

theorem scan_transfer_general
    (m m2 : Option Char → List Char → Option (List Char × Nat))
    (repl2 : List Char → List Char)
    (hfence : ∀ cast, ∃ h t, repl2 cast = h :: t ∧ (h = '=' ∨ h = '<'))
    (hfail : ∀ (prev : Option Char) (x y : List Char),
      (∀ w, w <+: y → (∀ c ∈ w, c ≠ '=' ∧ c ≠ '<') → w <+: x) →
      m prev x = none → m prev y = none)
    (hshape : ∀ (prev : Option Char) (c : Char) (t cast : List Char) (n : Nat),
      m2 prev (c :: t) = some (cast, n) →
      CastShape cast ∧ ∃ u rest, t = (u ++ [')']) ++ rest ∧ n - 1 = u.length + 1)
    (hblock : ∀ (cast : List Char), CastShape cast → ∀ (v : List Char)
      (prev : Option Char),
      hasScanMatch m prev (repl2 cast ++ v) = hasScanMatch m (some ')') v) :
    ∀ (N : Nat) (s : List Char), s.length ≤ N → ∀ (prev : Option Char),
      hasScanMatch m prev s = false →
      hasScanMatch m prev (scanReplace m2 repl2 prev 0 s) = false := by
  intro N
  induction N with
  | zero =>
    intro s hs prev h
    have hnil : s = [] := List.eq_nil_of_length_eq_zero (Nat.le_zero.mp hs)
    subst hnil
    exact h
  | succ N ih =>
    intro s hs prev h
    cases s with
    | nil => exact h
    | cons c t =>
      have ht : t.length ≤ N := by
        simp only [List.length_cons] at hs
        omega
      simp only [hasScanMatch, Bool.or_eq_false_iff] at h
      obtain ⟨h1, h2⟩ := h
      have hm : m prev (c :: t) = none := by
        cases hm2 : m prev (c :: t) with
        | none => rfl
        | some p =>
          rw [hm2] at h1
          exact absurd h1 (by simp)
      cases hm2 : m2 prev (c :: t) with
      | none =>
        have hout : scanReplace m2 repl2 prev 0 (c :: t) =
            c :: scanReplace m2 repl2 (some c) 0 t := by
          simp only [scanReplace]
          rw [hm2]
        rw [hout]
        simp only [hasScanMatch, Bool.or_eq_false_iff]
        refine ⟨?_, ih t ht (some c) h2⟩
        have hnone : m prev (c :: scanReplace m2 repl2 (some c) 0 t) = none := by
          refine hfail prev (c :: t) _ ?_ hm
          intro w hw hwf
          have hw2 : w <+: scanReplace m2 repl2 prev 0 (c :: t) := by
            rw [hout]
            exact hw
          have hw3 := scanPrefixTransfer m2 repl2 hfence (c :: t) 0 prev w hw2 hwf
          simpa using hw3
        rw [hnone]
        simp
      | some p =>
        obtain ⟨cast, n⟩ := p
        obtain ⟨hcs, u, rest, hteq, hn1⟩ := hshape prev c t cast n hm2
        have hout : scanReplace m2 repl2 prev 0 (c :: t) =
            repl2 cast ++ scanReplace m2 repl2 (some c) (n - 1) t := by
          simp only [scanReplace]
          rw [hm2]
        have hrl : rest.length ≤ N := by
          rw [hteq] at ht
          simp only [List.length_append, List.length_cons] at ht
          omega
        have hrest : hasScanMatch m (some ')') rest = false := by
          rw [hteq] at h2
          exact hasScan_suffix_false m u ')' rest (some c) h2
        rw [hout, hteq]
        have hskip : scanReplace m2 repl2 (some c) (n - 1) ((u ++ [')']) ++ rest) =
            scanReplace m2 repl2 (some ')') 0 rest := by
          have hlen : n - 1 = (u ++ [')']).length := by
            simp only [List.length_append, List.length_singleton]
            omega
          rw [hlen]
          exact scanReplace_skip_last m2 repl2 u ')' rest (some c)
        rw [hskip, hblock cast hcs _ prev]
        exact ih rest hrl (some ')') hrest

theorem scan_self_general
    (m : Option Char → List Char → Option (List Char × Nat))
    (repl : List Char → List Char)
    (hfence : ∀ cast, ∃ h t, repl cast = h :: t ∧ (h = '=' ∨ h = '<'))
    (hfail : ∀ (prev : Option Char) (x y : List Char),
      (∀ w, w <+: y → (∀ c ∈ w, c ≠ '=' ∧ c ≠ '<') → w <+: x) →
      m prev x = none → m prev y = none)
    (hshape : ∀ (prev : Option Char) (c : Char) (t cast : List Char) (n : Nat),
      m prev (c :: t) = some (cast, n) →
      CastShape cast ∧ ∃ u rest, t = (u ++ [')']) ++ rest ∧ n - 1 = u.length + 1)
    (hblock : ∀ (cast : List Char), CastShape cast → ∀ (v : List Char)
      (prev : Option Char),
      hasScanMatch m prev (repl cast ++ v) = hasScanMatch m (some ')') v) :
    ∀ (N : Nat) (s : List Char), s.length ≤ N → ∀ (prev : Option Char),
      hasScanMatch m prev (scanReplace m repl prev 0 s) = false := by
  intro N
  induction N with
  | zero =>
    intro s hs prev
    have hnil : s = [] := List.eq_nil_of_length_eq_zero (Nat.le_zero.mp hs)
    subst hnil
    rfl
  | succ N ih =>
    intro s hs prev
    cases s with
    | nil => rfl
    | cons c t =>
      have ht : t.length ≤ N := by
        simp only [List.length_cons] at hs
        omega
      cases hm : m prev (c :: t) with
      | none =>
        have hout : scanReplace m repl prev 0 (c :: t) =
            c :: scanReplace m repl (some c) 0 t := by
          simp only [scanReplace]
          rw [hm]
        rw [hout]
        simp only [hasScanMatch, Bool.or_eq_false_iff]
        refine ⟨?_, ih t ht (some c)⟩
        have hnone : m prev (c :: scanReplace m repl (some c) 0 t) = none := by
          refine hfail prev (c :: t) _ ?_ hm
          intro w hw hwf
          have hw2 : w <+: scanReplace m repl prev 0 (c :: t) := by
            rw [hout]
            exact hw
          have hw3 := scanPrefixTransfer m repl hfence (c :: t) 0 prev w hw2 hwf
          simpa using hw3
        rw [hnone]
        simp
      | some p =>
        obtain ⟨cast, n⟩ := p
        obtain ⟨hcs, u, rest, hteq, hn1⟩ := hshape prev c t cast n hm
        have hout : scanReplace m repl prev 0 (c :: t) =
            repl cast ++ scanReplace m repl (some c) (n - 1) t := by
          simp only [scanReplace]
          rw [hm]
        have hrl : rest.length ≤ N := by
          rw [hteq] at ht
          simp only [List.length_append, List.length_cons] at ht
          omega
        rw [hout, hteq]
        have hskip : scanReplace m repl (some c) (n - 1) ((u ++ [')']) ++ rest) =
            scanReplace m repl (some ')') 0 rest := by
          have hlen : n - 1 = (u ++ [')']).length := by
            simp only [List.length_append, List.length_singleton]
            omega
          rw [hlen]
          exact scanReplace_skip_last m repl u ')' rest (some c)
        rw [hskip, hblock cast hcs _ prev]
        exact ih rest hrl (some ')')

/-! ### Instantiations of the master lemmas at the two array patterns -/

theorem scanIn_self (k : Nat) (s : List Char) (prev : Option Char) :
    hasScanMatch (matchIn k) prev
      (scanReplace (matchIn k) (inRepl k) prev 0 s) = false :=
  scan_self_general (matchIn k) (inRepl k)
    (fun cast => ⟨'=', _, rfl, Or.inl rfl⟩)
    (fun prev x y hpre hx => matchIn_fail_transfer k prev x y hpre hx)
    (fun _ c t cast n h => by
      obtain ⟨hcs, u, rest, e1, e2, _⟩ := matchIn_shape h
      exact ⟨hcs, u, rest, e1, e2⟩)
    (fun cast hcs v prev => block_scanIn_inRepl k k hcs v prev)
    s.length s (Nat.le_refl _) prev

theorem scanNotIn_self (k : Nat) (s : List Char) (prev : Option Char) :
    hasScanMatch (matchNotIn k) prev
      (scanReplace (matchNotIn k) (notInRepl k) prev 0 s) = false :=
  scan_self_general (matchNotIn k) (notInRepl k)
    (fun cast => ⟨'<', _, rfl, Or.inr rfl⟩)
    (fun prev x y hpre hx => matchNotIn_fail_transfer k prev x y hpre hx)
    (fun _ c t cast n h => by
      obtain ⟨hcs, u, rest, e1, e2, _⟩ := matchNotIn_shape h
      exact ⟨hcs, u, rest, e1, e2⟩)
    (fun cast hcs v prev => block_scanNotIn_notInRepl k k hcs v prev)
    s.length s (Nat.le_refl _) prev

theorem scanIn_transfer_overIn (k k2 : Nat) (s : List Char) (prev : Option Char)
    (h : hasScanMatch (matchIn k) prev s = false) :
    hasScanMatch (matchIn k) prev
      (scanReplace (matchIn k2) (inRepl k2) prev 0 s) = false :=
  scan_transfer_general (matchIn k) (matchIn k2) (inRepl k2)
    (fun cast => ⟨'=', _, rfl, Or.inl rfl⟩)
    (fun prev x y hpre hx => matchIn_fail_transfer k prev x y hpre hx)
    (fun _ c t cast n hm => by
      obtain ⟨hcs, u, rest, e1, e2, _⟩ := matchIn_shape hm
      exact ⟨hcs, u, rest, e1, e2⟩)
    (fun cast hcs v prev => block_scanIn_inRepl k k2 hcs v prev)
    s.length s (Nat.le_refl _) prev h

theorem scanIn_transfer_overNotIn (k k2 : Nat) (s : List Char) (prev : Option Char)
    (h : hasScanMatch (matchIn k) prev s = false) :
    hasScanMatch (matchIn k) prev
      (scanReplace (matchNotIn k2) (notInRepl k2) prev 0 s) = false :=
  scan_transfer_general (matchIn k) (matchNotIn k2) (notInRepl k2)
    (fun cast => ⟨'<', _, rfl, Or.inr rfl⟩)
    (fun prev x y hpre hx => matchIn_fail_transfer k prev x y hpre hx)
    (fun _ c t cast n hm => by
      obtain ⟨hcs, u, rest, e1, e2, _⟩ := matchNotIn_shape hm
      exact ⟨hcs, u, rest, e1, e2⟩)
    (fun cast hcs v prev => block_scanIn_notInRepl k k2 hcs v prev)
    s.length s (Nat.le_refl _) prev h

theorem scanNotIn_transfer_overIn (k k2 : Nat) (s : List Char) (prev : Option Char)
    (h : hasScanMatch (matchNotIn k) prev s = false) :
    hasScanMatch (matchNotIn k) prev
      (scanReplace (matchIn k2) (inRepl k2) prev 0 s) = false :=
  scan_transfer_general (matchNotIn k) (matchIn k2) (inRepl k2)
    (fun cast => ⟨'=', _, rfl, Or.inl rfl⟩)
    (fun prev x y hpre hx => matchNotIn_fail_transfer k prev x y hpre hx)
    (fun _ c t cast n hm => by
      obtain ⟨hcs, u, rest, e1, e2, _⟩ := matchIn_shape hm
      exact ⟨hcs, u, rest, e1, e2⟩)
    (fun cast hcs v prev => block_scanNotIn_inRepl k k2 hcs v prev)
    s.length s (Nat.le_refl _) prev h

theorem scanNotIn_transfer_overNotIn (k k2 : Nat) (s : List Char) (prev : Option Char)
    (h : hasScanMatch (matchNotIn k) prev s = false) :
    hasScanMatch (matchNotIn k) prev
      (scanReplace (matchNotIn k2) (notInRepl k2) prev 0 s) = false :=
  scan_transfer_general (matchNotIn k) (matchNotIn k2) (notInRepl k2)
    (fun cast => ⟨'<', _, rfl, Or.inr rfl⟩)
    (fun prev x y hpre hx => matchNotIn_fail_transfer k prev x y hpre hx)
    (fun _ c t cast n hm => by
      obtain ⟨hcs, u, rest, e1, e2, _⟩ := matchNotIn_shape hm
      exact ⟨hcs, u, rest, e1, e2⟩)
    (fun cast hcs v prev => block_scanNotIn_notInRepl k k2 hcs v prev)
    s.length s (Nat.le_refl _) prev h

/-! ### The per-index rewrite removes its own matches, creates none for any
index, and is the identity on match-free text -/

theorem rewriteForIndex_self_in (k : Nat) (text : List Char) :
    hasInMatch k none (rewriteForIndex k text) = false := by
  rw [hasInMatch_eq_hasScan]
  exact scanIn_self k _ none

theorem rewriteForIndex_self_notIn (k : Nat) (text : List Char) :
    hasNotInMatch k none (rewriteForIndex k text) = false := by
  rw [hasNotInMatch_eq_hasScan]
  unfold rewriteForIndex
  exact scanNotIn_transfer_overIn k k _ none (scanNotIn_self k text none)

theorem rewriteForIndex_pres_in (k k2 : Nat) (text : List Char)
    (h : hasInMatch k none text = false) :
    hasInMatch k none (rewriteForIndex k2 text) = false := by
  rw [hasInMatch_eq_hasScan] at h ⊢
  unfold rewriteForIndex
  exact scanIn_transfer_overIn k k2 _ none
    (scanIn_transfer_overNotIn k k2 text none h)

theorem rewriteForIndex_pres_notIn (k k2 : Nat) (text : List Char)
    (h : hasNotInMatch k none text = false) :
    hasNotInMatch k none (rewriteForIndex k2 text) = false := by
  rw [hasNotInMatch_eq_hasScan] at h ⊢
  unfold rewriteForIndex
  exact scanNotIn_transfer_overIn k k2 _ none
    (scanNotIn_transfer_overNotIn k k2 text none h)

theorem rewriteForIndex_id (k : Nat) (text : List Char)
    (h1 : hasInMatch k none text = false)
    (h2 : hasNotInMatch k none text = false) :
    rewriteForIndex k text = text := by
  rw [hasInMatch_eq_hasScan] at h1
  rw [hasNotInMatch_eq_hasScan] at h2
  unfold rewriteForIndex
  rw [scanReplace_id _ _ text none h2]
  exact scanReplace_id _ _ text none h1

/-! ### The full rewrite loop: stability and idempotence -/

theorem applyArrayRewrites_cons (meta : Nat × Bool) (metas : List (Nat × Bool))
    (text : List Char) :
    applyArrayRewrites (meta :: metas) text =
      applyArrayRewrites metas
        (if meta.snd then rewriteForIndex meta.fst text else text) := rfl

theorem applyArrayRewrites_pres_both (metas : List (Nat × Bool)) :
    ∀ (text : List Char) (k : Nat),
      hasInMatch k none text = false → hasNotInMatch k none text = false →
      hasInMatch k none (applyArrayRewrites metas text) = false ∧
      hasNotInMatch k none (applyArrayRewrites metas text) = false := by
  induction metas with
  | nil =>
    intro text k h1 h2
    exact ⟨h1, h2⟩
  | cons meta rest ih =>
    intro text k h1 h2
    rw [applyArrayRewrites_cons]
    by_cases hm : meta.snd = true
    · rw [if_pos hm]
      exact ih _ k (rewriteForIndex_pres_in k meta.fst text h1)
        (rewriteForIndex_pres_notIn k meta.fst text h2)
    · rw [if_neg hm]
      exact ih _ k h1 h2

theorem applyArrayRewrites_self (metas : List (Nat × Bool)) :
    ∀ (text : List Char) (k : Nat), (k, true) ∈ metas →
      hasInMatch k none (applyArrayRewrites metas text) = false ∧
      hasNotInMatch k none (applyArrayRewrites metas text) = false := by
  induction metas with
  | nil =>
    intro text k h
    exact absurd h (List.not_mem_nil _)
  | cons meta rest ih =>
    intro text k h
    rw [applyArrayRewrites_cons]
    rcases List.mem_cons.mp h with heq | hmem
    · have hsnd : meta.snd = true := by
        rw [← heq]
      have hfst : meta.fst = k := by
        rw [← heq]
      rw [if_pos hsnd, hfst]
      exact applyArrayRewrites_pres_both rest _ k
        (rewriteForIndex_self_in k text) (rewriteForIndex_self_notIn k text)
    · by_cases hm : meta.snd = true
      · rw [if_pos hm]
        exact ih _ k hmem
      · rw [if_neg hm]
        exact ih _ k hmem

theorem applyArrayRewrites_id (metas : List (Nat × Bool)) :
    ∀ (text : List Char),
      (∀ k, (k, true) ∈ metas →
        hasInMatch k none text = false ∧ hasNotInMatch k none text = false) →
      applyArrayRewrites metas text = text := by
  induction metas with
  | nil =>
    intro text _
    rfl
  | cons meta rest ih =>
    intro text h
    rw [applyArrayRewrites_cons]
    by_cases hm : meta.snd = true
    · have hmeta : (meta.fst, true) = meta := by
        rw [← hm]
      have hmem : (meta.fst, true) ∈ meta :: rest := by
        rw [hmeta]
        exact List.mem_cons_self meta rest
      rw [if_pos hm, rewriteForIndex_id meta.fst text
        (h meta.fst hmem).1 (h meta.fst hmem).2]
      exact ih text (fun k2 hk => h k2 (List.mem_cons_of_mem meta hk))
    · rw [if_neg hm]
      exact ih text (fun k2 hk => h k2 (List.mem_cons_of_mem meta hk))

/-- C5: the `IN`/`NOT IN` array-operator rewrite loop is idempotent — a second
application to the text produced by one application, with the same placeholder
metadata (indices and array flags), returns that text unchanged, for every
metadata list and every input text. -/
theorem claim_C5 (metas : List (Nat × Bool)) (text : List Char) :
    applyArrayRewrites metas (applyArrayRewrites metas text) =
      applyArrayRewrites metas text :=
  applyArrayRewrites_id metas (applyArrayRewrites metas text)
    (fun k hk => applyArrayRewrites_self metas text k hk)

/-! ### The rewrite passes preserve marker-freeness -/

theorem scanIn_rewrites (k : Nat) :
    ∀ (N : Nat) (s : List Char), s.length ≤ N → ∀ (prev : Option Char),
      InRewrites k prev s (scanReplace (matchIn k) (inRepl k) prev 0 s) := by
  intro N
  induction N with
  | zero =>
    intro s hs prev
    have hnil : s = [] := List.eq_nil_of_length_eq_zero (Nat.le_zero.mp hs)
    subst hnil
    exact InRewrites.nil prev
  | succ N ih =>
    intro s hs prev
    cases s with
    | nil => exact InRewrites.nil prev
    | cons c t =>
      have ht : t.length ≤ N := by
        simp only [List.length_cons] at hs
        omega
      cases hm : matchIn k prev (c :: t) with
      | none =>
        have hout : scanReplace (matchIn k) (inRepl k) prev 0 (c :: t) =
            c :: scanReplace (matchIn k) (inRepl k) (some c) 0 t := by
          simp only [scanReplace]
          rw [hm]
        rw [hout]
        refine InRewrites.keep prev c t _ ?_ (ih t ht (some c))
        rintro ⟨hb, cast, w, rest, heq, hin⟩
        rw [heq, matchIn_complete rest hb hin] at hm
        exact Option.noConfusion hm
      | some p =>
        obtain ⟨cast, n⟩ := p
        obtain ⟨hcs, u, rest, hteq, hn1, hin⟩ := matchIn_shape hm
        have hb : boundaryOk prev = true := (matchIn_sound hm).1
        have hout : scanReplace (matchIn k) (inRepl k) prev 0 (c :: t) =
            inRepl k cast ++
              scanReplace (matchIn k) (inRepl k) (some c) (n - 1) t := by
          simp only [scanReplace]
          rw [hm]
        have hrl : rest.length ≤ N := by
          rw [hteq] at ht
          simp only [List.length_append, List.length_cons] at ht
          omega
        have hskip : scanReplace (matchIn k) (inRepl k) (some c) (n - 1)
            ((u ++ [')']) ++ rest) =
            scanReplace (matchIn k) (inRepl k) (some ')') 0 rest := by
          have hlen : n - 1 = (u ++ [')']).length := by
            simp only [List.length_append, List.length_singleton]
            omega
          rw [hlen]
          exact scanReplace_skip_last _ _ u ')' rest (some c)
        rw [hout, hteq, hskip]
        have hfin := InRewrites.repl prev cast (c :: (u ++ [')'])) rest
          (scanReplace (matchIn k) (inRepl k) (some ')') 0 rest) hb hin
          (ih rest hrl (some ')'))
        have he : (c :: (u ++ [')'])) ++ rest = c :: ((u ++ [')']) ++ rest) := rfl
        rw [he] at hfin
        exact hfin

theorem scanNotIn_rewrites (k : Nat) :
    ∀ (N : Nat) (s : List Char), s.length ≤ N → ∀ (prev : Option Char),
      NotInRewrites k prev s (scanReplace (matchNotIn k) (notInRepl k) prev 0 s) := by
  intro N
  induction N with
  | zero =>
    intro s hs prev
    have hnil : s = [] := List.eq_nil_of_length_eq_zero (Nat.le_zero.mp hs)
    subst hnil
    exact NotInRewrites.nil prev
  | succ N ih =>
    intro s hs prev
    cases s with
    | nil => exact NotInRewrites.nil prev
    | cons c t =>
      have ht : t.length ≤ N := by
        simp only [List.length_cons] at hs
        omega
      cases hm : matchNotIn k prev (c :: t) with
      | none =>
        have hout : scanReplace (matchNotIn k) (notInRepl k) prev 0 (c :: t) =
            c :: scanReplace (matchNotIn k) (notInRepl k) (some c) 0 t := by
          simp only [scanReplace]
          rw [hm]
        rw [hout]
        refine NotInRewrites.keep prev c t _ ?_ (ih t ht (some c))
        rintro ⟨hb, cast, w, rest, heq, hni⟩
        rw [heq, matchNotIn_complete rest hb hni] at hm
        exact Option.noConfusion hm
      | some p =>
        obtain ⟨cast, n⟩ := p
        obtain ⟨hcs, u, rest, hteq, hn1, hni⟩ := matchNotIn_shape hm
        have hb : boundaryOk prev = true := (matchNotIn_sound hm).1
        have hout : scanReplace (matchNotIn k) (notInRepl k) prev 0 (c :: t) =
            notInRepl k cast ++
              scanReplace (matchNotIn k) (notInRepl k) (some c) (n - 1) t := by
          simp only [scanReplace]
          rw [hm]
        have hrl : rest.length ≤ N := by
          rw [hteq] at ht
          simp only [List.length_append, List.length_cons] at ht
          omega
        have hskip : scanReplace (matchNotIn k) (notInRepl k) (some c) (n - 1)
            ((u ++ [')']) ++ rest) =
            scanReplace (matchNotIn k) (notInRepl k) (some ')') 0 rest := by
          have hlen : n - 1 = (u ++ [')']).length := by
            simp only [List.length_append, List.length_singleton]
            omega
          rw [hlen]
          exact scanReplace_skip_last _ _ u ')' rest (some c)
        rw [hout, hteq, hskip]
        have hfin := NotInRewrites.repl prev cast (c :: (u ++ [')'])) rest
          (scanReplace (matchNotIn k) (notInRepl k) (some ')') 0 rest) hb hni
          (ih rest hrl (some ')'))
        have he : (c :: (u ++ [')'])) ++ rest = c :: ((u ++ [')']) ++ rest) := rfl
        rw [he] at hfin
        exact hfin

theorem rewriteForIndex_rewrites (k : Nat) (text : List Char) :
    ∃ mid, NotInRewrites k none text mid ∧
      InRewrites k none mid (rewriteForIndex k text) :=
  ⟨scanReplace (matchNotIn k) (notInRepl k) none 0 text,
    scanNotIn_rewrites k text.length text (Nat.le_refl _) none,
    scanIn_rewrites k
      (scanReplace (matchNotIn k) (notInRepl k) none 0 text).length
      (scanReplace (matchNotIn k) (notInRepl k) none 0 text)
      (Nat.le_refl _) none⟩

/-- C3 counterexample: the source patterns carry a leading `\b` word
boundary, which the claim omits.  The text `MARGIN ($1)` contains an
occurrence of the `IN ( $1 )` pattern (as the tail of `MARGIN`), yet the
rewrite for the array placeholder `$1` leaves the text unchanged, because
the `IN` is preceded by the word character `G`. -/
theorem claim_C3_counterexample :
    (∃ u rest, ("MARGIN ($1)").data = u ++ ("IN ($1)").data ++ rest ∧
      InInstance 1 [] (("IN ($1)").data)) ∧
    applyArrayRewrites [(1, true)] (("MARGIN ($1)").data) =
      ("MARGIN ($1)").data := by
  refine ⟨⟨("MARG").data, [], by decide, ?_⟩, by decide⟩
  refine ⟨'I', 'N', [' '], [], [], by decide, by decide, ?_, ?_, ?_,
    Or.inl rfl, by decide⟩
  · intro x hx
    rcases List.mem_singleton.mp hx with rfl
    decide
  · intro x hx
    exact absurd hx (List.not_mem_nil x)
  · intro x hx
    exact absurd hx (List.not_mem_nil x)

/-- C3 (amended): for every array placeholder index `k`, the compiler first
replaces every word-boundary-delimited, leftmost-first, non-overlapping
occurrence of `NOT IN ( $k [::cast] )` (case-insensitive, optional
whitespace, cast preserved verbatim) by `<> ALL($k<cast>)`, then in the
resulting text likewise every such occurrence of `IN ( $k [::cast] )` by
`= ANY($k<cast>)` — the claim's rewrite holds only for occurrences whose
`IN`/`NOT` is not immediately preceded by a word character, per the `\b` in
the source regexes.  In particular the template
`SELECT * FROM reservas WHERE quarto_id NOT IN ({{ids}}::int[])` with
`ids = [1, 2]` compiles to
`SELECT * FROM reservas WHERE quarto_id <> ALL($1::int[])` with
`args = [[1, 2]]`. -/
theorem claim_C3_amended :
    (∀ (k : Nat) (text : List Char), ∃ mid,
      NotInRewrites k none text mid ∧
      InRewrites k none mid (rewriteForIndex k text)) ∧
    buildParameterizedQuery
      "SELECT * FROM reservas WHERE quarto_id NOT IN ({{ids}}::int[])"
      [("ids", JsValue.vArr [JsValue.vInt 1, JsValue.vInt 2])] [] =
      .ok ("SELECT * FROM reservas WHERE quarto_id <> ALL($1::int[])",
        [JsValue.vArr [JsValue.vInt 1, JsValue.vInt 2]]) :=
  ⟨fun k text => rewriteForIndex_rewrites k text, rfl⟩

/-! ### Structure of a successful marker-substitution run -/

theorem sm_run (params : List (String × JsValue)) (schema : ParamSchema) :
    ∀ (t : List Char) (skip : Nat) (args : List JsValue)
      (metas : List (Nat × Bool)) (rest : List Char) (argsF : List JsValue)
      (metasF : List (Nat × Bool)),
      substMarkers params schema skip t args metas = .ok (rest, argsF, metasF) →
      ∃ vals newMetas,
        argsF = args ++ vals ∧
        vals.map some = (markerNames skip t).map (jsLookup params) ∧
        metasF = metas ++ newMetas ∧
        ∀ p ∈ newMetas, args.length < p.1 ∧ p.1 ≤ argsF.length := by
  intro t
  induction t with
  | nil =>
    intro skip args metas rest argsF metasF h
    have h2 : substMarkers params schema skip [] args metas =
        .ok ([], args, metas) := by
      cases skip <;> rfl
    rw [h2, Except.ok.injEq, Prod.mk.injEq, Prod.mk.injEq] at h
    obtain ⟨h6, h7, h8⟩ := h
    have hmn : markerNames skip ([] : List Char) = [] := by
      cases skip <;> rfl
    refine ⟨[], [], by rw [← h7]; simp, by rw [hmn]; rfl,
      by rw [← h8]; simp, ?_⟩
    intro p hp
    exact absurd hp (List.not_mem_nil p)
  | cons c t ih =>
    intro skip args metas rest argsF metasF h
    cases skip with
    | succ sk =>
      have hnames : markerNames (sk + 1) (c :: t) = markerNames sk t := rfl
      rw [hnames]
      exact ih sk args metas rest argsF metasF h
    | zero =>
      cases hm : matchMarker (c :: t) with
      | none =>
        simp only [substMarkers] at h
        rw [hm] at h
        simp only [] at h
        cases hrec : substMarkers params schema 0 t args metas with
        | error e =>
          rw [hrec] at h
          exact absurd h (by simp)
        | ok trip =>
          obtain ⟨rest2, argsF2, metasF2⟩ := trip
          rw [hrec] at h
          simp only [] at h
          rw [Except.ok.injEq, Prod.mk.injEq, Prod.mk.injEq] at h
          obtain ⟨h6, h7, h8⟩ := h
          obtain ⟨vals, newMetas, e1, e2, e3, e4⟩ :=
            ih 0 args metas rest2 argsF2 metasF2 hrec
          have hnames : markerNames 0 (c :: t) = markerNames 0 t := by
            simp only [markerNames]
            rw [hm]
          rw [hnames]
          refine ⟨vals, newMetas, by rw [← h7]; exact e1, e2,
            by rw [← h8]; exact e3, ?_⟩
          rw [← h7]
          exact e4
      | some p =>
        obtain ⟨nm, n⟩ := p
        simp only [substMarkers] at h
        rw [hm] at h
        simp only [] at h
        cases hlook : jsLookup params (String.mk nm) with
        | none =>
          rw [hlook] at h
          exact absurd h (by simp)
        | some v =>
          rw [hlook] at h
          simp only [] at h
          cases hrec : substMarkers params schema (n - 1) t (args ++ [v])
              (metas ++ [(args.length + 1,
                ((schemaLookup schema (String.mk nm)).any
                  (fun e => e.type = "array") || v.isArray))]) with
          | error e =>
            rw [hrec] at h
            exact absurd h (by simp)
          | ok trip =>
            obtain ⟨rest2, argsF2, metasF2⟩ := trip
            rw [hrec] at h
            simp only [] at h
            rw [Except.ok.injEq, Prod.mk.injEq, Prod.mk.injEq] at h
            obtain ⟨h6, h7, h8⟩ := h
            obtain ⟨vals, newMetas, e1, e2, e3, e4⟩ :=
              ih (n - 1) (args ++ [v]) _ rest2 argsF2 metasF2 hrec
            have hnames : markerNames 0 (c :: t) =
                String.mk nm :: markerNames (n - 1) t := by
              simp only [markerNames]
              rw [hm]
            rw [hnames]
            refine ⟨v :: vals,
              (args.length + 1,
                ((schemaLookup schema (String.mk nm)).any
                  (fun e => e.type = "array") || v.isArray)) :: newMetas,
              ?_, ?_, ?_, ?_⟩
            · rw [← h7, e1]
              simp
            · simp only [List.map_cons]
              rw [hlook, e2]
            · rw [← h8, e3]
              simp
            · intro p hp
              rcases List.mem_cons.mp hp with rfl | hp2
              · refine ⟨by simp, ?_⟩
                rw [← h7, e1]
                simp only [List.length_append, List.length_cons, List.length_nil]
                omega
              · have hq := e4 p hp2
                have h9 : (args ++ [v]).length = args.length + 1 := by simp
                refine ⟨?_, ?_⟩
                · have h10 := hq.1
                  omega
                · rw [← h7]
                  exact hq.2

/-! ### The substitution output: dollar-free prefixes come from the template,
no marker survives, and positional placeholders are well-formed -/

theorem sm_blind (schema : ParamSchema) (params params2 : List (String × JsValue))
    (hsame : ∀ name,
      (jsLookup params name).map (fun v =>
        ((schemaLookup schema name).any (fun e => e.type = "array") ||
          v.isArray)) =
      (jsLookup params2 name).map (fun v =>
        ((schemaLookup schema name).any (fun e => e.type = "array") ||
          v.isArray))) :
    ∀ (t : List Char) (skip : Nat) (args args2 : List JsValue)
      (metas : List (Nat × Bool)) (rest : List Char) (argsF : List JsValue)
      (metasF : List (Nat × Bool)),
      args2.length = args.length →
      substMarkers params schema skip t args metas = .ok (rest, argsF, metasF) →
      ∃ args2F, substMarkers params2 schema skip t args2 metas =
        .ok (rest, args2F, metasF) := by
  intro t
  induction t with
  | nil =>
    intro skip args args2 metas rest argsF metasF hl h
    have h2 : substMarkers params schema skip [] args metas =
        .ok ([], args, metas) := by
      cases skip <;> rfl
    rw [h2, Except.ok.injEq, Prod.mk.injEq, Prod.mk.injEq] at h
    refine ⟨args2, ?_⟩
    have h3 : substMarkers params2 schema skip [] args2 metas =
        .ok ([], args2, metas) := by
      cases skip <;> rfl
    rw [h3, ← h.1, ← h.2.2]
  | cons c t ih =>
    intro skip args args2 metas rest argsF metasF hl h
    cases skip with
    | succ sk => exact ih sk args args2 metas rest argsF metasF hl h
    | zero =>
      cases hm : matchMarker (c :: t) with
      | none =>
        simp only [substMarkers] at h
        rw [hm] at h
        simp only [] at h
        cases hrec : substMarkers params schema 0 t args metas with
        | error e =>
          rw [hrec] at h
          exact absurd h (by simp)
        | ok trip =>
          obtain ⟨rest2, argsF2, metasF2⟩ := trip
          rw [hrec] at h
          simp only [] at h
          rw [Except.ok.injEq, Prod.mk.injEq, Prod.mk.injEq] at h
          obtain ⟨h6, h7, h8⟩ := h
          obtain ⟨args2F, hrec2⟩ :=
            ih 0 args args2 metas rest2 argsF2 metasF2 hl hrec
          refine ⟨args2F, ?_⟩
          simp only [substMarkers]
          rw [hm]
          simp only []
          rw [hrec2]
          simp only []
          rw [h6, h8]
      | some p =>
        obtain ⟨nm, n2⟩ := p
        simp only [substMarkers] at h
        rw [hm] at h
        simp only [] at h
        cases hlook : jsLookup params (String.mk nm) with
        | none =>
          rw [hlook] at h
          exact absurd h (by simp)
        | some v =>
          rw [hlook] at h
          simp only [] at h
          have hs := hsame (String.mk nm)
          rw [hlook] at hs
          cases hlook2 : jsLookup params2 (String.mk nm) with
          | none =>
            rw [hlook2] at hs
            exact absurd hs (by simp)
          | some v2 =>
            rw [hlook2] at hs
            simp only [Option.map_some', Option.some.injEq] at hs
            cases hrec : substMarkers params schema (n2 - 1) t (args ++ [v])
                (metas ++ [(args.length + 1,
                  ((schemaLookup schema (String.mk nm)).any
                    (fun e => e.type = "array") || v.isArray))]) with
            | error e =>
              rw [hrec] at h
              exact absurd h (by simp)
            | ok trip =>
              obtain ⟨rest2, argsF2, metasF2⟩ := trip
              rw [hrec] at h
              simp only [] at h
              rw [Except.ok.injEq, Prod.mk.injEq, Prod.mk.injEq] at h
              obtain ⟨h6, h7, h8⟩ := h
              have hl2 : (args2 ++ [v2]).length = (args ++ [v]).length := by
                simp [hl]
              obtain ⟨args2F, hrec2⟩ := ih (n2 - 1) (args ++ [v]) (args2 ++ [v2])
                _ rest2 argsF2 metasF2 hl2 hrec
              refine ⟨args2F, ?_⟩
              simp only [substMarkers]
              rw [hm]
              simp only []
              rw [hlook2]
              simp only []
              have hmeq : metas ++ [(args2.length + 1,
                  ((schemaLookup schema (String.mk nm)).any
                    (fun e => e.type = "array") || v2.isArray))] =
                  metas ++ [(args.length + 1,
                  ((schemaLookup schema (String.mk nm)).any
                    (fun e => e.type = "array") || v.isArray))] := by
                rw [hl, hs]
              rw [hmeq, hrec2]
              simp only []
              rw [hl, h6, h8]

/-- C1 counterexample: the template itself can contain the parameter's value.
With template `SELECT {{x}}` and string-typed parameter `x = "SELECT"`, the
compiled text `SELECT $1` contains the value `SELECT` as a substring, so the
claimed absence of `v` from the text is false; the value does also appear in
`args`, as claimed. -/
theorem claim_C1_counterexample :
    buildParameterizedQuery "SELECT {{x}}" [("x", JsValue.vStr "SELECT")]
      [("x", { type := "string" })] =
      .ok ("SELECT $1", [JsValue.vStr "SELECT"]) ∧
    strIncludes "SELECT $1" "SELECT" = true :=
  ⟨rfl, rfl⟩

/-- C1 (amended): the compiled text never depends on the parameter values —
two bundles that bind the same names with the same array-ness produce the
same text, whatever the values (so a value like `'; DROP TABLE x;--` cannot
reach the text through substitution; it can coincide with text only if the
template already spells it) — and the values reach the query exclusively as
`args`, which is exactly the list of the bound values of the `{{name}}`
markers in occurrence order. -/
theorem claim_C1_amended (template : String)
    (params params2 : List (String × JsValue)) (schema : ParamSchema)
    (hsame : ∀ name,
      (jsLookup params name).map (fun v =>
        ((schemaLookup schema name).any (fun e => e.type = "array") ||
          v.isArray)) =
      (jsLookup params2 name).map (fun v =>
        ((schemaLookup schema name).any (fun e => e.type = "array") ||
          v.isArray))) :
    ∀ text args,
      buildParameterizedQuery template params schema = .ok (text, args) →
      ∃ args2,
        buildParameterizedQuery template params2 schema = .ok (text, args2) ∧
        args.map some = (markerNames 0 template.data).map (jsLookup params) ∧
        args2.map some = (markerNames 0 template.data).map (jsLookup params2) := by
  intro text args h
  unfold buildParameterizedQuery at h ⊢
  cases hsm : substMarkers params schema 0 template.data [] [] with
  | error e =>
    rw [hsm] at h
    exact absurd h (by simp)
  | ok trip =>
    obtain ⟨chars, args0, metas0⟩ := trip
    rw [hsm] at h
    simp only [] at h
    rw [Except.ok.injEq, Prod.mk.injEq] at h
    obtain ⟨htext, hargs⟩ := h
    obtain ⟨args2F, hsm2⟩ := sm_blind schema params params2 hsame template.data 0
      [] [] [] chars args0 metas0 rfl hsm
    rw [hsm2]
    simp only []
    obtain ⟨vals, nm1, e11, e12, _, _⟩ :=
      sm_run params schema template.data 0 [] [] chars args0 metas0 hsm
    obtain ⟨vals2, nm2, e21, e22, _, _⟩ :=
      sm_run params2 schema template.data 0 [] [] chars args2F metas0 hsm2
    refine ⟨args2F, by rw [htext], ?_, ?_⟩
    · rw [← hargs, e11]
      simp only [List.nil_append]
      exact e12
    · rw [e21]
      simp only [List.nil_append]
      exact e22

/-- Witness for the amended C1 theorem at a concrete instance: swapping the
value of `x` from `"SELECT"` to `"ok"` leaves the compiled text `SELECT $1`
unchanged, and each run's `args` lists its own bound values. -/
theorem claim_C1_amended_witness :
    ∃ args2,
      buildParameterizedQuery "SELECT {{x}}" [("x", JsValue.vStr "ok")] [] =
        .ok ("SELECT $1", args2) ∧
      ([JsValue.vStr "SELECT"] : List JsValue).map some =
        (markerNames 0 ("SELECT {{x}}").data).map
          (jsLookup [("x", JsValue.vStr "SELECT")]) ∧
      args2.map some = (markerNames 0 ("SELECT {{x}}").data).map
        (jsLookup [("x", JsValue.vStr "ok")]) :=
  claim_C1_amended "SELECT {{x}}" [("x", JsValue.vStr "SELECT")]
    [("x", JsValue.vStr "ok")] []
    (by
      intro name
      by_cases h : (("x" : String) = name)
      · simp [jsLookup, schemaLookup, h, JsValue.isArray]
      · simp [jsLookup, schemaLookup, h])
    "SELECT $1" [JsValue.vStr "SELECT"] rfl

end Alfred
